import Mathlib

/-!
# Memecoin Dodge: gameplay simulation and adaptive difficulty

A shallow embedding of `src/fetchMemecoins.js` and of the simulation methods of
`MemecoinDodgeGame` in `src/main.js`.

Conventions of the embedding.

* JavaScript numbers are rationals (`ℚ`): arithmetic is exact, there is no NaN
  and no rounding.  Counters that the code only ever increments from 0 are `ℕ`.
* `Math.random`, `Math.sqrt`, `Math.cos`, `Math.sin`, `Math.PI` and
  `Box3.setFromObject` are not rational functions; they are the fields of `Env`.
  `Math.random()` is a stream: `Game.draws` counts the calls made so far and the
  next call returns `env.random draws`.  Calls made by render-only code inside a
  modelled method are counted, so that the index of every later draw is right.
* Scene graph, DOM, audio and console effects are dropped.  Of the `setTimeout`
  callbacks only those that touch the simulation state are kept (`Deferred`).
* `this.missiles` is a `List Missile`; an object mutated through a local
  reference is written back at its index.
-/

namespace MemecoinDodge

/-! ## Vectors and boxes -/

/-- A `THREE.Vector3`, or a plain `{x, y, z}` object. -/
structure Vec3 where
  x : ℚ
  y : ℚ
  z : ℚ
deriving DecidableEq, Repr

/-- A `THREE.Box3`. -/
structure Box3 where
  min : Vec3
  max : Vec3
deriving DecidableEq, Repr

/-- The method `Box3.intersectsBox` of three.js: the boxes overlap on all three axes. -/
def Box3.intersectsBox (self box : Box3) : Bool :=
  !(decide (box.max.x < self.min.x) || decide (box.min.x > self.max.x) ||
    decide (box.max.y < self.min.y) || decide (box.min.y > self.max.y) ||
    decide (box.max.z < self.min.z) || decide (box.min.z > self.max.z))

/-- The zero vector, `new THREE.Vector3()`. -/
def Vec3.zero : Vec3 := ⟨0, 0, 0⟩

/-- Squared Euclidean length. -/
def Vec3.lengthSq (v : Vec3) : ℚ := v.x * v.x + v.y * v.y + v.z * v.z

/-- Componentwise difference, `subVectors(a, b)`. -/
def Vec3.sub (a b : Vec3) : Vec3 := ⟨a.x - b.x, a.y - b.y, a.z - b.z⟩

/-- `Math.floor`, as an integer. -/
def jsFloor (q : ℚ) : ℤ := ⌊q⌋

/-! ## The roster (`fetchMemecoins.js`) -/

/-- A record of the market-data response, reduced to what the game reads:
`percent_change_24h` is the result of `parseFloat`, `none` standing for NaN
(a missing or unparsable field). -/
structure RawCoin where
  id : ℕ
  percent_change_24h : Option ℚ
deriving DecidableEq, Repr

/-- An entry of `memecoins.json`: identity, percent change and the three derived
game statistics. -/
structure Coin where
  id : ℕ
  percentChange24h : ℚ
  fallSpeed : ℚ
  size : ℚ
  damage : ℚ
deriving DecidableEq, Repr

/-- The expression `parseFloat(coin.quote?.USD?.percent_change_24h) || 0`. -/
def parsePercent (coin : RawCoin) : ℚ := coin.percent_change_24h.getD 0

/-- The body of the `downCoins.map` callback (lines 35-52). -/
def enrichCoin (coin : RawCoin) : Coin :=
  let percentChange := parsePercent coin
  { id := coin.id
    percentChange24h := percentChange
    fallSpeed := min (|percentChange| / 5) 10
    size := min (|percentChange| / 10 + 0.5) 3
    damage := min (|percentChange| / 5) 20 }

/-- The function `fetchMemecoins` on a received response (`none`: the request
failed, the `catch` branch returns the empty roster): keep the coins that are
down, enrich them, sort by largest drop first. -/
def fetchMemecoins (response : Option (List RawCoin)) : List Coin :=
  match response with
  | none => []
  | some data =>
    let downCoins := data.filter (fun coin => decide (parsePercent coin < 0))
    let enrichedCoins := downCoins.map enrichCoin
    enrichedCoins.mergeSort (fun a b => decide (a.percentChange24h ≤ b.percentChange24h))

/-! ## Projectiles -/

/-- The `type` tag of a missile. -/
inductive MissileType where
  | regular
  | homing
  | cluster
  | fragment
deriving DecidableEq, Repr

/-- The method `determineMissileType`, with `rand` the value of its one
`Math.random()` call. -/
def determineMissileType (coin : Coin) (rand : ℚ) : MissileType :=
  let negativeFactor := |coin.percentChange24h| / 50
  if coin.percentChange24h < -30 ∧ rand < 0.8 then
    MissileType.homing
  else if coin.percentChange24h < -20 ∧ rand < 0.4 then
    MissileType.cluster
  else if rand < 0.05 + (negativeFactor * 0.1) then
    MissileType.homing
  else if rand < 0.15 + (negativeFactor * 0.15) then
    MissileType.cluster
  else
    MissileType.regular

/-- The modelled part of a missile's `mesh`: its position, its rotation about z
and, for a homing missile, the unit direction last given to
`quaternion.setFromUnitVectors`. -/
structure Mesh where
  position : Vec3
  rotationZ : ℚ
  heading : Option Vec3
deriving DecidableEq, Repr

/-- An element of `this.missiles`.  `hasLabel` tells a text label from `null`;
`hasTriggeredNearMiss` is absent (falsy) on a new object. -/
structure Missile where
  mesh : Mesh
  coin : Coin
  collider : Box3
  velocity : Vec3
  hasLabel : Bool
  type : MissileType
  age : ℚ
  rotationSpeed : ℚ
  nextTrailTime : ℚ
  hasTriggeredNearMiss : Bool
deriving DecidableEq, Repr

/-- What the simulation takes from the JavaScript runtime and from three.js. -/
structure Env where
  /-- The value of the `n`-th call of `Math.random()`, counted from 0. -/
  random : ℕ → ℚ
  /-- The function `Math.sqrt`. -/
  sqrt : ℚ → ℚ
  /-- The function `Math.cos`. -/
  cos : ℚ → ℚ
  /-- The function `Math.sin`. -/
  sin : ℚ → ℚ
  /-- The constant `Math.PI`. -/
  pi : ℚ
  /-- The result of `new THREE.Box3().setFromObject(mesh)` for the mesh of a
  missile of the given coin and type. -/
  missileBox : Mesh → Coin → MissileType → Box3
  /-- The result of `setFromObject(this.player)` with the player at a position. -/
  playerBox : Vec3 → Box3

/-! ## Game state -/

/-- The values of `currentFlowState`. -/
inductive FlowState where
  | anxiety
  | neutral
  | flow
  | boredom
deriving DecidableEq, Repr

/-- The object `flowZone`. -/
structure FlowZone where
  min : ℚ
  max : ℚ
deriving DecidableEq, Repr

/-- The `setTimeout` callbacks that touch the simulation state. -/
inductive Deferred where
  /-- The callback `() => this.createMissile()` of `adjustDifficulty`. -/
  | createMissile
  /-- The callback of `handleNearMiss` that divides the velocities back. -/
  | undoSlowdown
deriving DecidableEq, Repr

/-- A pending `setTimeout` call: its delay in milliseconds and its callback. -/
structure Timer where
  delay : ℕ
  action : Deferred
deriving DecidableEq, Repr

/-- A health pickup in `this.effects`, reduced to its position. -/
structure Pickup where
  position : Vec3
deriving DecidableEq, Repr

/-- The simulation fields of `MemecoinDodgeGame`. -/
structure Game where
  score : ℚ
  gameOver : Bool
  lastMissileTime : ℚ
  missileInterval : ℚ
  gameTimer : ℚ
  health : ℚ
  coinsDodged : ℕ
  coinsHit : ℕ
  playerSkillRating : ℚ
  flowZone : FlowZone
  lastPerformanceUpdate : ℚ
  consecutiveAvoids : ℕ
  nearMissCount : ℕ
  currentFlowState : FlowState
  playerVelocity : Vec3
  playerOnGround : Bool
  dashDuration : ℚ
  lastDash : ℚ
  /-- The field `player.position`. -/
  playerPosition : Vec3
  playerCollider : Box3
  missiles : List Missile
  memecoins : List Coin
  /-- The health pickups among `this.effects`. -/
  pickups : List Pickup
  /-- Pending deferred callbacks, oldest first. -/
  timers : List Timer
  /-- Number of `Math.random()` calls made so far. -/
  draws : ℕ
deriving DecidableEq, Repr

/-- The constant field `maxHealth`, assigned once in the constructor. -/
def maxHealth : ℚ := 100

/-- The constant field `maxGameTime`. -/
def maxGameTime : ℚ := 180

/-- The constant field `performanceUpdateInterval`. -/
def performanceUpdateInterval : ℚ := 5000

/-- The state the constructor builds, with the roster loaded and the player
created at the origin (`createPlayer`). -/
def initialGame (env : Env) (memecoins : List Coin) : Game :=
  { score := 0
    gameOver := false
    lastMissileTime := 0
    missileInterval := 2000
    gameTimer := 0
    health := 100
    coinsDodged := 0
    coinsHit := 0
    playerSkillRating := 50
    flowZone := { min := 40, max := 60 }
    lastPerformanceUpdate := 0
    consecutiveAvoids := 0
    nearMissCount := 0
    currentFlowState := FlowState.neutral
    playerVelocity := Vec3.zero
    playerOnGround := false
    dashDuration := 0
    lastDash := 0
    playerPosition := ⟨0, 0, 0⟩
    playerCollider := env.playerBox ⟨0, 0, 0⟩
    missiles := []
    memecoins := memecoins
    pickups := []
    timers := []
    draws := 0 }

/-! ## Vector helpers that need `Math.sqrt` -/

/-- The method `Vector3.length`. -/
def Vec3.length (env : Env) (v : Vec3) : ℚ := env.sqrt v.lengthSq

/-- The method `Vector3.normalize`: `divideScalar(this.length() || 1)`. -/
def Vec3.normalize (env : Env) (v : Vec3) : Vec3 :=
  let l := v.length env
  let d := if l = 0 then 1 else l
  ⟨v.x / d, v.y / d, v.z / d⟩

/-- Multiply the three velocity components of a missile by `k`. -/
def Missile.scaleVelocity (k : ℚ) (missile : Missile) : Missile :=
  { missile with
    velocity := ⟨missile.velocity.x * k, missile.velocity.y * k, missile.velocity.z * k⟩ }

/-- Apply `f` to the object at index `i` of an array, if there is one. -/
def modifyAt (l : List Missile) (i : ℕ) (f : Missile → Missile) : List Missile :=
  match l[i]? with
  | some m => l.set i (f m)
  | none => l

/-! ## Spawning -/

/-- The method `createMissile`.  `none` is the uncaught `TypeError` of
`determineMissileType(undefined)` when `memecoins[coinIndex]` does not exist. -/
def createMissile (env : Env) (s : Game) : Option Game :=
  let coinIndex := jsFloor (env.random s.draws * s.memecoins.length)
  match (if 0 ≤ coinIndex then s.memecoins[coinIndex.toNat]? else none) with
  | none => none
  | some coin =>
    let missileType := determineMissileType coin (env.random (s.draws + 1))
    let r2 := env.random (s.draws + 2)
    let r3 := env.random (s.draws + 3)
    let r4 := env.random (s.draws + 4)
    let position : Vec3 :=
      if missileType = MissileType.homing then
        let angle := r2 * env.pi * 2
        let distance := 30 + r3 * 20
        ⟨env.cos angle * distance, 20 + r4 * 10, env.sin angle * distance⟩
      else
        ⟨(r2 - 0.5) * 80, 50 + r4 * 10, (r3 - 0.5) * 80⟩
    let mesh : Mesh := { position := position, rotationZ := 0, heading := none }
    let vy := -coin.fallSpeed * (if missileType = MissileType.homing then 0.8 else 1)
    let velocity : Vec3 :=
      if missileType ≠ MissileType.homing then
        ⟨(env.random (s.draws + 5) - 0.5) * 2, vy, (env.random (s.draws + 6) - 0.5) * 2⟩
      else
        ⟨0, vy, 0⟩
    let used := if missileType ≠ MissileType.homing then 7 else 5
    let missile : Missile :=
      { mesh := mesh
        coin := coin
        collider := env.missileBox mesh coin missileType
        velocity := velocity
        hasLabel := true
        type := missileType
        age := 0
        rotationSpeed := (env.random (s.draws + used) - 0.5) * 2
        nextTrailTime := 0
        hasTriggeredNearMiss := false }
    some { s with missiles := s.missiles ++ [missile], draws := s.draws + used + 1 }

/-- One pass of the loop body of `createClusterFragments` (lines 1100-1139):
four draws (angle, speed, upward velocity, rotation speed) and one push. -/
def pushFragment (env : Env) (missile : Missile) (s : Game) : Game :=
  let angle := env.random s.draws * env.pi * 2
  let speed := 2 + env.random (s.draws + 1) * 3
  let vx := env.cos angle * speed
  let vz := env.sin angle * speed
  let vy := 2 + env.random (s.draws + 2) * 3
  let mesh : Mesh :=
    { position := ⟨missile.mesh.position.x, 0.2, missile.mesh.position.z⟩
      rotationZ := 0
      heading := none }
  let fragment : Missile :=
    { mesh := mesh
      coin := missile.coin
      collider := env.missileBox mesh missile.coin MissileType.fragment
      velocity := ⟨vx, vy, vz⟩
      hasLabel := false
      type := MissileType.fragment
      age := 0
      rotationSpeed := (env.random (s.draws + 3) - 0.5) * 5
      nextTrailTime := 0.05
      hasTriggeredNearMiss := false }
  { s with missiles := s.missiles ++ [fragment], draws := s.draws + 4 }

/-- The loop `for (let i = 0; i < fragmentCount; i++)` with `n` passes left. -/
def fragmentLoop (env : Env) (missile : Missile) : ℕ → Game → Game
  | 0, s => s
  | n + 1, s => fragmentLoop env missile n (pushFragment env missile s)

/-- The method `createClusterFragments`. -/
def createClusterFragments (env : Env) (missile : Missile) (s : Game) : Game :=
  let fragmentCount := 5 + jsFloor (env.random s.draws * 5)
  fragmentLoop env missile fragmentCount.toNat { s with draws := s.draws + 1 }

/-- The number of explosion particles of `createImpactEffect`. -/
def particleCount (missileType : MissileType) : ℕ :=
  if missileType = MissileType.homing then 40
  else if missileType = MissileType.cluster then 30 else 20

/-- The method `createImpactEffect`: crater and particles are render state; each
particle takes seven draws. -/
def createImpactEffect (s : Game) (missileType : MissileType) : Game :=
  { s with draws := s.draws + 7 * particleCount missileType }

/-! ## Session -/

/-- The method `endGame`: the session is over and the missile list is replaced
by a new empty array. -/
def endGame (s : Game) : Game :=
  { s with gameOver := true, missiles := [] }

/-- The assignments of the method `restartGame` (lines 1413-1448): the reset of
the session.  The method ends with `this.animate()` (line 1457), which runs one
frame on the reset state before the method returns; `restartGameCall` is the
method with that frame. -/
def restartGame (env : Env) (s : Game) : Game :=
  { s with
    score := 0
    gameOver := false
    lastMissileTime := 0
    missileInterval := 2000
    gameTimer := 0
    health := maxHealth
    coinsDodged := 0
    coinsHit := 0
    playerSkillRating := 50
    flowZone := { min := 40, max := 60 }
    consecutiveAvoids := 0
    nearMissCount := 0
    currentFlowState := FlowState.neutral
    playerVelocity := Vec3.zero
    playerOnGround := false
    dashDuration := 0
    lastDash := 0
    playerPosition := ⟨0, 0, 0⟩
    playerCollider := env.playerBox ⟨0, 0, 0⟩ }

/-- The method `handlePlayerHit`.  On the surviving path `cameraShake` runs its
first `applyShake` at once, which takes three draws. -/
def handlePlayerHit (s : Game) (missile : Missile) : Game :=
  let damage : ℚ := jsFloor |missile.coin.percentChange24h|
  let s := { s with health := max 0 (s.health - damage) }
  if s.health ≤ 0 then
    endGame s
  else
    { s with coinsHit := s.coinsHit + 1, draws := s.draws + 3 }

/-! ## Difficulty controller -/

/-- The method `updatePlayerSkillRating`. -/
def updatePlayerSkillRating (s : Game) : Game :=
  let dodgeRate : ℚ := (s.coinsDodged : ℚ) / max ((s.coinsDodged : ℚ) + s.coinsHit) 1
  let healthFactor := s.health / maxHealth
  let nearMissFactor := min ((s.nearMissCount : ℚ) / 5) 1
  let skillChange : ℚ := 0
  let skillChange := skillChange + dodgeRate * 5
  let skillChange := skillChange + healthFactor * 3
  let skillChange := skillChange + nearMissFactor * 2
  let recentHits : ℚ := if s.coinsHit > 0 then 1 else 0
  let skillChange := skillChange - recentHits * 5
  let playerSkillRating := max (min (s.playerSkillRating + skillChange) 100) 0
  { s with
    playerSkillRating := playerSkillRating
    flowZone := { min := max (playerSkillRating - 15) 10, max := min (playerSkillRating + 15) 90 }
    nearMissCount := 0 }

/-- The method `updateFlowState`. -/
def updateFlowState (s : Game) (currentDifficulty : ℚ) : Game :=
  if currentDifficulty < s.flowZone.min then
    { s with currentFlowState := FlowState.boredom }
  else if currentDifficulty > s.flowZone.max then
    { s with currentFlowState := FlowState.anxiety }
  else
    { s with
      currentFlowState := FlowState.flow
      flowZone := { s.flowZone with max := min (s.flowZone.max + 1) 95 } }

/-- The method `adjustDifficulty`, with `now` the value of `Date.now()`. -/
def adjustDifficulty (env : Env) (now : ℚ) (s : Game) : Game :=
  let baseDifficulty := 100 - ((s.missileInterval - 300) / 1700) * 100
  let s :=
    match s.currentFlowState with
    | FlowState.boredom =>
      let s1 := { s with missileInterval := max (s.missileInterval - 100) 300, draws := s.draws + 1 }
      if env.random s.draws < 0.3 then
        { s1 with timers := s1.timers ++ [⟨500, Deferred.createMissile⟩] }
      else s1
    | FlowState.anxiety =>
      { s with missileInterval := min (s.missileInterval + 50) 2000 }
    | FlowState.flow =>
      let missileInterval := s.missileInterval + (env.random s.draws - 0.5) * 100
      { s with missileInterval := max (min missileInterval 1500) 500, draws := s.draws + 1 }
    | FlowState.neutral => s
  if now - s.lastPerformanceUpdate > performanceUpdateInterval then
    let s := updatePlayerSkillRating s
    let s := updateFlowState s baseDifficulty
    { s with lastPerformanceUpdate := now }
  else s

/-! ## Streaks and near misses -/

/-- The method `createHealthPickup`: two draws place the pickup around the player. -/
def createHealthPickup (env : Env) (s : Game) : Game :=
  let angle := env.random s.draws * env.pi * 2
  let distance := 5 + env.random (s.draws + 1) * 10
  let pickup : Pickup :=
    ⟨⟨s.playerPosition.x + env.cos angle * distance, 1,
      s.playerPosition.z + env.sin angle * distance⟩⟩
  { s with pickups := s.pickups ++ [pickup], draws := s.draws + 2 }

/-- The method `handleDodgeStreak`. -/
def handleDodgeStreak (env : Env) (s : Game) : Game :=
  if s.consecutiveAvoids = 5 then
    { s with score := s.score + 50 }
  else if s.consecutiveAvoids = 10 then
    { s with score := s.score + 100 }
  else if s.consecutiveAvoids = 15 then
    { s with score := s.score + 200 }
  else if s.consecutiveAvoids ≥ 20 ∧ s.consecutiveAvoids % 10 = 0 then
    let s := { s with score := s.score + 300 }
    if s.health < maxHealth then createHealthPickup env s else s
  else s

/-- The constant `slowdownFactor` of `handleNearMiss`. -/
def slowdownFactor : ℚ := 0.7

/-- The method `handleNearMiss`. -/
def handleNearMiss (s : Game) : Game :=
  { s with
    nearMissCount := s.nearMissCount + 1
    missiles := s.missiles.map (Missile.scaleVelocity slowdownFactor)
    timers := s.timers ++ [⟨500, Deferred.undoSlowdown⟩]
    score := s.score + 5 }

/-- The deferred callback of `handleNearMiss` (lines 1839-1845): every listed
missile has its velocity divided by `slowdownFactor`. -/
def undoSlowdown (s : Game) : Game :=
  { s with
    missiles := s.missiles.map (fun missile =>
      { missile with
        velocity := ⟨missile.velocity.x / slowdownFactor, missile.velocity.y / slowdownFactor,
          missile.velocity.z / slowdownFactor⟩ }) }

/-- Run a deferred callback. -/
def fire (env : Env) (action : Deferred) (s : Game) : Option Game :=
  match action with
  | Deferred.createMissile => createMissile env s
  | Deferred.undoSlowdown => some (undoSlowdown s)

/-- The `k`-th pending timer expires: it leaves the queue and its callback runs. -/
def fireTimer (env : Env) (k : ℕ) (s : Game) : Option Game :=
  match s.timers[k]? with
  | none => some s
  | some timer => fire env timer.action { s with timers := s.timers.eraseIdx k }

/-! ## Kinematics (`updateMissiles`) -/

/-- The method `updateHomingMissile`; it reads `this.player.position` and
mutates only the missile. -/
def updateHomingMissile (env : Env) (s : Game) (missile : Missile) (deltaTime : ℚ) : Missile :=
  let toPlayer := (Vec3.sub s.playerPosition missile.mesh.position).normalize env
  let homingStrength := min (missile.age * 0.5) 3
  let vx := missile.velocity.x + toPlayer.x * homingStrength * deltaTime
  let vz := missile.velocity.z + toPlayer.z * homingStrength * deltaTime
  let vy := missile.velocity.y + (toPlayer.y - 1) * homingStrength * deltaTime
  let maxSpeed := missile.coin.fallSpeed * 1.5
  let speed := env.sqrt (vx * vx + vy * vy + vz * vz)
  let velocity : Vec3 :=
    if speed > maxSpeed then
      let scale := maxSpeed / speed
      ⟨vx * scale, vy * scale, vz * scale⟩
    else ⟨vx, vy, vz⟩
  let mesh : Mesh :=
    if speed > 0.1 then { missile.mesh with heading := some (velocity.normalize env) }
    else missile.mesh
  { missile with velocity := velocity, mesh := mesh }

/-- Lines 874-885 of `updateMissiles`: wind on a missile that is not homing, with
`d` the index of the first of its two draws, then the horizontal speed limit. -/
def applyWind (env : Env) (d : ℕ) (missile : Missile) : Missile :=
  let vx := missile.velocity.x + (env.random d - 0.5) * 0.1
  let vz := missile.velocity.z + (env.random (d + 1) - 0.5) * 0.1
  let maxHorizontalSpeed : ℚ := 3
  let horizSpeed := env.sqrt (vx * vx + vz * vz)
  if horizSpeed > maxHorizontalSpeed then
    let scale := maxHorizontalSpeed / horizSpeed
    { missile with velocity := ⟨vx * scale, missile.velocity.y, vz * scale⟩ }
  else
    { missile with velocity := ⟨vx, missile.velocity.y, vz⟩ }

/-- Lines 860-898 of the loop body: age, position, type behaviour, trail
particle (four draws), rotation and collider of the missile read at index `i`.
Returns the distance to the player measured after the position update, the
updated missile and the number of draws taken. -/
def moveMissile (env : Env) (deltaTime : ℚ) (s : Game) (missile : Missile) : ℚ × Missile × ℕ :=
  let missile := { missile with age := missile.age + deltaTime }
  let missile :=
    { missile with
      mesh := { missile.mesh with
        position :=
          ⟨missile.mesh.position.x + missile.velocity.x * deltaTime,
           missile.mesh.position.y + missile.velocity.y * deltaTime,
           missile.mesh.position.z + missile.velocity.z * deltaTime⟩ } }
  let distanceToPlayer := (Vec3.sub missile.mesh.position s.playerPosition).length env
  let wind := if missile.type = MissileType.homing then 0 else 2
  let missile :=
    if missile.type = MissileType.homing then updateHomingMissile env s missile deltaTime
    else applyWind env s.draws missile
  let trail := if missile.age > missile.nextTrailTime then 4 else 0
  let missile :=
    if missile.age > missile.nextTrailTime then
      { missile with nextTrailTime := missile.age + 0.05 }
    else missile
  let mesh := { missile.mesh with rotationZ := missile.mesh.rotationZ + missile.rotationSpeed * deltaTime }
  let missile := { missile with mesh := mesh, collider := env.missileBox mesh missile.coin missile.type }
  (distanceToPlayer, missile, wind + trail)

/-- Lines 912-942 of the loop body, the ground-impact branch for the moved
missile at index `i`: impact effect, fragments of a cluster, the two counters,
the streak bonus, `splice(i, 1)`. -/
def groundImpact (env : Env) (i : ℕ) (missile : Missile) (s : Game) : Game :=
  let s := createImpactEffect s missile.type
  let s := if missile.type = MissileType.cluster then createClusterFragments env missile s else s
  let s := { s with coinsDodged := s.coinsDodged + 1, consecutiveAvoids := s.consecutiveAvoids + 1 }
  let s := handleDodgeStreak env s
  { s with missiles := s.missiles.eraseIdx i }

/-- Lines 945-950 of the loop body, near-miss detection for the moved missile at
index `i`. -/
def nearMissCheck (i : ℕ) (distanceToPlayer : ℚ) (missile : Missile) (s : Game) : Game :=
  if distanceToPlayer < 3 ∧ distanceToPlayer > 1 then
    if missile.hasTriggeredNearMiss = false ∧ missile.mesh.position.y > 0 then
      let s := handleNearMiss s
      { s with missiles := modifyAt s.missiles i (fun m => { m with hasTriggeredNearMiss := true }) }
    else s
  else s

/-- The body of the loop of `updateMissiles` at index `i`, for the missile read
there (lines 859-984): the state that the pass leaves.  A pass either runs to
its end or is cut short by the `NotFoundError` of line 981 (see `stepThrows`);
the state is the same in both cases, since the throw comes after every
assignment of the pass except `splice(i, 1)`, which then would act on the new
empty array of `endGame`. -/
def stepMissile (env : Env) (deltaTime : ℚ) (i : ℕ) (missile : Missile) (s : Game) : Game :=
  let moved := moveMissile env deltaTime s missile
  let distanceToPlayer := moved.1
  let missile := moved.2.1
  let s := { s with missiles := s.missiles.set i missile, draws := s.draws + moved.2.2 }
  if missile.mesh.position.y < 0 then
    groundImpact env i missile s
  else
    let s := nearMissCheck i distanceToPlayer missile s
    let bounds : ℚ := 100
    if missile.mesh.position.x < -bounds ∨ missile.mesh.position.x > bounds ∨
        missile.mesh.position.z < -bounds ∨ missile.mesh.position.z > bounds ∨
        missile.mesh.position.y > 100 then
      -- out of bounds: removed without effect
      { s with missiles := s.missiles.eraseIdx i }
    else if missile.collider.intersectsBox s.playerCollider then
      -- collision with the player
      let s := handlePlayerHit s missile
      let s := { s with consecutiveAvoids := 0 }
      { s with missiles := s.missiles.eraseIdx i }
    else s

/-- Whether the pass of the loop body for the listed missile `missile` is cut
short by the `NotFoundError` of line 981.  The player-hit branch first calls
`handlePlayerHit`; when the hit is fatal, `endGame` (lines 1401-1406) removes
the label of every listed missile from the document, the one of the missile
being processed included, and `document.body.removeChild(missile.label)` of
line 981 then throws for a missile that has a label.  Fragments have none. -/
def stepThrows (env : Env) (deltaTime : ℚ) (missile : Missile) (s : Game) : Bool :=
  let moved := moveMissile env deltaTime s missile
  let missile := moved.2.1
  let bounds : ℚ := 100
  !decide (missile.mesh.position.y < 0) &&
  !decide (missile.mesh.position.x < -bounds ∨ missile.mesh.position.x > bounds ∨
      missile.mesh.position.z < -bounds ∨ missile.mesh.position.z > bounds ∨
      missile.mesh.position.y > 100) &&
  missile.collider.intersectsBox s.playerCollider &&
  decide ((handlePlayerHit s missile).health ≤ 0) &&
  missile.hasLabel

/-- The two uncaught exceptions of the loop of `updateMissiles`. -/
inductive LoopError where
  -- the `TypeError` of `missile.age` when `this.missiles[i]` is undefined
  | missingIndex
  -- the `NotFoundError` of line 981, which removes a label that `endGame` removed
  | labelNotFound
deriving DecidableEq, Repr

/-- The loop `for (let i = this.missiles.length - 1; i >= 0; i--)` with `n`
indices left, the next one being `n - 1`.  `none` is an uncaught exception,
which ends the loop and the tick: the `TypeError` of `missile.age` when
`this.missiles[i]` is undefined, or the `NotFoundError` of line 981. -/
def missileLoop (env : Env) (deltaTime : ℚ) : ℕ → Game → Option Game
  | 0, s => some s
  | i + 1, s =>
    match s.missiles[i]? with
    | none => none
    | some missile =>
      if stepThrows env deltaTime missile s then none
      else missileLoop env deltaTime i (stepMissile env deltaTime i missile s)

/-- The exception that ends the loop, if any, and the index at which it is
thrown. -/
def missileLoopError (env : Env) (deltaTime : ℚ) : ℕ → Game → Option (LoopError × ℕ)
  | 0, _ => none
  | i + 1, s =>
    match s.missiles[i]? with
    | none => some (LoopError.missingIndex, i)
    | some missile =>
      if stepThrows env deltaTime missile s then some (LoopError.labelNotFound, i)
      else missileLoopError env deltaTime i (stepMissile env deltaTime i missile s)

/-- The method `updateMissiles`, with `now` the value of `Date.now()`. -/
def updateMissiles (env : Env) (now : ℚ) (deltaTime : ℚ) (s : Game) : Option Game :=
  let spawned : Option Game :=
    if now - s.lastMissileTime > s.missileInterval then
      (createMissile env s).map (fun s => adjustDifficulty env now { s with lastMissileTime := now })
    else some s
  spawned.bind (fun s => missileLoop env deltaTime s.missiles.length s)

/-- One skill evaluation as `adjustDifficulty` runs it (lines 1714-1715). -/
def skillEvaluation (s : Game) (currentDifficulty : ℚ) : Game :=
  updateFlowState (updatePlayerSkillRating s) currentDifficulty

/-- States reached from the constructed or a restarted state by skill
evaluations.  Between evaluations the game may change anything except
`flowZone` and `playerSkillRating`, which no other method assigns. -/
inductive EvalReachable (env : Env) : Game → Prop where
  | initial (memecoins : List Coin) : EvalReachable env (initialGame env memecoins)
  | restart (s : Game) : EvalReachable env (restartGame env s)
  | evaluate (s : Game) (currentDifficulty : ℚ) :
      EvalReachable env s → EvalReachable env (skillEvaluation s currentDifficulty)
  | play (s t : Game) :
      EvalReachable env s → t.flowZone = s.flowZone →
      t.playerSkillRating = s.playerSkillRating → EvalReachable env t

/-- The archetype rule in the words of the specification, with the factor capped:
`min(|percentChange|/50, 1)`. -/
def archetypeRuleCapped (p r : ℚ) : MissileType :=
  if p < -30 ∧ r < 0.8 then MissileType.homing
  else if p < -20 ∧ r < 0.4 then MissileType.cluster
  else if r < 0.05 + 0.1 * min (|p| / 50) 1 then MissileType.homing
  else if r < 0.15 + 0.15 * min (|p| / 50) 1 then MissileType.cluster
  else MissileType.regular

/-! ## Concrete inputs -/

/-- A varied stream of draws in `[0, 1)`: 0, 0.7, 0.4, 0.1, 0.8, 0.5, 0.2, 0.9, 0.6, 0.3, ... -/
def sampleRandom (n : ℕ) : ℚ := ((n * 7 % 10 : ℕ) : ℚ) / 10

/-- A concrete environment: five Newton steps for `sqrt`, exact rational points
of the unit circle for `cos` and `sin`, a box of half-width `coin.size` around a
missile and a 1 x 2 x 1 box standing on the player's position. -/
def sampleEnv : Env :=
  { random := sampleRandom
    sqrt := fun x => (fun g => (g + x / g) / 2)^[5] ((x + 1) / 2)
    cos := fun a => (1 - a * a) / (1 + a * a)
    sin := fun a => 2 * a / (1 + a * a)
    pi := 355 / 113
    missileBox := fun mesh coin _ =>
      ⟨⟨mesh.position.x - coin.size, mesh.position.y - coin.size, mesh.position.z - coin.size⟩,
       ⟨mesh.position.x + coin.size, mesh.position.y + coin.size, mesh.position.z + coin.size⟩⟩
    playerBox := fun p => ⟨⟨p.x - 0.5, p.y, p.z - 0.5⟩, ⟨p.x + 0.5, p.y + 2, p.z + 0.5⟩⟩ }

/-- The roster entry produced from a parsed percent change. -/
def sampleCoin (p : ℚ) : Coin := enrichCoin { id := 1, percent_change_24h := some p }

/-- A missile of the given type at a position with a velocity. -/
def sampleMissile (p : ℚ) (type : MissileType) (position velocity : Vec3) : Missile :=
  let mesh : Mesh := { position := position, rotationZ := 0, heading := none }
  { mesh := mesh
    coin := sampleCoin p
    collider := sampleEnv.missileBox mesh (sampleCoin p) type
    velocity := velocity
    hasLabel := true
    type := type
    age := 0
    rotationSpeed := 0
    nextTrailTime := 0
    hasTriggeredNearMiss := false }

/-- The state after eight skill evaluations at difficulty 0 from the constructed
state (the rating climbs 50, 53, ..., 74) and a ninth at difficulty 70. -/
def ninthEvaluation : Game :=
  skillEvaluation ((fun s => skillEvaluation s 0)^[8] (initialGame sampleEnv [])) 70

/-- A cluster missile of a coin at -45 %, just above the ground over the origin
and falling at 9 units/s: its box overlaps the box of a player at the origin. -/
def lowCluster : Missile :=
  sampleMissile (-45) MissileType.cluster ⟨0, 0.05, 0⟩ ⟨0, -9, 0⟩

/-- The constructed state with roster `[-45 %]` and `lowCluster` as only missile. -/
def lowClusterState : Game :=
  { initialGame sampleEnv [sampleCoin (-45)] with missiles := [lowCluster] }

/-- A regular missile of a coin at -45 % falling onto a player at the origin:
after a tick of 0.1 s it is at height 0.6 and its box overlaps the player's. -/
def hitter : Missile :=
  sampleMissile (-45) MissileType.regular ⟨0, 1.5, 0⟩ ⟨0, -9, 0⟩

/-- A fragment of a cluster of a coin at -45 %, rising through a player at the
origin: after a tick of 0.1 s it is at `(0.3, 0.8, 0)`, inside the player's box
and less than 1 away.  Like every fragment it has no label. -/
def fragmentHitter : Missile :=
  { sampleMissile (-45) MissileType.fragment ⟨0.1, 0.5, 0⟩ ⟨2, 3, 0⟩ with
    hasLabel := false, nextTrailTime := 0.05 }

/-- A session in the boredom state with health 20, roster `[-45 %]` and
`fragmentHitter` as only missile. -/
def boredState : Game :=
  { initialGame sampleEnv [sampleCoin (-45)] with
    currentFlowState := FlowState.boredom
    health := 20
    missiles := [fragmentHitter] }

/-! ## Player controller -/

/-- The snapshot of `this.keys` and `this.touchControls` that one
`updatePlayer` call reads. -/
structure Input where
  forward : Bool
  backward : Bool
  left : Bool
  right : Bool
  touchActive : Bool
  moveX : ℚ
  moveY : ℚ
deriving DecidableEq, Repr

/-- The constant field `gravity`. -/
def gravity : ℚ := 20

/-- The constant field `dashSpeed`. -/
def dashSpeed : ℚ := 15

/-- The constant field `dashCooldown`, in milliseconds. -/
def dashCooldown : ℚ := 2000

/-- The method `createDashEffect`: fifteen render-only particles, three draws each. -/
def createDashEffect (s : Game) : Game :=
  { s with draws := s.draws + 45 }

/-- The method `tryDash`, with `now` the value of `Date.now()`. -/
def tryDash (now : ℚ) (s : Game) : Game :=
  if now - s.lastDash > dashCooldown ∧ s.dashDuration ≤ 0 then
    createDashEffect { s with dashDuration := 0.2, lastDash := now }
  else s

/-- The method `updateScore`; the time display is render state. -/
def updateScore (s : Game) (deltaTime : ℚ) : Game :=
  let scoreIncrement := 1 * deltaTime
  let multiplier : ℚ := if s.dashDuration > 0 then 2 else 1
  let scoreIncrement := scoreIncrement * multiplier
  { s with score := s.score + scoreIncrement }

/-- The local `dashFactor` of `updatePlayer` (lines 1576-1578), read from the
state on entry: `dashSpeed / 5` while `dashDuration > 0`, else 1. -/
def dashFactor (s : Game) : ℚ :=
  if s.dashDuration > 0 then dashSpeed / 5 else 1

/-- The local `moveVector` of `updatePlayer` (lines 1588-1602): the sum of the
pressed directions, normalised and scaled back to `speed` when not zero. -/
def moveVector (env : Env) (input : Input) (speed : ℚ) : Vec3 :=
  let z : ℚ := 0
  let x : ℚ := 0
  let z := if input.forward then z - speed else z
  let z := if input.backward then z + speed else z
  let x := if input.left then x - speed else x
  let x := if input.right then x + speed else x
  let v : Vec3 := ⟨x, 0, z⟩
  if v.length env > 0 then
    let n := v.normalize env
    ⟨n.x * speed, n.y * speed, n.z * speed⟩
  else v

/-- Lines 1549-1559 of `updatePlayer`: gravity while airborne, then the ground
check on the position of the previous tick. -/
def playerPhysics (deltaTime : ℚ) (s : Game) : Game :=
  let s :=
    if s.playerOnGround = false then
      { s with playerVelocity := { s.playerVelocity with y := s.playerVelocity.y - gravity * deltaTime } }
    else s
  if s.playerPosition.y ≤ 0 then
    { s with
      playerOnGround := true
      playerPosition := { s.playerPosition with y := 0 }
      playerVelocity := { s.playerVelocity with y := 0 } }
  else s

/-- Lines 1577-1585 of `updatePlayer`: while dashing the remaining duration goes
down by `deltaTime` and one draw decides on a dash effect. -/
def dashTick (env : Env) (deltaTime : ℚ) (s : Game) : Game :=
  if s.dashDuration > 0 then
    let s1 := { s with dashDuration := s.dashDuration - deltaTime, draws := s.draws + 1 }
    if env.random s.draws > 0.5 then createDashEffect s1 else s1
  else s

/-- Lines 1587-1660 of `updatePlayer`: keyboard movement at `5 * factor`, vertical
velocity, touch movement, the limit to the playable area and the collider. -/
def movePlayer (env : Env) (input : Input) (factor : ℚ) (deltaTime : ℚ) (s : Game) : Game :=
  let speed := 5.0 * factor
  let move := moveVector env input speed
  let x := s.playerPosition.x + move.x * deltaTime
  let z := s.playerPosition.z + move.z * deltaTime
  let y := s.playerPosition.y + s.playerVelocity.y * deltaTime
  let touchSensitivity := 0.05 * factor
  let x := if input.touchActive then x + input.moveX * touchSensitivity * deltaTime else x
  let z := if input.touchActive then z + input.moveY * touchSensitivity * deltaTime else z
  let x := max (min x 40) (-40)
  let z := max (min z 40) (-40)
  { s with playerPosition := ⟨x, y, z⟩, playerCollider := env.playerBox ⟨x, y, z⟩ }

/-- Lines 1671-1682 of `updatePlayer`: the score, then the game timer and the
end of the session on timeout. -/
def clockTick (deltaTime : ℚ) (s : Game) : Game :=
  let s := updateScore s deltaTime
  if s.gameOver = false then
    let s := { s with gameTimer := s.gameTimer + deltaTime }
    if s.gameTimer ≥ maxGameTime then endGame s else s
  else s

/-- The method `updatePlayer`.  Rotation, limb animation and the camera rig are
render state.  `dashFactor` is read before the dash duration is decreased. -/
def updatePlayer (env : Env) (input : Input) (deltaTime : ℚ) (s : Game) : Game :=
  let s := playerPhysics deltaTime s
  let factor := dashFactor s
  let s := dashTick env deltaTime s
  let s := movePlayer env input factor deltaTime s
  clockTick deltaTime s

/-! ## Streak counting -/

/-- Lines 929-933 of the ground-impact branch: both dodge counters go up and
`handleDodgeStreak` looks at the new streak. -/
def countDodge (env : Env) (s : Game) : Game :=
  handleDodgeStreak env
    { s with coinsDodged := s.coinsDodged + 1, consecutiveAvoids := s.consecutiveAvoids + 1 }

/-- The concrete environment with a square root that is exact on squares of
rationals: the integer square roots of numerator and denominator. -/
def exactEnv : Env :=
  { sampleEnv with sqrt := fun x => (Nat.sqrt x.num.toNat : ℚ) / (Nat.sqrt x.den : ℚ) }

/-- Only the right key is pressed. -/
def rightKey : Input :=
  { forward := false, backward := false, left := false, right := true,
    touchActive := false, moveX := 0, moveY := 0 }

/-- A player on the ground at the origin whose dash has 0.1 s left. -/
def lastDashTick : Game :=
  { initialGame sampleEnv [] with dashDuration := 0.1, playerOnGround := true }

/-- A fragment just above the ground moving at `(1, 4, 0)`. -/
def risingFragment : Missile :=
  { sampleMissile (-45) MissileType.fragment ⟨0, 0.2, 0⟩ ⟨1, 4, 0⟩ with
    hasLabel := false, nextTrailTime := 0.05 }

/-- A regular missile 30 units up falling straight at 9 units/s. -/
def fallingRegular : Missile :=
  sampleMissile (-45) MissileType.regular ⟨0, 30, 0⟩ ⟨0, -9, 0⟩

/-- The horizontal speed limit of a regular or cluster missile, in squared form:
`vx² + vz² ≤ 3²`. -/
def HorizontalOk (missile : Missile) : Prop :=
  (missile.type = MissileType.regular ∨ missile.type = MissileType.cluster) →
    missile.velocity.x ^ 2 + missile.velocity.z ^ 2 ≤ 9

/-- A regular missile 30 units up with horizontal velocity `(5, 5)`, above the
limit of 3. -/
def fastRegular : Missile :=
  sampleMissile (-45) MissileType.regular ⟨0, 30, 0⟩ ⟨5, -9, 5⟩

/-- The constructed state with roster `[-45 %]` and `fastRegular` as only missile. -/
def fastRegularState : Game :=
  { initialGame sampleEnv [sampleCoin (-45)] with missiles := [fastRegular] }

/-- A homing missile of a coin at -45 % (fall speed 9, speed limit 13.5), one
second old, falling at 20 units/s, away from a player at the origin. -/
def fastHoming : Missile :=
  { sampleMissile (-45) MissileType.homing ⟨30, 25, 0⟩ ⟨0, -20, 0⟩ with age := 1 }

/-- A small regular missile that passes a player at the origin at a distance
between 1 and 3 without touching the player's box. -/
def grazing : Missile :=
  sampleMissile (-1) MissileType.regular ⟨2, 1.9, 0⟩ ⟨0, -9, 0⟩

/-- The constructed state with `grazing` as only missile. -/
def grazingState : Game :=
  { initialGame sampleEnv [sampleCoin (-1)] with missiles := [grazing] }

/-! ## Keyboard and frames -/

/-- The keys that `handleKeyDown` tells apart: the four directions (arrow or
letter), the space bar, shift, and any other key. -/
inductive Key where
  | forward
  | backward
  | left
  | right
  | space
  | shift
  | other
deriving DecidableEq, Repr

/-- The constant field `jumpHeight`. -/
def jumpHeight : ℚ := 10

/-- The method `handleKeyDown`, on the key state and the game, with `now` the
value of `Date.now()` that `tryDash` reads. -/
def handleKeyDown (key : Key) (now : ℚ) (input : Input) (s : Game) : Input × Game :=
  match key with
  | Key.forward => ({ input with forward := true }, s)
  | Key.backward => ({ input with backward := true }, s)
  | Key.left => ({ input with left := true }, s)
  | Key.right => ({ input with right := true }, s)
  | Key.space =>
    if s.playerOnGround then
      (input,
        { s with
          playerVelocity := { s.playerVelocity with y := jumpHeight }
          playerOnGround := false })
    else (input, s)
  | Key.shift => (input, tryDash now s)
  | Key.other => (input, s)

/-- One frame of the method `animate` of an initialised game: nothing when the
game is over, else `updatePlayer` then `updateMissiles` with the same capped
`deltaTime`.  `updateParticles` and the render call are not part of the model. -/
def animateFrame (env : Env) (input : Input) (now deltaTime : ℚ) (s : Game) : Option Game :=
  if s.gameOver then some s
  else updateMissiles env now deltaTime (updatePlayer env input deltaTime s)

/-- The method `restartGame` in full: the assignments of `restartGame`, then
its last statement `this.animate()` (line 1457), which runs one frame on the
reset state, with `now` the value of `Date.now()` and `deltaTime` the capped
time since the last frame of the ended session. -/
def restartGameCall (env : Env) (input : Input) (now deltaTime : ℚ) (s : Game) : Option Game :=
  animateFrame env input now deltaTime (restartGame env s)

/-- No key is pressed and no touch is active. -/
def noInput : Input :=
  { forward := false, backward := false, left := false, right := false,
    touchActive := false, moveX := 0, moveY := 0 }

/-- A player standing on the ground at the origin. -/
def groundedState : Game :=
  { initialGame sampleEnv [sampleCoin (-45)] with playerOnGround := true }

/-- A session 0.05 s before the time limit, with an empty list and a spawn due. -/
def lastSecond : Game :=
  { groundedState with gameTimer := 179.95 }

/-- A session with health 20 and two missiles: `fallingRegular` at index 0 and
the fragment `fragmentHitter`, about to hit the player, at index 1. -/
def twoMissileState : Game :=
  { groundedState with health := 20, missiles := [fallingRegular, fragmentHitter] }

/-- The same session with the labelled missile `hitter` at index 1. -/
def labelledHitState : Game :=
  { groundedState with health := 20, missiles := [fallingRegular, hitter] }

/-- The constructed state after fifteen dodges in a row, with `hitter` listed. -/
def streakState : Game :=
  { (countDodge sampleEnv)^[15] groundedState with missiles := [hitter] }

/-- A regular missile beyond the x bound of 100, 30 units up. -/
def strayMissile : Missile :=
  sampleMissile (-45) MissileType.regular ⟨150, 30, 0⟩ ⟨0, -9, 0⟩

/-- The grounded session with `strayMissile` as only missile. -/
def strayState : Game :=
  { groundedState with missiles := [strayMissile] }

/-! ## Session histories -/

/-- The hits of a running session: `HitRun s n t` when `t` is reached from `s`
with `n` calls of `handlePlayerHit`, each on a game that is not over, and any
steps in between that assign neither `coinsHit` nor `gameOver` (only
`handlePlayerHit`, `endGame` and `restartGame` do). -/
inductive HitRun : Game → ℕ → Game → Prop where
  | start (s : Game) : HitRun s 0 s
  | hit (s t : Game) (n : ℕ) (missile : Missile) :
      HitRun s n t → t.gameOver = false → HitRun s (n + 1) (handlePlayerHit t missile)
  | other (s t u : Game) (n : ℕ) :
      HitRun s n t → u.coinsHit = t.coinsHit → u.gameOver = t.gameOver → HitRun s n u

/-- The flow controller since the construction or the last restart:
`Phase env s n` when `s` is reached with `n` skill evaluations.  A call of
`adjustDifficulty` evaluates when the performance interval has passed; the steps
in between assign neither `currentFlowState` nor `missileInterval` (only
`adjustDifficulty`, `updateFlowState` and `restartGame` do). -/
inductive Phase (env : Env) : Game → ℕ → Prop where
  | initial (memecoins : List Coin) : Phase env (initialGame env memecoins) 0
  | restart (s : Game) : Phase env (restartGame env s) 0
  | adjust (s : Game) (n : ℕ) (now : ℚ) :
      Phase env s n →
      Phase env (adjustDifficulty env now s)
        (if now - s.lastPerformanceUpdate > performanceUpdateInterval then n + 1 else n)
  | other (s t : Game) (n : ℕ) :
      Phase env s n → t.currentFlowState = s.currentFlowState →
      t.missileInterval = s.missileInterval → Phase env t n

/-! ## The reverse loop as a whole -/

/-- No pass of the loop from index `n - 1` down ends the session: `gameOver` is
false after every pass. -/
def NoSessionEnd (env : Env) (deltaTime : ℚ) : ℕ → Game → Prop
  | 0, _ => True
  | i + 1, s =>
    match s.missiles[i]? with
    | none => True
    | some missile =>
      (stepMissile env deltaTime i missile s).gameOver = false ∧
        NoSessionEnd env deltaTime i (stepMissile env deltaTime i missile s)

/-- The missiles that the loop reads at `this.missiles[i]`, in the order in
which it reads them; a pass that throws is the last. -/
def loopReads (env : Env) (deltaTime : ℚ) : ℕ → Game → List Missile
  | 0, _ => []
  | i + 1, s =>
    match s.missiles[i]? with
    | none => []
    | some missile =>
      if stepThrows env deltaTime missile s then [missile]
      else missile :: loopReads env deltaTime i (stepMissile env deltaTime i missile s)

/-- The missile `m'` is `m` after some near-miss slowdowns: only the velocity
differs, by a power of the slowdown factor. -/
def Slowed (m m' : Missile) : Prop :=
  ∃ k : ℕ, m' = (Missile.scaleVelocity slowdownFactor)^[k] m

/-- The missile `m'` is `m` after one pass of the loop body: it has aged by
`deltaTime` once and is of the same coin and type. -/
def Processed (deltaTime : ℚ) (m m' : Missile) : Prop :=
  m'.age = m.age + deltaTime ∧ m'.coin = m.coin ∧ m'.type = m.type

/-- A fragment as `createClusterFragments` pushes it: age 0 and height 0.2. -/
def Fresh (f : Missile) : Prop :=
  f.type = MissileType.fragment ∧ f.age = 0 ∧ f.mesh.position.y = 0.2

/-- The grounded session with `fallingRegular` at index 0 and `lowCluster`,
about to hit the ground, at index 1. -/
def mixedState : Game :=
  { groundedState with missiles := [fallingRegular, lowCluster] }

/-- The check of `NoSessionEnd` as a computation. -/
def noSessionEndCheck (env : Env) (deltaTime : ℚ) : ℕ → Game → Bool
  | 0, _ => true
  | i + 1, s =>
    match s.missiles[i]? with
    | none => true
    | some missile =>
      !(stepMissile env deltaTime i missile s).gameOver &&
        noSessionEndCheck env deltaTime i (stepMissile env deltaTime i missile s)

/-! ## Near-miss events per missile -/

/-- Whether the pass of the loop body for the listed missile `missile` calls
`handleNearMiss` (line 947): the ground-impact branch has not left the pass
(line 941), the distance measured at line 868 is strictly between 1 and 3, the
missile's flag is not set and it is above the ground (lines 945-946). -/
def passFires (env : Env) (deltaTime : ℚ) (missile : Missile) (s : Game) : Bool :=
  let moved := moveMissile env deltaTime s missile
  let distanceToPlayer := moved.1
  let missile := moved.2.1
  !decide (missile.mesh.position.y < 0) &&
  decide (distanceToPlayer < 3 ∧ distanceToPlayer > 1) &&
  decide (missile.hasTriggeredNearMiss = false ∧ missile.mesh.position.y > 0)

/-- Whether the pass of the loop body for the listed missile `missile` takes it
off the list: ground impact (line 937), out of bounds (line 966) or player hit
(line 983). -/
def passRemoves (env : Env) (deltaTime : ℚ) (missile : Missile) (s : Game) : Bool :=
  let missile := (moveMissile env deltaTime s missile).2.1
  let bounds : ℚ := 100
  decide (missile.mesh.position.y < 0) ||
  decide (missile.mesh.position.x < -bounds ∨ missile.mesh.position.x > bounds ∨
      missile.mesh.position.z < -bounds ∨ missile.mesh.position.z > bounds ∨
      missile.mesh.position.y > 100) ||
  missile.collider.intersectsBox s.playerCollider

/-- The game together with a record kept beside `this.missiles`: `counts[j]` is
the number of calls of `handleNearMiss` made so far by passes for the missile
that is now listed at index `j`.  No code reads the record; it follows every
change of the list. -/
structure Counted where
  game : Game
  counts : List ℕ
deriving DecidableEq

/-- One more event for the missile at index `i`. -/
def bump (i : ℕ) (counts : List ℕ) : List ℕ :=
  match counts[i]? with
  | some n => counts.set i (n + 1)
  | none => counts

/-- The loop body `stepMissile` at index `i`, with the record following it: a
call of `handleNearMiss` counts for the missile of the pass, `splice(i, 1)`
removes its entry, the fragments pushed by a cluster impact enter with 0, and
the new empty array of `endGame` has an empty record. -/
def stepMissileCounted (env : Env) (deltaTime : ℚ) (i : ℕ) (missile : Missile) (c : Counted) :
    Counted :=
  let game := stepMissile env deltaTime i missile c.game
  let moved := (moveMissile env deltaTime c.game missile).2.1
  let bounds : ℚ := 100
  if moved.mesh.position.y < 0 then
    let counts := c.counts.eraseIdx i
    ⟨game, counts ++ List.replicate (game.missiles.length - counts.length) 0⟩
  else
    let counts := if passFires env deltaTime missile c.game then bump i c.counts else c.counts
    if moved.mesh.position.x < -bounds ∨ moved.mesh.position.x > bounds ∨
        moved.mesh.position.z < -bounds ∨ moved.mesh.position.z > bounds ∨
        moved.mesh.position.y > 100 then
      ⟨game, counts.eraseIdx i⟩
    else if moved.collider.intersectsBox c.game.playerCollider then
      if (handlePlayerHit c.game moved).health ≤ 0 then ⟨game, []⟩
      else ⟨game, counts.eraseIdx i⟩
    else ⟨game, counts⟩

/-- The loop `missileLoop` with the record. -/
def missileLoopCounted (env : Env) (deltaTime : ℚ) : ℕ → Counted → Option Counted
  | 0, c => some c
  | i + 1, c =>
    match c.game.missiles[i]? with
    | none => none
    | some missile =>
      if stepThrows env deltaTime missile c.game then none
      else missileLoopCounted env deltaTime i (stepMissileCounted env deltaTime i missile c)

/-- The method `updateMissiles` with the record: a spawned missile enters
with 0. -/
def updateMissilesCounted (env : Env) (now : ℚ) (deltaTime : ℚ) (c : Counted) : Option Counted :=
  let spawned : Option Counted :=
    if now - c.game.lastMissileTime > c.game.missileInterval then
      (createMissile env c.game).map
        (fun s => ⟨adjustDifficulty env now { s with lastMissileTime := now }, c.counts ++ [0]⟩)
    else some c
  spawned.bind (fun c => missileLoopCounted env deltaTime c.game.missiles.length c)

/-- The histories of the list and its record.  Counting starts in any state,
with 0 for every listed missile.  The list is changed by a pass of the loop
body for a listed missile, by `createMissile` (from `updateMissiles` or from the
timer of `adjustDifficulty`), by the undo of a slowdown, and by `endGame`, which
empties it; every other step of the program leaves the list as it is. -/
inductive CountedRun (env : Env) : Counted → Prop where
  | start (s : Game) : CountedRun env ⟨s, List.replicate s.missiles.length 0⟩
  | pass (c : Counted) (deltaTime : ℚ) (i : ℕ) (missile : Missile) :
      CountedRun env c → c.game.missiles[i]? = some missile →
      CountedRun env (stepMissileCounted env deltaTime i missile c)
  | spawn (c : Counted) (t : Game) :
      CountedRun env c → createMissile env c.game = some t →
      CountedRun env ⟨t, c.counts ++ [0]⟩
  | undo (c : Counted) : CountedRun env c → CountedRun env ⟨undoSlowdown c.game, c.counts⟩
  | cleared (c : Counted) (t : Game) :
      CountedRun env c → t.missiles = [] → CountedRun env ⟨t, []⟩
  | other (c : Counted) (t : Game) :
      CountedRun env c → t.missiles = c.game.missiles → CountedRun env ⟨t, c.counts⟩

/-- What the record says of a listed missile: it has made at most one event,
and if it has made one its flag is set. -/
def Recorded (missile : Missile) (n : ℕ) : Prop :=
  n ≤ 1 ∧ (n = 1 → missile.hasTriggeredNearMiss = true)

/-! ## Player hits -/

/-- C2: for every health and every missile, `handlePlayerHit` leaves
`health = max(0, health - floor(|percentChange|))`; from health 100 a hit by an
entity with percent change -12.7 leaves 88. -/
theorem handlePlayerHit_health (s : Game) (missile : Missile) :
    (handlePlayerHit s missile).health
        = max 0 (s.health - ((⌊|missile.coin.percentChange24h|⌋ : ℤ) : ℚ)) ∧
      (s.health = 100 → missile.coin.percentChange24h = -12.7 →
        (handlePlayerHit s missile).health = 88) := by
  have key : (handlePlayerHit s missile).health
      = max 0 (s.health - ((⌊|missile.coin.percentChange24h|⌋ : ℤ) : ℚ)) := by
    unfold handlePlayerHit endGame jsFloor
    dsimp only
    split_ifs <;> rfl
  refine ⟨key, fun h100 hp => ?_⟩
  rw [key, h100, hp]
  have hfloor : (⌊|(-12.7 : ℚ)|⌋ : ℤ) = 12 := by
    rw [Int.floor_eq_iff]
    norm_num [abs_of_neg]
  rw [hfloor]
  norm_num

/-- Evaluation of C2 at health 100 and percent change -12.7. -/
theorem handlePlayerHit_health_witness :
    (handlePlayerHit (initialGame sampleEnv [sampleCoin (-12.7)])
      (sampleMissile (-12.7) MissileType.regular ⟨0, 1, 0⟩ ⟨0, -1, 0⟩)).health = 88 :=
  (handlePlayerHit_health (initialGame sampleEnv [sampleCoin (-12.7)])
    (sampleMissile (-12.7) MissileType.regular ⟨0, 1, 0⟩ ⟨0, -1, 0⟩)).2 rfl
    (by simp [sampleMissile, sampleCoin, enrichCoin, parsePercent])

/-- C3: from a state with `gameOver` false (whatever its health),
`handlePlayerHit` leaves health non-negative, sets `gameOver` in the same call
exactly when the resulting health is 0, and leaves it false when the resulting
health is positive. -/
theorem handlePlayerHit_gameOver (s : Game) (missile : Missile)
    (hOver : s.gameOver = false) :
    0 ≤ (handlePlayerHit s missile).health ∧
      ((handlePlayerHit s missile).gameOver = true ↔ (handlePlayerHit s missile).health = 0) ∧
      (0 < (handlePlayerHit s missile).health → (handlePlayerHit s missile).gameOver = false) := by
  unfold handlePlayerHit endGame
  dsimp only
  split_ifs with h
  · have h0 : max 0 (s.health - ((jsFloor |missile.coin.percentChange24h| : ℤ) : ℚ)) = 0 :=
      le_antisymm h (le_max_left _ _)
    dsimp only
    refine ⟨le_max_left _ _, ⟨fun _ => h0, fun _ => rfl⟩, fun hpos => ?_⟩
    rw [h0] at hpos
    exact absurd hpos (lt_irrefl _)
  · dsimp only
    have hpos : 0 < max 0 (s.health - ((jsFloor |missile.coin.percentChange24h| : ℤ) : ℚ)) :=
      lt_of_not_ge h
    refine ⟨le_max_left _ _, ⟨fun hT => ?_, fun h0 => ?_⟩, fun _ => hOver⟩
    · rw [hOver] at hT
      exact absurd hT (by decide)
    · rw [h0] at hpos
      exact absurd hpos (lt_irrefl _)

/-- Evaluation of C3 at a fatal hit: health 10, percent change -45. -/
theorem handlePlayerHit_gameOver_witness :
    0 ≤ (handlePlayerHit { initialGame sampleEnv [] with health := 10 }
        (sampleMissile (-45) MissileType.regular ⟨0, 1, 0⟩ ⟨0, -1, 0⟩)).health ∧
      ((handlePlayerHit { initialGame sampleEnv [] with health := 10 }
        (sampleMissile (-45) MissileType.regular ⟨0, 1, 0⟩ ⟨0, -1, 0⟩)).gameOver = true ↔
       (handlePlayerHit { initialGame sampleEnv [] with health := 10 }
        (sampleMissile (-45) MissileType.regular ⟨0, 1, 0⟩ ⟨0, -1, 0⟩)).health = 0) ∧
      (0 < (handlePlayerHit { initialGame sampleEnv [] with health := 10 }
        (sampleMissile (-45) MissileType.regular ⟨0, 1, 0⟩ ⟨0, -1, 0⟩)).health →
       (handlePlayerHit { initialGame sampleEnv [] with health := 10 }
        (sampleMissile (-45) MissileType.regular ⟨0, 1, 0⟩ ⟨0, -1, 0⟩)).gameOver = false) :=
  handlePlayerHit_gameOver { initialGame sampleEnv [] with health := 10 }
    (sampleMissile (-45) MissileType.regular ⟨0, 1, 0⟩ ⟨0, -1, 0⟩) rfl

/-! ## Archetype selection -/

/-- C5: the archetype depends on the coin only through its percent change (two
coins with the same percent change and the same draw get the same archetype),
and a percent change below -30 with a draw below 0.8 gives homing. -/
theorem determineMissileType_homing (c₁ c₂ : Coin) (r : ℚ)
    (hSame : c₁.percentChange24h = c₂.percentChange24h) :
    determineMissileType c₁ r = determineMissileType c₂ r ∧
      (c₁.percentChange24h < -30 → r < 0.8 →
        determineMissileType c₁ r = MissileType.homing) := by
  refine ⟨?_, fun hp hr => ?_⟩
  · unfold determineMissileType
    rw [hSame]
  · unfold determineMissileType
    rw [if_pos ⟨hp, hr⟩]

/-- Evaluation of C5 at percent change -40 and draw 0.5. -/
theorem determineMissileType_homing_witness :
    determineMissileType (sampleCoin (-40)) 0.5 = MissileType.homing :=
  (determineMissileType_homing (sampleCoin (-40)) (sampleCoin (-40)) 0.5 rfl).2
    (by norm_num [sampleCoin, enrichCoin, parsePercent]) (by norm_num)

/-! ## Roster enrichment -/

/-- C6: every entry of the roster that `fetchMemecoins` produces has
`fallSpeed = min(|p|/5, 10)`, `size = min(|p|/10 + 0.5, 3)` and
`damage = min(|p|/5, 20)` for its percent change `p`, and the enrichment of a
record gives these three values from its parsed percent change alone. -/
theorem enrichCoin_stats (data : List RawCoin) (raw : RawCoin) :
    ((enrichCoin raw).percentChange24h = parsePercent raw ∧
      (enrichCoin raw).fallSpeed = min (|parsePercent raw| / 5) 10 ∧
      (enrichCoin raw).size = min (|parsePercent raw| / 10 + 0.5) 3 ∧
      (enrichCoin raw).damage = min (|parsePercent raw| / 5) 20) ∧
    ∀ coin ∈ fetchMemecoins (some data),
      coin.fallSpeed = min (|coin.percentChange24h| / 5) 10 ∧
      coin.size = min (|coin.percentChange24h| / 10 + 0.5) 3 ∧
      coin.damage = min (|coin.percentChange24h| / 5) 20 := by
  refine ⟨⟨rfl, rfl, rfl, rfl⟩, fun coin hcoin => ?_⟩
  unfold fetchMemecoins at hcoin
  simp only [List.mem_mergeSort, List.mem_map, List.mem_filter] at hcoin
  obtain ⟨r, _, rfl⟩ := hcoin
  exact ⟨rfl, rfl, rfl⟩

/-! ## Skill rating -/

/-- C7: `updatePlayerSkillRating` sets the rating to
`clamp(old + 5*dodgeRate + 3*(health/maxHealth) + 2*min(nearMissCount/5, 1)
- 5*(1 if coinsHit > 0 else 0), 0, 100)` with
`dodgeRate = coinsDodged / max(coinsDodged + coinsHit, 1)`, resets
`nearMissCount` to 0, and the new rating lies in `[0, 100]` whatever the state. -/
theorem updatePlayerSkillRating_rating (s : Game) :
    (updatePlayerSkillRating s).playerSkillRating
        = max (min (s.playerSkillRating
            + 5 * ((s.coinsDodged : ℚ) / max ((s.coinsDodged : ℚ) + (s.coinsHit : ℚ)) 1)
            + 3 * (s.health / maxHealth)
            + 2 * min ((s.nearMissCount : ℚ) / 5) 1
            - 5 * (if s.coinsHit > 0 then 1 else 0)) 100) 0 ∧
      (updatePlayerSkillRating s).nearMissCount = 0 ∧
      0 ≤ (updatePlayerSkillRating s).playerSkillRating ∧
      (updatePlayerSkillRating s).playerSkillRating ≤ 100 := by
  refine ⟨?_, rfl, ?_, ?_⟩
  · unfold updatePlayerSkillRating
    dsimp only
    congr 2
    ring
  · unfold updatePlayerSkillRating
    exact le_max_right _ _
  · unfold updatePlayerSkillRating
    exact max_le (min_le_right _ _) (by norm_num)

/-! ## Archetype rule and the cap -/

/-- C4, as the code has it: `determineMissileType` returns the first match of
the layered rule in which the factor `|p|/50` is not capped at 1, and it agrees
with the capped rule of the specification whenever `|p| ≤ 50`. -/
theorem determineMissileType_layered (coin : Coin) (r : ℚ) :
    determineMissileType coin r
        = (if coin.percentChange24h < -30 ∧ r < 0.8 then MissileType.homing
           else if coin.percentChange24h < -20 ∧ r < 0.4 then MissileType.cluster
           else if r < 0.05 + 0.1 * (|coin.percentChange24h| / 50) then MissileType.homing
           else if r < 0.15 + 0.15 * (|coin.percentChange24h| / 50) then MissileType.cluster
           else MissileType.regular) ∧
      (|coin.percentChange24h| ≤ 50 →
        determineMissileType coin r = archetypeRuleCapped coin.percentChange24h r) := by
  have comm1 : |coin.percentChange24h| / 50 * 0.1 = 0.1 * (|coin.percentChange24h| / 50) :=
    mul_comm _ _
  have comm2 : |coin.percentChange24h| / 50 * 0.15 = 0.15 * (|coin.percentChange24h| / 50) :=
    mul_comm _ _
  refine ⟨?_, fun hcap => ?_⟩
  · unfold determineMissileType
    dsimp only
    rw [comm1, comm2]
  · have hmin : min (|coin.percentChange24h| / 50) 1 = |coin.percentChange24h| / 50 := by
      apply min_eq_left
      rw [div_le_one (by norm_num)]
      exact hcap
    unfold determineMissileType archetypeRuleCapped
    dsimp only
    rw [hmin, comm1, comm2]

/-- Evaluation of the amended C4 at percent change -40 and draw 0.9: below the
cap the code and the capped rule agree. -/
theorem determineMissileType_layered_witness :
    determineMissileType (sampleCoin (-40)) 0.9
      = archetypeRuleCapped (sampleCoin (-40)).percentChange24h 0.9 :=
  (determineMissileType_layered (sampleCoin (-40)) 0.9).2
    (by norm_num [sampleCoin, enrichCoin, parsePercent, abs_of_neg])

/-- C4 as stated fails: at percent change -400 and draw 0.8 the code returns
homing (the uncapped threshold is 0.05 + 0.1 * 8 = 0.85) where the capped rule
gives regular. -/
theorem determineMissileType_uncapped_counterexample :
    (0 : ℚ) ≤ 0.8 ∧ (0.8 : ℚ) < 1 ∧
      determineMissileType (sampleCoin (-400)) 0.8 = MissileType.homing ∧
      archetypeRuleCapped (sampleCoin (-400)).percentChange24h 0.8 = MissileType.regular := by
  refine ⟨by norm_num, by norm_num, ?_, ?_⟩
  · norm_num [determineMissileType, sampleCoin, enrichCoin, parsePercent, abs_of_neg]
  · norm_num [archetypeRuleCapped, sampleCoin, enrichCoin, parsePercent, abs_of_neg]

/-! ## Engagement band -/

/-- C8, as the code has it: in every state reached from the constructed or a
restarted state by skill evaluations, `10 ≤ flowZone.min` and
`flowZone.max ≤ 91`: `updatePlayerSkillRating` caps the maximum at 90 and the
flow case of `updateFlowState` then adds 1. -/
theorem flowZone_bounds (env : Env) (s : Game) (h : EvalReachable env s) :
    10 ≤ s.flowZone.min ∧ s.flowZone.max ≤ 91 := by
  induction h with
  | initial memecoins => constructor <;> norm_num [initialGame]
  | restart s => constructor <;> norm_num [restartGame]
  | evaluate s d _ _ =>
    unfold skillEvaluation updateFlowState
    split_ifs
    · exact ⟨le_max_right _ _, le_trans (min_le_right _ _) (by norm_num)⟩
    · exact ⟨le_max_right _ _, le_trans (min_le_right _ _) (by norm_num)⟩
    · refine ⟨le_max_right _ _, ?_⟩
      have h90 : (updatePlayerSkillRating s).flowZone.max ≤ 90 := min_le_right _ _
      have h91 : (updatePlayerSkillRating s).flowZone.max + 1 ≤ 91 := by linarith
      exact le_trans (min_le_left _ _) h91
  | play s t _ hz _ ih =>
    rw [hz]
    exact ih

/-- Evaluation of the amended C8 after one skill evaluation from the
constructed state. -/
theorem flowZone_bounds_witness :
    10 ≤ (skillEvaluation (initialGame sampleEnv []) 0).flowZone.min ∧
      (skillEvaluation (initialGame sampleEnv []) 0).flowZone.max ≤ 91 :=
  flowZone_bounds sampleEnv (skillEvaluation (initialGame sampleEnv []) 0)
    (EvalReachable.evaluate _ _ (EvalReachable.initial []))

/-- C8 as stated fails: nine skill evaluations from the constructed state, the
last one classified as flow, leave `flowZone.max = 91`, above 90. -/
theorem flowZone_max_counterexample :
    EvalReachable sampleEnv ninthEvaluation ∧
      ninthEvaluation.currentFlowState = FlowState.flow ∧
      ninthEvaluation.flowZone.max = 91 ∧
      ¬ (10 ≤ ninthEvaluation.flowZone.min ∧ ninthEvaluation.flowZone.max ≤ 90) := by
  refine ⟨?_, by decide!, by decide!, by decide!⟩
  unfold ninthEvaluation
  simp only [Function.iterate_succ, Function.iterate_zero, Function.comp, id]
  repeat apply EvalReachable.evaluate
  exact EvalReachable.initial []

/-! ## Ground impact -/

/-- Removing index `i` forgets what was written at index `i`. -/
theorem eraseIdx_set_same (l : List Missile) (i : ℕ) (m : Missile) :
    (l.set i m).eraseIdx i = l.eraseIdx i := by
  induction l generalizing i with
  | nil => rfl
  | cons a l ih =>
    cases i with
    | zero => rfl
    | succ i => simp [List.set, List.eraseIdx, ih]

/-- The position update of the loop body: the type behaviour, the trail and the
rotation that follow leave the integrated position in place. -/
theorem moveMissile_position (env : Env) (deltaTime : ℚ) (s : Game) (missile : Missile) :
    (moveMissile env deltaTime s missile).2.1.mesh.position
      = ⟨missile.mesh.position.x + missile.velocity.x * deltaTime,
         missile.mesh.position.y + missile.velocity.y * deltaTime,
         missile.mesh.position.z + missile.velocity.z * deltaTime⟩ := by
  unfold moveMissile updateHomingMissile applyWind
  dsimp only
  split_ifs <;> rfl

/-- The loop body never changes the type of the missile it moves. -/
theorem moveMissile_type (env : Env) (deltaTime : ℚ) (s : Game) (missile : Missile) :
    (moveMissile env deltaTime s missile).2.1.type = missile.type := by
  unfold moveMissile updateHomingMissile applyWind
  dsimp only
  split_ifs <;> rfl

/-- The fragment loop appends `n` missiles and touches neither the counters nor
the health; every appended missile is a fragment of age 0 whose velocity is
built from three consecutive draws. -/
theorem fragmentLoop_spec (env : Env) (missile : Missile) (n : ℕ) (s : Game) :
    ∃ frags : List Missile,
      (fragmentLoop env missile n s).missiles = s.missiles ++ frags ∧
      frags.length = n ∧
      (∀ f ∈ frags, f.type = MissileType.fragment ∧ f.age = 0 ∧
        ∃ k : ℕ, f.velocity =
          ⟨env.cos (env.random k * env.pi * 2) * (2 + env.random (k + 1) * 3),
           2 + env.random (k + 2) * 3,
           env.sin (env.random k * env.pi * 2) * (2 + env.random (k + 1) * 3)⟩) ∧
      (fragmentLoop env missile n s).coinsDodged = s.coinsDodged ∧
      (fragmentLoop env missile n s).consecutiveAvoids = s.consecutiveAvoids ∧
      (fragmentLoop env missile n s).health = s.health ∧
      (fragmentLoop env missile n s).coinsHit = s.coinsHit ∧
      (fragmentLoop env missile n s).gameOver = s.gameOver := by
  induction n generalizing s with
  | zero => exact ⟨[], by simp [fragmentLoop], rfl, by simp, rfl, rfl, rfl, rfl, rfl⟩
  | succ n ih =>
    obtain ⟨frags, hm, hlen, hall, h1, h2, h3, h4, h5⟩ := ih (pushFragment env missile s)
    refine ⟨(pushFragment env missile s).missiles.drop s.missiles.length ++ frags,
      ?_, ?_, ?_, ?_, ?_, ?_, ?_, ?_⟩
    · rw [fragmentLoop, hm]
      simp [pushFragment]
    · simp [pushFragment, hlen]
    · intro f hf
      rw [List.mem_append] at hf
      rcases hf with hf | hf
      · simp only [pushFragment, List.drop_left, List.mem_singleton] at hf
        subst hf
        exact ⟨rfl, rfl, s.draws, rfl⟩
      · exact hall f hf
    · rw [fragmentLoop, h1]; rfl
    · rw [fragmentLoop, h2]; rfl
    · rw [fragmentLoop, h3]; rfl
    · rw [fragmentLoop, h4]; rfl
    · rw [fragmentLoop, h5]; rfl

/-- The streak bonus touches neither the missile list, the counters, the health
nor `gameOver`. -/
theorem handleDodgeStreak_frame (env : Env) (s : Game) :
    (handleDodgeStreak env s).missiles = s.missiles ∧
      (handleDodgeStreak env s).coinsDodged = s.coinsDodged ∧
      (handleDodgeStreak env s).consecutiveAvoids = s.consecutiveAvoids ∧
      (handleDodgeStreak env s).health = s.health ∧
      (handleDodgeStreak env s).coinsHit = s.coinsHit ∧
      (handleDodgeStreak env s).gameOver = s.gameOver := by
  unfold handleDodgeStreak createHealthPickup
  dsimp only
  split_ifs <;> exact ⟨rfl, rfl, rfl, rfl, rfl, rfl⟩

/-- The loop body takes the ground-impact branch whenever the integrated
height is below 0. -/
theorem stepMissile_ground (env : Env) (deltaTime : ℚ) (i : ℕ) (missile : Missile) (s : Game)
    (hy : missile.mesh.position.y + missile.velocity.y * deltaTime < 0) :
    stepMissile env deltaTime i missile s =
      groundImpact env i (moveMissile env deltaTime s missile).2.1
        { s with
          missiles := s.missiles.set i (moveMissile env deltaTime s missile).2.1
          draws := s.draws + (moveMissile env deltaTime s missile).2.2 } := by
  have hpos : (moveMissile env deltaTime s missile).2.1.mesh.position.y < 0 := by
    rw [moveMissile_position]
    exact hy
  unfold stepMissile
  dsimp only
  rw [if_pos hpos]

/-- The effect of the ground-impact branch on a state whose list has an entry at
index `i`: that entry is removed, the fragments (none unless the missile is a
cluster) are appended, both dodge counters go up by 1 and health, `coinsHit`
and `gameOver` keep their values. -/
theorem groundImpact_spec (env : Env) (i : ℕ) (missile : Missile) (s : Game)
    (hi : i < s.missiles.length) :
    ∃ frags : List Missile,
      (groundImpact env i missile s).missiles = s.missiles.eraseIdx i ++ frags ∧
      (missile.type ≠ MissileType.cluster → frags = []) ∧
      (missile.type = MissileType.cluster →
        frags.length = (5 + jsFloor (env.random (s.draws + 7 * particleCount missile.type) * 5)).toNat) ∧
      (∀ f ∈ frags, f.type = MissileType.fragment ∧ f.age = 0 ∧
        ∃ k : ℕ, f.velocity =
          ⟨env.cos (env.random k * env.pi * 2) * (2 + env.random (k + 1) * 3),
           2 + env.random (k + 2) * 3,
           env.sin (env.random k * env.pi * 2) * (2 + env.random (k + 1) * 3)⟩) ∧
      (groundImpact env i missile s).coinsDodged = s.coinsDodged + 1 ∧
      (groundImpact env i missile s).consecutiveAvoids = s.consecutiveAvoids + 1 ∧
      (groundImpact env i missile s).health = s.health ∧
      (groundImpact env i missile s).coinsHit = s.coinsHit ∧
      (groundImpact env i missile s).gameOver = s.gameOver := by
  unfold groundImpact
  dsimp only
  by_cases hc : missile.type = MissileType.cluster
  · rw [if_pos hc]
    obtain ⟨frags, hm, hlen, hall, h1, h2, h3, h4, h5⟩ :=
      fragmentLoop_spec env missile
        (5 + jsFloor (env.random (createImpactEffect s missile.type).draws * 5)).toNat
        { createImpactEffect s missile.type with
          draws := (createImpactEffect s missile.type).draws + 1 }
    refine ⟨frags, ?_, fun h => absurd hc h, fun _ => hlen, hall, ?_, ?_, ?_, ?_, ?_⟩
    · rw [(handleDodgeStreak_frame env _).1]
      show (createClusterFragments env missile (createImpactEffect s missile.type)).missiles.eraseIdx i = _
      unfold createClusterFragments
      dsimp only
      rw [hm]
      exact List.eraseIdx_append_of_lt_length hi frags
    · rw [(handleDodgeStreak_frame env _).2.1]
      show (createClusterFragments env missile (createImpactEffect s missile.type)).coinsDodged + 1 = _
      unfold createClusterFragments
      dsimp only
      rw [h1]; rfl
    · rw [(handleDodgeStreak_frame env _).2.2.1]
      show (createClusterFragments env missile (createImpactEffect s missile.type)).consecutiveAvoids + 1 = _
      unfold createClusterFragments
      dsimp only
      rw [h2]; rfl
    · rw [(handleDodgeStreak_frame env _).2.2.2.1]
      show (createClusterFragments env missile (createImpactEffect s missile.type)).health = _
      unfold createClusterFragments
      dsimp only
      rw [h3]; rfl
    · rw [(handleDodgeStreak_frame env _).2.2.2.2.1]
      show (createClusterFragments env missile (createImpactEffect s missile.type)).coinsHit = _
      unfold createClusterFragments
      dsimp only
      rw [h4]; rfl
    · rw [(handleDodgeStreak_frame env _).2.2.2.2.2]
      show (createClusterFragments env missile (createImpactEffect s missile.type)).gameOver = _
      unfold createClusterFragments
      dsimp only
      rw [h5]; rfl
  · rw [if_neg hc]
    refine ⟨[], ?_, fun _ => rfl, fun h => absurd h hc, by simp, ?_, ?_, ?_, ?_, ?_⟩
    · rw [(handleDodgeStreak_frame env _).1, List.append_nil]; rfl
    · rw [(handleDodgeStreak_frame env _).2.1]; rfl
    · rw [(handleDodgeStreak_frame env _).2.2.1]; rfl
    · rw [(handleDodgeStreak_frame env _).2.2.2.1]; rfl
    · rw [(handleDodgeStreak_frame env _).2.2.2.2.1]; rfl
    · rw [(handleDodgeStreak_frame env _).2.2.2.2.2]; rfl

/-- C1: a missile whose height after the position update is below 0 is retired
by the ground-impact branch and by no other, whatever its other coordinates and
its box: `coinsDodged` and `consecutiveAvoids` go up by exactly 1, health,
`coinsHit` and `gameOver` keep their values (no player hit), the missile leaves
the list, which keeps every other entry and gains only fragments.  From
`coinsDodged = 0` and `consecutiveAvoids = 0` one ground impact gives 1 and 1. -/
theorem groundImpact_retires (env : Env) (deltaTime : ℚ) (i : ℕ) (missile : Missile) (s : Game)
    (hi : s.missiles[i]? = some missile)
    (hy : missile.mesh.position.y + missile.velocity.y * deltaTime < 0) :
    (stepMissile env deltaTime i missile s).coinsDodged = s.coinsDodged + 1 ∧
      (stepMissile env deltaTime i missile s).consecutiveAvoids = s.consecutiveAvoids + 1 ∧
      (stepMissile env deltaTime i missile s).health = s.health ∧
      (stepMissile env deltaTime i missile s).coinsHit = s.coinsHit ∧
      (stepMissile env deltaTime i missile s).gameOver = s.gameOver ∧
      (∃ frags : List Missile,
        (stepMissile env deltaTime i missile s).missiles = s.missiles.eraseIdx i ++ frags ∧
        (missile.type ≠ MissileType.cluster → frags = []) ∧
        ∀ f ∈ frags, f.type = MissileType.fragment) ∧
      (s.coinsDodged = 0 → s.consecutiveAvoids = 0 →
        (stepMissile env deltaTime i missile s).coinsDodged = 1 ∧
        (stepMissile env deltaTime i missile s).consecutiveAvoids = 1) := by
  have hlen : i < s.missiles.length := (List.getElem?_eq_some.mp hi).1
  rw [stepMissile_ground env deltaTime i missile s hy]
  obtain ⟨frags, hm, hnil, _, hall, h1, h2, h3, h4, h5⟩ :=
    groundImpact_spec env i (moveMissile env deltaTime s missile).2.1
      { s with
        missiles := s.missiles.set i (moveMissile env deltaTime s missile).2.1
        draws := s.draws + (moveMissile env deltaTime s missile).2.2 }
      (by simpa using hlen)
  refine ⟨h1, h2, h3, h4, h5, ⟨frags, ?_, ?_, fun f hf => (hall f hf).1⟩, fun hd ha => ?_⟩
  · rw [hm]
    show (s.missiles.set i _).eraseIdx i ++ frags = _
    rw [eraseIdx_set_same]
  · intro hne
    exact hnil (by rw [moveMissile_type]; exact hne)
  · rw [h1, h2]
    show s.coinsDodged + 1 = 1 ∧ s.consecutiveAvoids + 1 = 1
    rw [hd, ha]
    exact ⟨rfl, rfl⟩

/-- Evaluation of C1 on a missile whose box overlaps the player's: after one
tick of 0.1 s the two counters are 1 and the health is still 100. -/
theorem groundImpact_retires_witness :
    (moveMissile sampleEnv 0.1 lowClusterState lowCluster).2.1.collider.intersectsBox
        lowClusterState.playerCollider = true ∧
      (stepMissile sampleEnv 0.1 0 lowCluster lowClusterState).health = lowClusterState.health ∧
      (stepMissile sampleEnv 0.1 0 lowCluster lowClusterState).coinsDodged = 1 ∧
      (stepMissile sampleEnv 0.1 0 lowCluster lowClusterState).consecutiveAvoids = 1 :=
  ⟨by decide!,
   (groundImpact_retires sampleEnv 0.1 0 lowCluster lowClusterState rfl
      (by norm_num [lowCluster, sampleMissile])).2.2.1,
   (groundImpact_retires sampleEnv 0.1 0 lowCluster lowClusterState rfl
      (by norm_num [lowCluster, sampleMissile])).2.2.2.2.2.2 rfl rfl⟩

/-! ## Cluster fragments -/

/-- The draws of the concrete stream lie in `[0, 1)`. -/
theorem sampleRandom_range (n : ℕ) : 0 ≤ sampleEnv.random n ∧ sampleEnv.random n < 1 := by
  show 0 ≤ sampleRandom n ∧ sampleRandom n < 1
  unfold sampleRandom
  have h : n * 7 % 10 < 10 := Nat.mod_lt _ (by norm_num)
  have h' : ((n * 7 % 10 : ℕ) : ℚ) < 10 := by exact_mod_cast h
  constructor
  · positivity
  · rw [div_lt_one (by norm_num)]
    exact h'

/-- The concrete `cos` and `sin` are points of the unit circle. -/
theorem sampleEnv_circle (a : ℚ) : sampleEnv.cos a ^ 2 + sampleEnv.sin a ^ 2 = 1 := by
  show ((1 - a * a) / (1 + a * a)) ^ 2 + (2 * a / (1 + a * a)) ^ 2 = 1
  have h : (1 + a * a) ≠ 0 := ne_of_gt (by nlinarith [mul_self_nonneg a])
  field_simp
  ring

/-- C10: the ground impact of a cluster missile, for draws in `[0, 1)`, removes
the cluster and appends between 5 and 9 missiles, each of type fragment and age
0, each with velocity `(cos(a) * v, w, sin(a) * v)` where `a = 2 * pi * r₀`,
`v = 2 + 3 * r₁` and `w = 2 + 3 * r₂` for three consecutive draws: `v` and `w`
lie in `[2, 5)`, the squared horizontal speed is `v²` (when `cos` and `sin` are
on the unit circle), and the parent's velocity does not occur. -/
theorem cluster_impact_fragments (env : Env) (deltaTime : ℚ) (i : ℕ) (missile : Missile)
    (s : Game)
    (hi : s.missiles[i]? = some missile)
    (hType : missile.type = MissileType.cluster)
    (hy : missile.mesh.position.y + missile.velocity.y * deltaTime < 0)
    (hRandom : ∀ n, 0 ≤ env.random n ∧ env.random n < 1)
    (hCircle : ∀ a, env.cos a ^ 2 + env.sin a ^ 2 = 1) :
    ∃ frags : List Missile,
      (stepMissile env deltaTime i missile s).missiles = s.missiles.eraseIdx i ++ frags ∧
      5 ≤ frags.length ∧ frags.length ≤ 9 ∧
      ∀ f ∈ frags, f.type = MissileType.fragment ∧ f.age = 0 ∧
        ∃ k : ℕ,
          f.velocity =
            ⟨env.cos (env.random k * env.pi * 2) * (2 + env.random (k + 1) * 3),
             2 + env.random (k + 2) * 3,
             env.sin (env.random k * env.pi * 2) * (2 + env.random (k + 1) * 3)⟩ ∧
          2 ≤ 2 + env.random (k + 1) * 3 ∧ 2 + env.random (k + 1) * 3 < 5 ∧
          2 ≤ f.velocity.y ∧ f.velocity.y < 5 ∧
          f.velocity.x ^ 2 + f.velocity.z ^ 2 = (2 + env.random (k + 1) * 3) ^ 2 := by
  have hlen : i < s.missiles.length := (List.getElem?_eq_some.mp hi).1
  have hType' : (moveMissile env deltaTime s missile).2.1.type = MissileType.cluster := by
    rw [moveMissile_type]
    exact hType
  rw [stepMissile_ground env deltaTime i missile s hy]
  obtain ⟨frags, hm, _, hcount, hall, _⟩ :=
    groundImpact_spec env i (moveMissile env deltaTime s missile).2.1
      { s with
        missiles := s.missiles.set i (moveMissile env deltaTime s missile).2.1
        draws := s.draws + (moveMissile env deltaTime s missile).2.2 }
      (by simpa using hlen)
  have hcount' := hcount hType'
  refine ⟨frags, ?_, ?_, ?_, fun f hf => ?_⟩
  · rw [hm]
    show (s.missiles.set i _).eraseIdx i ++ frags = _
    rw [eraseIdx_set_same]
  · rw [hcount']
    have h0 := (hRandom ((s.draws + (moveMissile env deltaTime s missile).2.2)
      + 7 * particleCount (moveMissile env deltaTime s missile).2.1.type)).1
    have hf0 : 0 ≤ jsFloor (env.random ((s.draws + (moveMissile env deltaTime s missile).2.2)
        + 7 * particleCount (moveMissile env deltaTime s missile).2.1.type) * 5) :=
      Int.floor_nonneg.mpr (mul_nonneg h0 (by norm_num))
    show 5 ≤ (5 + jsFloor (env.random ((s.draws + (moveMissile env deltaTime s missile).2.2)
        + 7 * particleCount (moveMissile env deltaTime s missile).2.1.type) * 5)).toNat
    omega
  · rw [hcount']
    have h1 := (hRandom ((s.draws + (moveMissile env deltaTime s missile).2.2)
      + 7 * particleCount (moveMissile env deltaTime s missile).2.1.type)).2
    have hf4 : jsFloor (env.random ((s.draws + (moveMissile env deltaTime s missile).2.2)
        + 7 * particleCount (moveMissile env deltaTime s missile).2.1.type) * 5) < 5 := by
      unfold jsFloor
      rw [Int.floor_lt]
      push_cast
      linarith
    show (5 + jsFloor (env.random ((s.draws + (moveMissile env deltaTime s missile).2.2)
        + 7 * particleCount (moveMissile env deltaTime s missile).2.1.type) * 5)).toNat ≤ 9
    omega
  · obtain ⟨ht, ha, k, hv⟩ := hall f hf
    have r1 := hRandom (k + 1)
    have r2 := hRandom (k + 2)
    refine ⟨ht, ha, k, hv, by linarith [r1.1], by linarith [r1.2], ?_, ?_, ?_⟩
    · rw [hv]
      show 2 ≤ 2 + env.random (k + 2) * 3
      linarith [r2.1]
    · rw [hv]
      show 2 + env.random (k + 2) * 3 < 5
      linarith [r2.2]
    · rw [hv]
      show (env.cos (env.random k * env.pi * 2) * (2 + env.random (k + 1) * 3)) ^ 2
          + (env.sin (env.random k * env.pi * 2) * (2 + env.random (k + 1) * 3)) ^ 2
          = (2 + env.random (k + 1) * 3) ^ 2
      have hc := hCircle (env.random k * env.pi * 2)
      calc (env.cos (env.random k * env.pi * 2) * (2 + env.random (k + 1) * 3)) ^ 2
            + (env.sin (env.random k * env.pi * 2) * (2 + env.random (k + 1) * 3)) ^ 2
          = (env.cos (env.random k * env.pi * 2) ^ 2 + env.sin (env.random k * env.pi * 2) ^ 2)
              * (2 + env.random (k + 1) * 3) ^ 2 := by ring
        _ = (2 + env.random (k + 1) * 3) ^ 2 := by rw [hc, one_mul]

/-- Evaluation of C10 on `lowCluster`: one tick of 0.1 s replaces it by between
5 and 9 fragments of age 0. -/
theorem cluster_impact_fragments_witness :
    ∃ frags : List Missile,
      (stepMissile sampleEnv 0.1 0 lowCluster lowClusterState).missiles = frags ∧
      5 ≤ frags.length ∧ frags.length ≤ 9 ∧
      ∀ f ∈ frags, f.type = MissileType.fragment ∧ f.age = 0 ∧
        4 ≤ f.velocity.x ^ 2 + f.velocity.z ^ 2 ∧ f.velocity.x ^ 2 + f.velocity.z ^ 2 < 25 := by
  obtain ⟨frags, hm, h5, h9, hall⟩ :=
    cluster_impact_fragments sampleEnv 0.1 0 lowCluster lowClusterState rfl rfl
      (by norm_num [lowCluster, sampleMissile]) sampleRandom_range sampleEnv_circle
  refine ⟨frags, by simpa [lowClusterState] using hm, h5, h9, fun f hf => ?_⟩
  obtain ⟨ht, ha, k, _, hlo, hhi, _, _, hsq⟩ := hall f hf
  refine ⟨ht, ha, ?_, ?_⟩
  · rw [hsq]
    nlinarith
  · rw [hsq]
    nlinarith

/-! ## Restart -/

/-- C9 on the code: `restartGame` resets `consecutiveAvoids`, `nearMissCount`,
the rating and the flow state, and leaves the missile list as it was.  In the
session `boredState`, one `updateMissiles` call spawns, schedules the deferred
spawn of the boredom branch and ends the game on a fatal hit (empty list); the
deferred spawn then pushes a missile, and that missile is still listed after
the restart. -/
theorem restartGame_keeps_missiles :
    (∀ (env : Env) (s : Game),
      (restartGame env s).consecutiveAvoids = 0 ∧
      (restartGame env s).nearMissCount = 0 ∧
      (restartGame env s).playerSkillRating = 50 ∧
      (restartGame env s).currentFlowState = FlowState.neutral ∧
      (restartGame env s).missiles = s.missiles) ∧
    (updateMissiles sampleEnv 3000 0.1 boredState).map
        (fun s => (s.gameOver, s.missiles.length, s.timers))
      = some (true, 0, [⟨500, Deferred.createMissile⟩]) ∧
    ((updateMissiles sampleEnv 3000 0.1 boredState).bind (fireTimer sampleEnv 0)).map
        (fun s => (s.gameOver, s.missiles.map (fun m => m.type)))
      = some (true, [MissileType.homing]) ∧
    ((updateMissiles sampleEnv 3000 0.1 boredState).bind (fireTimer sampleEnv 0)).map
        (fun s => ((restartGame sampleEnv s).gameOver,
          (restartGame sampleEnv s).missiles.map (fun m => m.type)))
      = some (false, [MissileType.homing]) := by
  refine ⟨fun env s => ⟨rfl, rfl, rfl, rfl, rfl⟩, by decide!, by decide!, by decide!⟩

/-- The method in full: after the frame that `this.animate()` runs at the end
of `restartGame`, the missile pushed after the end of the old session is still
listed, one tick older, in front of the first missile of the new session. -/
theorem restartGameCall_keeps_missile :
    (((updateMissiles sampleEnv 3000 0.1 boredState).bind (fireTimer sampleEnv 0)).bind
        (restartGameCall sampleEnv noInput 4000 0.1)).map
        (fun s => (s.gameOver, s.missiles.map (fun m => (m.type, m.age))))
      = some (false, [(MissileType.homing, 0.1), (MissileType.regular, 0.1)]) := by
  decide!

/-! ## Streak bonuses -/

/-- The bonus that `handleDodgeStreak` adds at a streak of `n`. -/
theorem handleDodgeStreak_score (env : Env) (s : Game) :
    (handleDodgeStreak env s).score
      = s.score + (if s.consecutiveAvoids = 5 then 50
          else if s.consecutiveAvoids = 10 then 100
          else if s.consecutiveAvoids = 15 then 200
          else if 20 ≤ s.consecutiveAvoids ∧ s.consecutiveAvoids % 10 = 0 then 300
          else 0) := by
  unfold handleDodgeStreak createHealthPickup
  dsimp only
  split_ifs <;> simp

/-- The streak after `k` dodges in a row. -/
theorem countDodge_iterate_streak (env : Env) (s : Game) (k : ℕ) :
    ((countDodge env)^[k] s).consecutiveAvoids = s.consecutiveAvoids + k := by
  induction k with
  | zero => rfl
  | succ k ih =>
    rw [Function.iterate_succ_apply']
    unfold countDodge
    rw [(handleDodgeStreak_frame env _).2.2.1]
    show ((countDodge env)^[k] s).consecutiveAvoids + 1 = _
    rw [ih]
    rfl

/-- The score gained by one counted dodge. -/
theorem countDodge_score (env : Env) (s : Game) :
    (countDodge env s).score
      = s.score + (if s.consecutiveAvoids + 1 = 5 then 50
          else if s.consecutiveAvoids + 1 = 10 then 100
          else if s.consecutiveAvoids + 1 = 15 then 200
          else if 20 ≤ s.consecutiveAvoids + 1 ∧ (s.consecutiveAvoids + 1) % 10 = 0 then 300
          else 0) := by
  unfold countDodge
  rw [handleDodgeStreak_score]

/-- The score gained by the dodge that brings the streak to `n + k + 1`. -/
theorem countDodge_iterate_score (env : Env) (s : Game) (k : ℕ) :
    ((countDodge env)^[k + 1] s).score
      = ((countDodge env)^[k] s).score
        + (if s.consecutiveAvoids + k + 1 = 5 then 50
          else if s.consecutiveAvoids + k + 1 = 10 then 100
          else if s.consecutiveAvoids + k + 1 = 15 then 200
          else if 20 ≤ s.consecutiveAvoids + k + 1 ∧ (s.consecutiveAvoids + k + 1) % 10 = 0 then 300
          else 0) := by
  rw [Function.iterate_succ_apply', countDodge_score, countDodge_iterate_streak]

/-- C11, as the code has it: at a streak of `n`, `handleDodgeStreak` adds to the
score exactly 50 when `n = 5`, 100 when `n = 10`, 200 when `n = 15`, 300 when
`n` is a multiple of 10 from 20 on (20, 30, 40, ...), and nothing at any other
count.  In a run of dodges from a streak of 0 the dodge that gains 200 is the
fifteenth and no other, and the first fifteen dodges gain 350 together. -/
theorem handleDodgeStreak_bonus (env : Env) (s : Game) :
    (handleDodgeStreak env s).score
        = s.score + (if s.consecutiveAvoids = 5 then 50
            else if s.consecutiveAvoids = 10 then 100
            else if s.consecutiveAvoids = 15 then 200
            else if 20 ≤ s.consecutiveAvoids ∧ s.consecutiveAvoids % 10 = 0 then 300
            else 0) ∧
      (s.consecutiveAvoids = 0 →
        (∀ k : ℕ, ((countDodge env)^[k + 1] s).score = ((countDodge env)^[k] s).score + 200
            ↔ k + 1 = 15) ∧
        ((countDodge env)^[15] s).score = s.score + 350) := by
  refine ⟨handleDodgeStreak_score env s, fun h0 => ⟨fun k => ?_, ?_⟩⟩
  · rw [countDodge_iterate_score, h0]
    constructor
    · intro h
      split_ifs at h with h5 h10 h15 h20
      · norm_num at h
      · norm_num at h
      · omega
      · norm_num at h
      · norm_num at h
    · intro h
      have h15 : 0 + k + 1 = 15 := by omega
      have h5 : ¬ (0 + k + 1 = 5) := by omega
      have h10 : ¬ (0 + k + 1 = 10) := by omega
      rw [if_neg h5, if_neg h10, if_pos h15]
  · have step : ∀ k, ((countDodge env)^[k + 1] s).score
        = ((countDodge env)^[k] s).score
          + (if k + 1 = 5 then 50
            else if k + 1 = 10 then 100
            else if k + 1 = 15 then 200
            else if 20 ≤ k + 1 ∧ (k + 1) % 10 = 0 then 300
            else 0) := by
      intro k
      rw [countDodge_iterate_score, h0]
      simp only [zero_add]
    rw [step 14, step 13, step 12, step 11, step 10, step 9, step 8, step 7, step 6, step 5,
      step 4, step 3, step 2, step 1, step 0]
    simp only [Function.iterate_zero, id]
    norm_num
    ring

/-- Evaluation of the amended C11 from the constructed state: fifteen dodges in a
row gain 350 points. -/
theorem handleDodgeStreak_bonus_witness :
    ((countDodge sampleEnv)^[15] (initialGame sampleEnv [])).score
      = (initialGame sampleEnv []).score + 350 :=
  ((handleDodgeStreak_bonus sampleEnv (initialGame sampleEnv [])).2 rfl).2

/-- C11 as stated fails: at a streak of 20, which is not beyond 20,
`handleDodgeStreak` adds 300 to the score. -/
theorem handleDodgeStreak_twenty_counterexample :
    (handleDodgeStreak sampleEnv { initialGame sampleEnv [] with consecutiveAvoids := 20 }).score
      = (initialGame sampleEnv []).score + 300 := by
  decide!

/-- The score of a ground impact is that of one counted dodge. -/
theorem groundImpact_score (env : Env) (i : ℕ) (missile : Missile) (s : Game) :
    (groundImpact env i missile s).score
      = (countDodge env
          (if missile.type = MissileType.cluster then
            createClusterFragments env missile (createImpactEffect s missile.type)
          else createImpactEffect s missile.type)).score :=
  rfl

/-! ## Spawn interval -/

/-- A skill evaluation does not touch the spawn interval. -/
theorem skillEvaluation_missileInterval (s : Game) (d : ℚ) :
    (updateFlowState (updatePlayerSkillRating s) d).missileInterval = s.missileInterval := by
  unfold updateFlowState
  split_ifs <;> rfl

/-- The spawn interval that `adjustDifficulty` leaves, by flow state. -/
theorem adjustDifficulty_missileInterval (env : Env) (now : ℚ) (s : Game) :
    (adjustDifficulty env now s).missileInterval
      = (match s.currentFlowState with
          | FlowState.boredom => max (s.missileInterval - 100) 300
          | FlowState.anxiety => min (s.missileInterval + 50) 2000
          | FlowState.flow =>
            max (min (s.missileInterval + (env.random s.draws - 0.5) * 100) 1500) 500
          | FlowState.neutral => s.missileInterval) := by
  unfold adjustDifficulty
  cases h : s.currentFlowState <;> dsimp only <;> split_ifs <;>
    first
      | rfl
      | (rw [skillEvaluation_missileInterval])

/-- C12: the spawn interval is 2000 in the constructed state and after a
restart, and `adjustDifficulty` keeps an interval of `[300, 2000]` in
`[300, 2000]`: boredom gives `max(i - 100, 300)`, anxiety `min(i + 50, 2000)`,
flow a value of `[500, 1500]` that is `i` plus a jitter of magnitude at most 50,
clamped, and neutral leaves `i`. -/
theorem adjustDifficulty_interval (env : Env) (now : ℚ) (s : Game)
    (hlo : 300 ≤ s.missileInterval) (hhi : s.missileInterval ≤ 2000)
    (hr : 0 ≤ env.random s.draws ∧ env.random s.draws < 1) :
    (300 ≤ (adjustDifficulty env now s).missileInterval ∧
      (adjustDifficulty env now s).missileInterval ≤ 2000) ∧
    (s.currentFlowState = FlowState.boredom →
      (adjustDifficulty env now s).missileInterval = max (s.missileInterval - 100) 300) ∧
    (s.currentFlowState = FlowState.anxiety →
      (adjustDifficulty env now s).missileInterval = min (s.missileInterval + 50) 2000) ∧
    (s.currentFlowState = FlowState.flow →
      (adjustDifficulty env now s).missileInterval
        = max (min (s.missileInterval + (env.random s.draws - 0.5) * 100) 1500) 500 ∧
      |(env.random s.draws - 0.5) * 100| ≤ 50 ∧
      500 ≤ (adjustDifficulty env now s).missileInterval ∧
      (adjustDifficulty env now s).missileInterval ≤ 1500) ∧
    (s.currentFlowState = FlowState.neutral →
      (adjustDifficulty env now s).missileInterval = s.missileInterval) ∧
    (∀ memecoins : List Coin, (initialGame env memecoins).missileInterval = 2000) ∧
    (∀ t : Game, (restartGame env t).missileInterval = 2000) := by
  have key := adjustDifficulty_missileInterval env now s
  refine ⟨?_, fun h => ?_, fun h => ?_, fun h => ?_, fun h => ?_, fun _ => rfl, fun _ => rfl⟩
  · rw [key]
    cases h : s.currentFlowState <;> dsimp only
    · exact ⟨le_min (by linarith) (by norm_num), min_le_right _ _⟩
    · exact ⟨hlo, hhi⟩
    · exact ⟨le_trans (by norm_num) (le_max_right _ _),
        max_le (le_trans (min_le_right _ _) (by norm_num)) (by norm_num)⟩
    · exact ⟨le_max_right _ _, max_le (by linarith) (by norm_num)⟩
  · rw [key, h]
  · rw [key, h]
  · rw [key, h]
    refine ⟨rfl, ?_, le_max_right _ _, max_le (min_le_right _ _) (by norm_num)⟩
    rw [abs_le]
    constructor <;> linarith [hr.1, hr.2]
  · rw [key, h]

/-- Evaluation of C12 in the boredom state at an interval of 350: the floor of
300 applies. -/
theorem adjustDifficulty_interval_witness :
    (adjustDifficulty sampleEnv 0
        { initialGame sampleEnv [] with
          currentFlowState := FlowState.boredom, missileInterval := 350 }).missileInterval
      = max (350 - 100) 300 :=
  (adjustDifficulty_interval sampleEnv 0
    { initialGame sampleEnv [] with currentFlowState := FlowState.boredom, missileInterval := 350 }
    (by norm_num) (by norm_num) (sampleRandom_range _)).2.1 rfl

/-! ## Flow classification -/

/-- C13: `updateFlowState(d)` sets the flow state to boredom when
`d < flowZone.min`, otherwise to anxiety when `d > flowZone.max` (for a band with
`min ≤ max` this is whenever `d > flowZone.max`), and to flow otherwise; the
result depends on the band and on `d` only, not on the previous flow state; in
the flow case `flowZone.max` becomes `min(flowZone.max + 1, 95)` and
`flowZone.min` stays, in the other two cases the band is unchanged. -/
theorem updateFlowState_classifies (s : Game) (d : ℚ) :
    (d < s.flowZone.min →
      (updateFlowState s d).currentFlowState = FlowState.boredom ∧
      (updateFlowState s d).flowZone = s.flowZone) ∧
    (¬ d < s.flowZone.min → d > s.flowZone.max →
      (updateFlowState s d).currentFlowState = FlowState.anxiety ∧
      (updateFlowState s d).flowZone = s.flowZone) ∧
    (s.flowZone.min ≤ s.flowZone.max → d > s.flowZone.max →
      (updateFlowState s d).currentFlowState = FlowState.anxiety ∧
      (updateFlowState s d).flowZone = s.flowZone) ∧
    (¬ d < s.flowZone.min → ¬ d > s.flowZone.max →
      (updateFlowState s d).currentFlowState = FlowState.flow ∧
      (updateFlowState s d).flowZone.max = min (s.flowZone.max + 1) 95 ∧
      (updateFlowState s d).flowZone.min = s.flowZone.min) ∧
    (∀ t : Game, t.flowZone = s.flowZone →
      (updateFlowState t d).currentFlowState = (updateFlowState s d).currentFlowState ∧
      (updateFlowState t d).flowZone = (updateFlowState s d).flowZone) := by
  have anx : ¬ d < s.flowZone.min → d > s.flowZone.max →
      (updateFlowState s d).currentFlowState = FlowState.anxiety ∧
      (updateFlowState s d).flowZone = s.flowZone := by
    intro h1 h2
    unfold updateFlowState
    rw [if_neg h1, if_pos h2]
    exact ⟨rfl, rfl⟩
  refine ⟨fun h => ?_, anx, fun hband h2 => anx (not_lt.mpr (le_trans hband (le_of_lt h2))) h2,
    fun h1 h2 => ?_, fun t ht => ?_⟩
  · unfold updateFlowState
    rw [if_pos h]
    exact ⟨rfl, rfl⟩
  · unfold updateFlowState
    rw [if_neg h1, if_neg h2]
    exact ⟨rfl, rfl, rfl⟩
  · unfold updateFlowState
    rw [ht]
    split_ifs <;> exact ⟨rfl, rfl⟩

/-- Evaluation of C13 in the constructed state (band `[40, 60]`) at difficulty 0:
boredom, band unchanged. -/
theorem updateFlowState_classifies_witness :
    (updateFlowState (initialGame sampleEnv []) 0).currentFlowState = FlowState.boredom ∧
      (updateFlowState (initialGame sampleEnv []) 0).flowZone = (initialGame sampleEnv []).flowZone :=
  (updateFlowState_classifies (initialGame sampleEnv []) 0).1 (by norm_num [initialGame])

/-! ## Play area -/

/-- C14: after `updatePlayer` the player's x and z coordinates lie in
`[-40, 40]`, whatever the prior position, keys, touch vector, dash state and
`dt` are. -/
theorem updatePlayer_in_play_area (env : Env) (input : Input) (deltaTime : ℚ) (s : Game) :
    -40 ≤ (updatePlayer env input deltaTime s).playerPosition.x ∧
      (updatePlayer env input deltaTime s).playerPosition.x ≤ 40 ∧
      -40 ≤ (updatePlayer env input deltaTime s).playerPosition.z ∧
      (updatePlayer env input deltaTime s).playerPosition.z ≤ 40 := by
  have hclock : ∀ t : Game, (clockTick deltaTime t).playerPosition = t.playerPosition := by
    intro t
    unfold clockTick updateScore endGame
    dsimp only
    split_ifs <;> rfl
  unfold updatePlayer
  dsimp only
  rw [hclock]
  unfold movePlayer
  exact ⟨le_max_right _ _, max_le (min_le_right _ _) (by norm_num),
    le_max_right _ _, max_le (min_le_right _ _) (by norm_num)⟩

/-! ## Dash -/

/-- The clock stage adds `dt` to the score, doubled while `dashDuration > 0`. -/
theorem clockTick_score (deltaTime : ℚ) (s : Game) :
    (clockTick deltaTime s).score
      = s.score + 1 * deltaTime * (if s.dashDuration > 0 then 2 else 1) := by
  unfold clockTick updateScore endGame
  dsimp only
  split_ifs <;> rfl

/-- The score and the dash duration that `updatePlayer` leaves. -/
theorem updatePlayer_score (env : Env) (input : Input) (deltaTime : ℚ) (s : Game) :
    (updatePlayer env input deltaTime s).score
      = s.score + 1 * deltaTime *
          (if (if s.dashDuration > 0 then s.dashDuration - deltaTime else s.dashDuration) > 0
            then 2 else 1) := by
  have hphys : (playerPhysics deltaTime s).score = s.score ∧
      (playerPhysics deltaTime s).dashDuration = s.dashDuration := by
    unfold playerPhysics
    dsimp only
    split_ifs <;> exact ⟨rfl, rfl⟩
  have hdash : ∀ t : Game, (dashTick env deltaTime t).score = t.score ∧
      (dashTick env deltaTime t).dashDuration
        = (if t.dashDuration > 0 then t.dashDuration - deltaTime else t.dashDuration) := by
    intro t
    unfold dashTick createDashEffect
    dsimp only
    split_ifs <;> exact ⟨rfl, rfl⟩
  unfold updatePlayer
  dsimp only
  rw [clockTick_score]
  show (dashTick env deltaTime (playerPhysics deltaTime s)).score
      + 1 * deltaTime *
        (if (dashTick env deltaTime (playerPhysics deltaTime s)).dashDuration > 0 then 2 else 1) = _
  rw [(hdash _).1, (hdash _).2, hphys.1, hphys.2]

/-- C15 on the code: `updatePlayer` reads the speed factor before it decreases
`dashDuration` and `updateScore` reads the multiplier after, so the score of a
tick is `dt` times 2 only if the dash outlasts the tick.  On the last tick of a
dash (0.1 s left, `dt` = 0.1, right key down) the factor is 3, the player moves
`5 * 3 * 0.1` and the score accrued is `0.1`, not `0.2`. -/
theorem dash_last_tick_score :
    (∀ (env : Env) (input : Input) (deltaTime : ℚ) (s : Game),
      (updatePlayer env input deltaTime s).score
        = s.score + 1 * deltaTime *
            (if (if s.dashDuration > 0 then s.dashDuration - deltaTime else s.dashDuration) > 0
              then 2 else 1)) ∧
    dashFactor lastDashTick = 3 ∧
    (updatePlayer exactEnv rightKey 0.1 lastDashTick).playerPosition.x
      = lastDashTick.playerPosition.x + 5 * 3 * 0.1 ∧
    (updatePlayer exactEnv rightKey 0.1 lastDashTick).score = lastDashTick.score + 0.1 := by
  refine ⟨updatePlayer_score, by decide!, by decide!, by decide!⟩

/-! ## Fragments and wind -/

/-- A missile that is not homing leaves the loop body with the velocity that
the wind lines give it. -/
theorem moveMissile_velocity_wind (env : Env) (deltaTime : ℚ) (s : Game) (missile : Missile)
    (h : missile.type ≠ MissileType.homing) :
    (moveMissile env deltaTime s missile).2.1.velocity = (applyWind env s.draws missile).velocity := by
  unfold moveMissile
  dsimp only
  rw [if_neg h]
  unfold applyWind
  dsimp only
  split_ifs <;> rfl

/-- The wind lines never change the vertical velocity. -/
theorem applyWind_vertical (env : Env) (d : ℕ) (missile : Missile) :
    (applyWind env d missile).velocity.y = missile.velocity.y := by
  unfold applyWind
  dsimp only
  split_ifs <;> rfl

/-- C16 on the code: a fragment is moved by the branch of every missile that is
not homing.  For `risingFragment` and `dt` = 0.1 the position advances by
`velocity * dt`, the vertical velocity stays 4 (the claim gives `4 - 9.8 * 0.1`)
and the horizontal velocity `(1, 0)` becomes `(0.95, 0.02)` by the wind. -/
theorem fragment_tick_no_gravity :
    (∀ (env : Env) (deltaTime : ℚ) (s : Game) (missile : Missile),
      (moveMissile env deltaTime s { missile with type := MissileType.fragment }).2.1.velocity.y
        = missile.velocity.y) ∧
    (moveMissile sampleEnv 0.1 (initialGame sampleEnv []) risingFragment).2.1.mesh.position
      = ⟨0 + 1 * 0.1, 0.2 + 4 * 0.1, 0 + 0 * 0.1⟩ ∧
    (moveMissile sampleEnv 0.1 (initialGame sampleEnv []) risingFragment).2.1.velocity
      = ⟨0.95, 4, 0.02⟩ ∧
    (moveMissile sampleEnv 0.1 (initialGame sampleEnv []) risingFragment).2.1.velocity
      ≠ ⟨1, 4 - 9.8 * 0.1, 0⟩ := by
  refine ⟨fun env deltaTime s missile => ?_, by decide!, by decide!, by decide!⟩
  rw [moveMissile_velocity_wind _ _ _ _ (by simp), applyWind_vertical]

/-- C17, as the code has it: for a regular or cluster missile and draws in
`[0, 1)`, one tick adds to each horizontal velocity component, before the speed
limit, a jitter `(r - 0.5) * 0.1` of magnitude at most 0.05, whatever `dt` is;
the jitter is not scaled by `dt`. -/
theorem wind_jitter_bound (env : Env) (deltaTime : ℚ) (s : Game) (missile : Missile)
    (hType : missile.type = MissileType.regular ∨ missile.type = MissileType.cluster)
    (hRandom : ∀ n, 0 ≤ env.random n ∧ env.random n < 1) :
    |(env.random s.draws - 0.5) * 0.1| ≤ 0.05 ∧
    |(env.random (s.draws + 1) - 0.5) * 0.1| ≤ 0.05 ∧
    (moveMissile env deltaTime s missile).2.1.velocity
      = (if env.sqrt
            ((missile.velocity.x + (env.random s.draws - 0.5) * 0.1)
                * (missile.velocity.x + (env.random s.draws - 0.5) * 0.1)
              + (missile.velocity.z + (env.random (s.draws + 1) - 0.5) * 0.1)
                * (missile.velocity.z + (env.random (s.draws + 1) - 0.5) * 0.1)) > 3
          then
            ⟨(missile.velocity.x + (env.random s.draws - 0.5) * 0.1)
                * (3 / env.sqrt
                  ((missile.velocity.x + (env.random s.draws - 0.5) * 0.1)
                      * (missile.velocity.x + (env.random s.draws - 0.5) * 0.1)
                    + (missile.velocity.z + (env.random (s.draws + 1) - 0.5) * 0.1)
                      * (missile.velocity.z + (env.random (s.draws + 1) - 0.5) * 0.1))),
              missile.velocity.y,
              (missile.velocity.z + (env.random (s.draws + 1) - 0.5) * 0.1)
                * (3 / env.sqrt
                  ((missile.velocity.x + (env.random s.draws - 0.5) * 0.1)
                      * (missile.velocity.x + (env.random s.draws - 0.5) * 0.1)
                    + (missile.velocity.z + (env.random (s.draws + 1) - 0.5) * 0.1)
                      * (missile.velocity.z + (env.random (s.draws + 1) - 0.5) * 0.1)))⟩
          else
            ⟨missile.velocity.x + (env.random s.draws - 0.5) * 0.1,
              missile.velocity.y,
              missile.velocity.z + (env.random (s.draws + 1) - 0.5) * 0.1⟩) := by
  have hne : missile.type ≠ MissileType.homing := by
    rcases hType with h | h <;> rw [h] <;> decide
  refine ⟨?_, ?_, ?_⟩
  · rw [abs_le]
    constructor <;> linarith [(hRandom s.draws).1, (hRandom s.draws).2]
  · rw [abs_le]
    constructor <;> linarith [(hRandom (s.draws + 1)).1, (hRandom (s.draws + 1)).2]
  · rw [moveMissile_velocity_wind env deltaTime s missile hne]
    unfold applyWind
    dsimp only
    split_ifs <;> rfl

/-- Evaluation of the amended C17 on `fallingRegular`: both jitters of the tick
have magnitude at most 0.05. -/
theorem wind_jitter_bound_witness :
    |(sampleEnv.random (initialGame sampleEnv []).draws - 0.5) * 0.1| ≤ 0.05 ∧
      |(sampleEnv.random ((initialGame sampleEnv []).draws + 1) - 0.5) * 0.1| ≤ 0.05 :=
  ⟨(wind_jitter_bound sampleEnv 0.1 (initialGame sampleEnv []) fallingRegular
      (Or.inl rfl) sampleRandom_range).1,
   (wind_jitter_bound sampleEnv 0.1 (initialGame sampleEnv []) fallingRegular
      (Or.inl rfl) sampleRandom_range).2.1⟩

/-- C17 as stated fails: with `dt` = 0.1 and a first draw of 0 the tick changes
the x velocity of `fallingRegular` by -0.05, more than `0.1 * dt` = 0.01 in
magnitude. -/
theorem wind_jitter_counterexample :
    sampleEnv.random (initialGame sampleEnv []).draws = 0 ∧
      (moveMissile sampleEnv 0.1 (initialGame sampleEnv []) fallingRegular).2.1.velocity.x
        - fallingRegular.velocity.x = -0.05 ∧
      ¬ (|(moveMissile sampleEnv 0.1 (initialGame sampleEnv []) fallingRegular).2.1.velocity.x
          - fallingRegular.velocity.x| ≤ 0.1 * 0.1) := by
  refine ⟨by decide!, by decide!, by decide!⟩

/-! ## List facts for the reverse loop -/

/-- What lies at or after index `i` once index `i` is removed lay after it. -/
theorem mem_drop_eraseIdx (l : List Missile) (i : ℕ) (x : Missile)
    (h : x ∈ (l.eraseIdx i).drop i) : x ∈ l.drop (i + 1) := by
  induction l generalizing i with
  | nil => simp at h
  | cons a l ih =>
    cases i with
    | zero => simpa using h
    | succ i =>
      simp only [List.eraseIdx_cons_succ, List.drop_succ_cons] at h ⊢
      exact ih i h

/-- What lies at or after index `i` once index `i` is overwritten is the new
entry or lay after it. -/
theorem mem_drop_set (l : List Missile) (i : ℕ) (a x : Missile)
    (h : x ∈ (l.set i a).drop i) : x = a ∨ x ∈ l.drop (i + 1) := by
  induction l generalizing i with
  | nil => simp at h
  | cons b l ih =>
    cases i with
    | zero => simpa using h
    | succ i =>
      simp only [List.set_cons_succ, List.drop_succ_cons] at h ⊢
      exact ih i h

/-- What lies after index `i` lies at or after it. -/
theorem mem_drop_succ (l : List Missile) (i : ℕ) (x : Missile)
    (h : x ∈ l.drop (i + 1)) : x ∈ l.drop i := by
  induction l generalizing i with
  | nil => simp at h
  | cons b l ih =>
    cases i with
    | zero =>
      simp only [List.drop_succ_cons, List.drop_zero] at h ⊢
      exact List.mem_cons_of_mem _ (by simpa using h)
    | succ i =>
      simp only [List.drop_succ_cons] at h ⊢
      exact ih i h

/-- The entry read at index `i` lies at or after index `i`. -/
theorem mem_drop_of_getElem? (l : List Missile) (i : ℕ) (a : Missile)
    (h : l[i]? = some a) : a ∈ l.drop i := by
  induction l generalizing i with
  | nil => simp at h
  | cons b l ih =>
    cases i with
    | zero =>
      simp only [List.getElem?_cons_zero, Option.some.injEq] at h
      simp [h]
    | succ i =>
      simp only [List.getElem?_cons_succ] at h
      simp only [List.drop_succ_cons]
      exact ih i h

/-- A property of the entries from index `i` on survives a map that keeps it. -/
theorem forall_drop_map (P : Missile → Prop) (f : Missile → Missile) (l : List Missile) (i : ℕ)
    (hf : ∀ m, P m → P (f m)) (h : ∀ x ∈ l.drop i, P x) :
    ∀ x ∈ (l.map f).drop i, P x := by
  intro x hx
  rw [← List.map_drop, List.mem_map] at hx
  obtain ⟨y, hy, rfl⟩ := hx
  exact hf y (h y hy)

/-- A property of the entries from index `i` on survives a change of the entry
at index `i` that keeps it. -/
theorem forall_drop_modifyAt (P : Missile → Prop) (g : Missile → Missile) (l : List Missile)
    (i : ℕ) (hg : ∀ m, P m → P (g m)) (h : ∀ x ∈ l.drop i, P x) :
    ∀ x ∈ (modifyAt l i g).drop i, P x := by
  unfold modifyAt
  cases hi : l[i]? with
  | none => exact h
  | some a =>
    intro x hx
    rcases mem_drop_set l i (g a) x hx with rfl | hx'
    · exact hg a (h a (mem_drop_of_getElem? l i a hi))
    · exact h x (mem_drop_succ l i x hx')

/-! ## Horizontal speed limit -/

/-- After the wind lines the squared horizontal speed is at most 9, when
`Math.sqrt` does not return less than the root. -/
theorem applyWind_horizontal (env : Env) (d : ℕ) (missile : Missile)
    (hSqrt : ∀ x, 0 ≤ x → 0 ≤ env.sqrt x ∧ x ≤ env.sqrt x ^ 2) :
    (applyWind env d missile).velocity.x ^ 2 + (applyWind env d missile).velocity.z ^ 2 ≤ 9 := by
  unfold applyWind
  dsimp only
  generalize missile.velocity.x + (env.random d - 0.5) * 0.1 = X
  generalize missile.velocity.z + (env.random (d + 1) - 0.5) * 0.1 = Z
  have hx : 0 ≤ X * X + Z * Z := by nlinarith [mul_self_nonneg X, mul_self_nonneg Z]
  obtain ⟨h0, hle⟩ := hSqrt (X * X + Z * Z) hx
  generalize env.sqrt (X * X + Z * Z) = h at h0 hle
  split_ifs with hgt
  · dsimp only
    have hpos : 0 < h := by linarith
    have hsq : 0 < h ^ 2 := by positivity
    have e : (X * (3 / h)) ^ 2 + (Z * (3 / h)) ^ 2 = (X * X + Z * Z) * 9 / h ^ 2 := by
      field_simp
      ring
    rw [e, div_le_iff₀ hsq]
    nlinarith
  · dsimp only
    have h3 : h ≤ 3 := not_lt.mp hgt
    nlinarith

/-- The loop body leaves the missile it moves within the horizontal speed limit. -/
theorem moveMissile_horizontal (env : Env) (deltaTime : ℚ) (s : Game) (missile : Missile)
    (hSqrt : ∀ x, 0 ≤ x → 0 ≤ env.sqrt x ∧ x ≤ env.sqrt x ^ 2) :
    HorizontalOk (moveMissile env deltaTime s missile).2.1 := by
  intro hType
  rw [moveMissile_type] at hType
  have hne : missile.type ≠ MissileType.homing := by
    rcases hType with h | h <;> rw [h] <;> decide
  rw [moveMissile_velocity_wind env deltaTime s missile hne]
  exact applyWind_horizontal env _ missile hSqrt

/-- The near-miss slowdown keeps a missile within the limit. -/
theorem scaleVelocity_horizontal (missile : Missile) (h : HorizontalOk missile) :
    HorizontalOk (Missile.scaleVelocity slowdownFactor missile) := by
  intro hType
  have hm := h hType
  show (missile.velocity.x * slowdownFactor) ^ 2 + (missile.velocity.z * slowdownFactor) ^ 2 ≤ 9
  unfold slowdownFactor
  nlinarith [sq_nonneg missile.velocity.x, sq_nonneg missile.velocity.z]

/-- One pass of the loop body: if every entry after index `i` is within the
limit, then afterwards every entry from index `i` on is. -/
theorem stepMissile_horizontal (env : Env) (deltaTime : ℚ) (i : ℕ) (missile : Missile) (s : Game)
    (hSqrt : ∀ x, 0 ≤ x → 0 ≤ env.sqrt x ∧ x ≤ env.sqrt x ^ 2)
    (hi : s.missiles[i]? = some missile)
    (hInv : ∀ x ∈ s.missiles.drop (i + 1), HorizontalOk x) :
    ∀ x ∈ (stepMissile env deltaTime i missile s).missiles.drop i, HorizontalOk x := by
  have hlen : i < s.missiles.length := (List.getElem?_eq_some.mp hi).1
  have hmoved := moveMissile_horizontal env deltaTime s missile hSqrt
  -- the list once the moved missile is written back
  have hset : ∀ x ∈ (s.missiles.set i (moveMissile env deltaTime s missile).2.1).drop i,
      HorizontalOk x := by
    intro x hx
    rcases mem_drop_set _ _ _ _ hx with rfl | hx'
    · exact hmoved
    · exact hInv x hx'
  by_cases hy : missile.mesh.position.y + missile.velocity.y * deltaTime < 0
  · rw [stepMissile_ground env deltaTime i missile s hy]
    obtain ⟨frags, hm, _, _, hall, _⟩ :=
      groundImpact_spec env i (moveMissile env deltaTime s missile).2.1
        { s with
          missiles := s.missiles.set i (moveMissile env deltaTime s missile).2.1
          draws := s.draws + (moveMissile env deltaTime s missile).2.2 }
        (by simpa using hlen)
    rw [hm]
    intro x hx
    rw [List.drop_append_eq_append_drop, List.mem_append] at hx
    rcases hx with hx | hx
    · exact hset x (mem_drop_succ _ _ _ (mem_drop_eraseIdx _ _ _ hx))
    · intro hType
      have hfrag := (hall x (List.mem_of_mem_drop hx)).1
      rw [hfrag] at hType
      rcases hType with h | h <;> exact absurd h (by decide)
  · have hpos : ¬ (moveMissile env deltaTime s missile).2.1.mesh.position.y < 0 := by
      rw [moveMissile_position]
      exact hy
    -- the list after the near-miss lines
    have hnear : ∀ x ∈ (nearMissCheck i (moveMissile env deltaTime s missile).1
        (moveMissile env deltaTime s missile).2.1
        { s with
          missiles := s.missiles.set i (moveMissile env deltaTime s missile).2.1
          draws := s.draws + (moveMissile env deltaTime s missile).2.2 }).missiles.drop i,
        HorizontalOk x := by
      unfold nearMissCheck handleNearMiss
      dsimp only
      split_ifs
      · exact forall_drop_modifyAt HorizontalOk _ _ i (fun m hm => hm)
          (forall_drop_map HorizontalOk _ _ i scaleVelocity_horizontal hset)
      · exact hset
      · exact hset
    unfold stepMissile
    dsimp only
    rw [if_neg hpos]
    split_ifs
    · intro x hx
      exact hnear x (mem_drop_succ _ _ _ (mem_drop_eraseIdx _ _ _ hx))
    · intro x hx
      have hx' := mem_drop_eraseIdx _ _ _ hx
      unfold handlePlayerHit endGame at hx'
      dsimp only at hx'
      split_ifs at hx'
      · simp at hx'
      · exact hnear x (mem_drop_succ _ _ _ hx')
    · exact hnear

/-- The whole loop: if it ends, every listed missile is within the limit. -/
theorem missileLoop_horizontal (env : Env) (deltaTime : ℚ)
    (hSqrt : ∀ x, 0 ≤ x → 0 ≤ env.sqrt x ∧ x ≤ env.sqrt x ^ 2)
    (n : ℕ) (s t : Game)
    (hLoop : missileLoop env deltaTime n s = some t)
    (hInv : ∀ x ∈ s.missiles.drop n, HorizontalOk x) :
    ∀ x ∈ t.missiles, HorizontalOk x := by
  induction n generalizing s with
  | zero =>
    simp only [missileLoop, Option.some.injEq] at hLoop
    subst hLoop
    simpa using hInv
  | succ n ih =>
    rw [missileLoop] at hLoop
    cases hi : s.missiles[n]? with
    | none => rw [hi] at hLoop; exact absurd hLoop (by simp)
    | some missile =>
      rw [hi] at hLoop
      dsimp only at hLoop
      split_ifs at hLoop
      exact ih _ hLoop (stepMissile_horizontal env deltaTime n missile s hSqrt hi hInv)

/-- One Newton step on a positive guess is positive and does not fall below the
root. -/
theorem newton_step (x g : ℚ) (hx : 0 ≤ x) (hg : 0 < g) :
    0 < (g + x / g) / 2 ∧ x ≤ ((g + x / g) / 2) ^ 2 := by
  have hdiv : 0 ≤ x / g := div_nonneg hx (le_of_lt hg)
  refine ⟨by linarith, ?_⟩
  have e : ((g + x / g) / 2) ^ 2 - x = ((g - x / g) / 2) ^ 2 := by
    field_simp
    ring
  have hsq : 0 ≤ ((g - x / g) / 2) ^ 2 := sq_nonneg _
  linarith

/-- The square root of the concrete environment is non-negative and does not
fall below the root. -/
theorem sampleEnv_sqrt_upper (x : ℚ) (hx : 0 ≤ x) :
    0 ≤ sampleEnv.sqrt x ∧ x ≤ sampleEnv.sqrt x ^ 2 := by
  show 0 ≤ (fun g => (g + x / g) / 2)^[5] ((x + 1) / 2) ∧
    x ≤ ((fun g => (g + x / g) / 2)^[5] ((x + 1) / 2)) ^ 2
  have h0 : (0 : ℚ) < (x + 1) / 2 := by linarith
  have h1 := (newton_step x _ hx h0).1
  have h2 := (newton_step x _ hx h1).1
  have h3 := (newton_step x _ hx h2).1
  have h4 := (newton_step x _ hx h3).1
  have h5 := newton_step x _ hx h4
  simp only [Function.iterate_succ, Function.iterate_zero, Function.comp, id]
  exact ⟨le_of_lt h5.1, h5.2⟩

/-- C18: when `updateMissiles` completes a tick, every regular or cluster
missile in the list has horizontal speed at most 3 (`vx² + vz² ≤ 9`), whatever
the velocities were before the tick, and the wind and limit lines leave the
vertical velocity as it was.  `Math.sqrt` is taken not to return less than the
root. -/
theorem horizontal_speed_limit (env : Env) (now deltaTime : ℚ) (s t : Game)
    (hSqrt : ∀ x, 0 ≤ x → 0 ≤ env.sqrt x ∧ x ≤ env.sqrt x ^ 2)
    (hTick : updateMissiles env now deltaTime s = some t) :
    (∀ m ∈ t.missiles, (m.type = MissileType.regular ∨ m.type = MissileType.cluster) →
      m.velocity.x ^ 2 + m.velocity.z ^ 2 ≤ 9) ∧
    (∀ (d : ℕ) (m : Missile), (applyWind env d m).velocity.y = m.velocity.y) := by
  refine ⟨?_, applyWind_vertical env⟩
  unfold updateMissiles at hTick
  dsimp only at hTick
  rw [Option.bind_eq_some] at hTick
  obtain ⟨s1, _, hLoop⟩ := hTick
  have h := missileLoop_horizontal env deltaTime hSqrt s1.missiles.length s1 t hLoop
    (by simp)
  exact h

/-- Evaluation of C18 on a tick of `fastRegularState` without a spawn: the tick
completes, `fastRegular` is still listed as a regular missile, and every
regular or cluster missile is within the limit. -/
theorem horizontal_speed_limit_witness :
    (updateMissiles sampleEnv 0 0.1 fastRegularState).map
        (fun t => t.missiles.map (fun m => m.type)) = some [MissileType.regular] ∧
      ∀ t, updateMissiles sampleEnv 0 0.1 fastRegularState = some t →
        ∀ m ∈ t.missiles, (m.type = MissileType.regular ∨ m.type = MissileType.cluster) →
          m.velocity.x ^ 2 + m.velocity.z ^ 2 ≤ 9 :=
  ⟨by decide!, fun t ht =>
    (horizontal_speed_limit sampleEnv 0 0.1 fastRegularState t sampleEnv_sqrt_upper ht).1⟩

/-! ## Homing pursuit -/

/-- The velocity that `updateHomingMissile` leaves: the old one plus the pull
toward the player (with the downward bias) times the homing strength
`min(0.5 * age, 3)` times `dt`, scaled by `maxSpeed / speed` when the measured
speed exceeds `maxSpeed = 1.5 * fallSpeed`. -/
theorem updateHomingMissile_velocity (env : Env) (s : Game) (missile : Missile) (deltaTime : ℚ) :
    let toPlayer := (Vec3.sub s.playerPosition missile.mesh.position).normalize env
    let homingStrength := min (0.5 * missile.age) 3
    let vx := missile.velocity.x + toPlayer.x * homingStrength * deltaTime
    let vy := missile.velocity.y + (toPlayer.y - 1) * homingStrength * deltaTime
    let vz := missile.velocity.z + toPlayer.z * homingStrength * deltaTime
    let speed := env.sqrt (vx * vx + vy * vy + vz * vz)
    let maxSpeed := 1.5 * missile.coin.fallSpeed
    (updateHomingMissile env s missile deltaTime).velocity =
      (if speed > maxSpeed then
        ⟨vx * (maxSpeed / speed), vy * (maxSpeed / speed), vz * (maxSpeed / speed)⟩
      else ⟨vx, vy, vz⟩) := by
  intro toPlayer homingStrength vx vy vz speed maxSpeed
  unfold updateHomingMissile
  dsimp only
  have hcomm : missile.age * 0.5 = 0.5 * missile.age := mul_comm _ _
  have hcomm' : missile.coin.fallSpeed * 1.5 = 1.5 * missile.coin.fallSpeed := mul_comm _ _
  rw [hcomm, hcomm']

/-- The speed limit of `updateHomingMissile`, in squared form. -/
theorem updateHomingMissile_bound (env : Env) (s : Game) (missile : Missile) (deltaTime : ℚ)
    (hSqrt : ∀ x, 0 ≤ x → 0 ≤ env.sqrt x ∧ x ≤ env.sqrt x ^ 2)
    (hFall : 0 ≤ missile.coin.fallSpeed) :
    (updateHomingMissile env s missile deltaTime).velocity.x ^ 2
        + (updateHomingMissile env s missile deltaTime).velocity.y ^ 2
        + (updateHomingMissile env s missile deltaTime).velocity.z ^ 2
      ≤ (1.5 * missile.coin.fallSpeed) ^ 2 := by
  have hmax : 0 ≤ 1.5 * missile.coin.fallSpeed := by linarith
  rw [updateHomingMissile_velocity env s missile deltaTime]
  generalize missile.velocity.x
    + ((Vec3.sub s.playerPosition missile.mesh.position).normalize env).x
      * min (0.5 * missile.age) 3 * deltaTime = X
  generalize missile.velocity.y
    + (((Vec3.sub s.playerPosition missile.mesh.position).normalize env).y - 1)
      * min (0.5 * missile.age) 3 * deltaTime = Y
  generalize missile.velocity.z
    + ((Vec3.sub s.playerPosition missile.mesh.position).normalize env).z
      * min (0.5 * missile.age) 3 * deltaTime = Z
  have hx : 0 ≤ X * X + Y * Y + Z * Z := by
    nlinarith [mul_self_nonneg X, mul_self_nonneg Y, mul_self_nonneg Z]
  obtain ⟨h0, hle⟩ := hSqrt (X * X + Y * Y + Z * Z) hx
  generalize env.sqrt (X * X + Y * Y + Z * Z) = h at h0 hle
  generalize 1.5 * missile.coin.fallSpeed = M at hmax
  by_cases hgt : h > M
  · rw [if_pos hgt]
    dsimp only
    have hpos : 0 < h := lt_of_le_of_lt hmax hgt
    have hsq : 0 < h ^ 2 := by positivity
    have e : (X * (M / h)) ^ 2 + (Y * (M / h)) ^ 2 + (Z * (M / h)) ^ 2
        = (X * X + Y * Y + Z * Z) * M ^ 2 / h ^ 2 := by
      field_simp
      ring
    rw [e, div_le_iff₀ hsq]
    have hM : 0 ≤ M ^ 2 := sq_nonneg M
    nlinarith
  · rw [if_neg hgt]
    dsimp only
    have hM : h ≤ M := not_lt.mp hgt
    nlinarith

/-- In the loop body a homing missile gets the velocity that
`updateHomingMissile` computes from its new age and its new position. -/
theorem moveMissile_velocity_homing (env : Env) (deltaTime : ℚ) (s : Game) (missile : Missile)
    (hType : missile.type = MissileType.homing) :
    (moveMissile env deltaTime s missile).2.1.velocity
      = (updateHomingMissile env s
          { missile with
            age := missile.age + deltaTime
            mesh := { missile.mesh with
              position :=
                ⟨missile.mesh.position.x + missile.velocity.x * deltaTime,
                 missile.mesh.position.y + missile.velocity.y * deltaTime,
                 missile.mesh.position.z + missile.velocity.z * deltaTime⟩ } }
          deltaTime).velocity := by
  unfold moveMissile
  simp only [hType, if_true]
  split_ifs <;> rfl

/-- C19: `updateHomingMissile` leaves exactly this velocity: with the homing
strength `min(0.5 * age, 3)`, the old velocity plus the unit vector to the
player (minus 1 on the vertical axis) times strength times `dt`, and, when the
speed `sqrt(vx² + vy² + vz²)` of that sum exceeds `maxSpeed = 1.5 * fallSpeed`,
all three components times `maxSpeed / speed`.  So afterwards the total speed is
at most `maxSpeed` (`vx² + vy² + vz² ≤ maxSpeed²` with `maxSpeed ≥ 0`); coin, age
and position are untouched; and the same limit holds for the velocity with which
a homing missile leaves the loop body of a tick.  `Math.sqrt` is taken not to
return less than the root, and the fall speed is non-negative as for every
roster entry. -/
theorem homing_speed_limit (env : Env) (s : Game) (missile : Missile) (deltaTime : ℚ)
    (hSqrt : ∀ x, 0 ≤ x → 0 ≤ env.sqrt x ∧ x ≤ env.sqrt x ^ 2)
    (hFall : 0 ≤ missile.coin.fallSpeed) :
    let toPlayer := (Vec3.sub s.playerPosition missile.mesh.position).normalize env
    let homingStrength := min (0.5 * missile.age) 3
    let vx := missile.velocity.x + toPlayer.x * homingStrength * deltaTime
    let vy := missile.velocity.y + (toPlayer.y - 1) * homingStrength * deltaTime
    let vz := missile.velocity.z + toPlayer.z * homingStrength * deltaTime
    let speed := env.sqrt (vx * vx + vy * vy + vz * vz)
    let maxSpeed := 1.5 * missile.coin.fallSpeed
    let after := updateHomingMissile env s missile deltaTime
    let moved := (moveMissile env deltaTime s missile).2.1
    after.velocity =
        (if speed > maxSpeed then
          ⟨vx * (maxSpeed / speed), vy * (maxSpeed / speed), vz * (maxSpeed / speed)⟩
        else ⟨vx, vy, vz⟩) ∧
      after.velocity.x ^ 2 + after.velocity.y ^ 2 + after.velocity.z ^ 2 ≤ maxSpeed ^ 2 ∧
      0 ≤ maxSpeed ∧
      after.coin = missile.coin ∧ after.age = missile.age ∧
      after.mesh.position = missile.mesh.position ∧
      (missile.type = MissileType.homing →
        moved.velocity.x ^ 2 + moved.velocity.y ^ 2 + moved.velocity.z ^ 2 ≤ maxSpeed ^ 2) := by
  intro toPlayer homingStrength vx vy vz speed maxSpeed after moved
  refine ⟨updateHomingMissile_velocity env s missile deltaTime,
    updateHomingMissile_bound env s missile deltaTime hSqrt hFall, ?_, rfl, rfl, ?_, ?_⟩
  · show 0 ≤ 1.5 * missile.coin.fallSpeed
    linarith
  · show (updateHomingMissile env s missile deltaTime).mesh.position = _
    unfold updateHomingMissile
    dsimp only
    split_ifs <;> rfl
  · intro hType
    show (moveMissile env deltaTime s missile).2.1.velocity.x ^ 2
        + (moveMissile env deltaTime s missile).2.1.velocity.y ^ 2
        + (moveMissile env deltaTime s missile).2.1.velocity.z ^ 2
      ≤ (1.5 * missile.coin.fallSpeed) ^ 2
    rw [moveMissile_velocity_homing env deltaTime s missile hType]
    exact updateHomingMissile_bound env s _ deltaTime hSqrt hFall

/-- Evaluation of C19 on `fastHoming` chasing a player at the origin: it enters
at 20 units/s (squared 400), above the limit of 13.5 (squared 182.25), and
leaves scaled down to the limit; the five Newton steps of the concrete square
root round up a little, so the squared speed ends between 180 and 182.25. -/
theorem homing_speed_limit_witness :
    fastHoming.velocity.x ^ 2 + fastHoming.velocity.y ^ 2 + fastHoming.velocity.z ^ 2 = 400 ∧
    (1.5 * fastHoming.coin.fallSpeed) ^ 2 = 182.25 ∧
    180 ≤ (updateHomingMissile sampleEnv (initialGame sampleEnv []) fastHoming 0.1).velocity.x ^ 2
        + (updateHomingMissile sampleEnv (initialGame sampleEnv []) fastHoming 0.1).velocity.y ^ 2
        + (updateHomingMissile sampleEnv (initialGame sampleEnv []) fastHoming 0.1).velocity.z ^ 2 ∧
    (updateHomingMissile sampleEnv (initialGame sampleEnv []) fastHoming 0.1).velocity.x ^ 2
        + (updateHomingMissile sampleEnv (initialGame sampleEnv []) fastHoming 0.1).velocity.y ^ 2
        + (updateHomingMissile sampleEnv (initialGame sampleEnv []) fastHoming 0.1).velocity.z ^ 2
      ≤ (1.5 * fastHoming.coin.fallSpeed) ^ 2 :=
  ⟨by decide!, by decide!, by decide!,
    (homing_speed_limit sampleEnv (initialGame sampleEnv []) fastHoming 0.1
      sampleEnv_sqrt_upper (by decide!)).2.1⟩

/-! ## Near misses -/

/-- The loop body keeps the near-miss flag of the missile it moves. -/
theorem moveMissile_flag (env : Env) (deltaTime : ℚ) (s : Game) (missile : Missile) :
    (moveMissile env deltaTime s missile).2.1.hasTriggeredNearMiss
      = missile.hasTriggeredNearMiss := by
  unfold moveMissile updateHomingMissile applyWind
  dsimp only
  split_ifs <;> rfl

/-- A player hit changes neither the near-miss count nor the score. -/
theorem handlePlayerHit_nearMiss (s : Game) (missile : Missile) :
    (handlePlayerHit s missile).nearMissCount = s.nearMissCount ∧
      (handlePlayerHit s missile).score = s.score := by
  unfold handlePlayerHit endGame
  dsimp only
  split_ifs <;> exact ⟨rfl, rfl⟩

/-- The fragment loop does not touch the near-miss count. -/
theorem fragmentLoop_nearMissCount (env : Env) (missile : Missile) (n : ℕ) (s : Game) :
    (fragmentLoop env missile n s).nearMissCount = s.nearMissCount := by
  induction n generalizing s with
  | zero => rfl
  | succ n ih => rw [fragmentLoop, ih]; rfl

/-- A ground impact does not touch the near-miss count. -/
theorem groundImpact_nearMissCount (env : Env) (i : ℕ) (missile : Missile) (s : Game) :
    (groundImpact env i missile s).nearMissCount = s.nearMissCount := by
  have hstreak : ∀ t : Game, (handleDodgeStreak env t).nearMissCount = t.nearMissCount := by
    intro t
    unfold handleDodgeStreak createHealthPickup
    dsimp only
    split_ifs <;> rfl
  unfold groundImpact
  dsimp only
  rw [hstreak]
  show (if missile.type = MissileType.cluster then
      createClusterFragments env missile (createImpactEffect s missile.type)
    else createImpactEffect s missile.type).nearMissCount = _
  split_ifs
  · unfold createClusterFragments
    dsimp only
    rw [fragmentLoop_nearMissCount]
    rfl
  · rfl

/-- The loop body above the ground: near-miss lines, then bounds and collision. -/
theorem stepMissile_air (env : Env) (deltaTime : ℚ) (i : ℕ) (missile : Missile) (s : Game)
    (hy : ¬ missile.mesh.position.y + missile.velocity.y * deltaTime < 0) :
    (stepMissile env deltaTime i missile s).nearMissCount
        = (nearMissCheck i (moveMissile env deltaTime s missile).1
            (moveMissile env deltaTime s missile).2.1
            { s with
              missiles := s.missiles.set i (moveMissile env deltaTime s missile).2.1
              draws := s.draws + (moveMissile env deltaTime s missile).2.2 }).nearMissCount ∧
      (stepMissile env deltaTime i missile s).score
        = (nearMissCheck i (moveMissile env deltaTime s missile).1
            (moveMissile env deltaTime s missile).2.1
            { s with
              missiles := s.missiles.set i (moveMissile env deltaTime s missile).2.1
              draws := s.draws + (moveMissile env deltaTime s missile).2.2 }).score := by
  have hpos : ¬ (moveMissile env deltaTime s missile).2.1.mesh.position.y < 0 := by
    rw [moveMissile_position]
    exact hy
  unfold stepMissile
  dsimp only
  rw [if_neg hpos]
  split_ifs
  · exact ⟨rfl, rfl⟩
  · exact ⟨(handlePlayerHit_nearMiss _ _).1, (handlePlayerHit_nearMiss _ _).2⟩
  · exact ⟨rfl, rfl⟩

/-- The near-miss lines: the event fires exactly under the four conditions, and
then adds 1 to the count and 5 to the score; otherwise the state is unchanged. -/
theorem nearMissCheck_fires (i : ℕ) (d : ℚ) (missile : Missile) (s : Game) :
    ((d < 3 ∧ d > 1) ∧ missile.hasTriggeredNearMiss = false ∧ missile.mesh.position.y > 0 →
      (nearMissCheck i d missile s).nearMissCount = s.nearMissCount + 1 ∧
      (nearMissCheck i d missile s).score = s.score + 5 ∧
      (nearMissCheck i d missile s).missiles
        = modifyAt (s.missiles.map (Missile.scaleVelocity slowdownFactor)) i
            (fun m => { m with hasTriggeredNearMiss := true })) ∧
    (¬ ((d < 3 ∧ d > 1) ∧ missile.hasTriggeredNearMiss = false ∧ missile.mesh.position.y > 0) →
      nearMissCheck i d missile s = s) := by
  constructor
  · rintro ⟨h1, h2⟩
    unfold nearMissCheck handleNearMiss
    rw [if_pos h1, if_pos h2]
    exact ⟨rfl, rfl, rfl⟩
  · intro h
    unfold nearMissCheck
    by_cases h1 : d < 3 ∧ d > 1
    · rw [if_pos h1, if_neg (fun h2 => h ⟨h1, h2⟩)]
    · rw [if_neg h1]

/-! ## The cap on roster entries -/

/-- C27: for a percent change in `[-100, 0)` and a draw below 1 the code,
which does not cap `|p|/50`, returns the archetype of the capped rule; and for a
percent change in `[-100, -30)` it returns homing when the draw is below 0.8 and
regular otherwise, never cluster. -/
theorem determineMissileType_roster (coin : Coin) (r : ℚ)
    (hlo : -100 ≤ coin.percentChange24h) (hhi : coin.percentChange24h < 0)
    (hr1 : r < 1) :
    determineMissileType coin r = archetypeRuleCapped coin.percentChange24h r ∧
      (coin.percentChange24h < -30 →
        (r < 0.8 → determineMissileType coin r = MissileType.homing) ∧
        (¬ r < 0.8 → determineMissileType coin r = MissileType.regular) ∧
        determineMissileType coin r ≠ MissileType.cluster) := by
  have habs : |coin.percentChange24h| = -coin.percentChange24h := abs_of_neg hhi
  -- below -30 the draw decides between homing and regular
  have deep : coin.percentChange24h < -30 →
      (r < 0.8 → determineMissileType coin r = MissileType.homing) ∧
      (¬ r < 0.8 → determineMissileType coin r = MissileType.regular) := by
    intro hp
    constructor
    · intro h
      unfold determineMissileType
      rw [if_pos ⟨hp, h⟩]
    · intro h
      have h8 : (0.8 : ℚ) ≤ r := not_lt.mp h
      unfold determineMissileType
      dsimp only
      rw [habs, if_neg (fun hc => h hc.2), if_neg (fun hc => by linarith [hc.2]),
        if_neg (by linarith), if_neg (by linarith)]
  refine ⟨?_, fun hp => ⟨(deep hp).1, (deep hp).2, ?_⟩⟩
  · by_cases hcap : |coin.percentChange24h| ≤ 50
    · exact (determineMissileType_layered coin r).2 hcap
    · have hp : coin.percentChange24h < -30 := by
        rw [habs] at hcap
        linarith [not_le.mp hcap]
      have hmin : min (|coin.percentChange24h| / 50) 1 = 1 := by
        apply min_eq_right
        rw [le_div_iff₀ (by norm_num)]
        linarith [not_le.mp hcap]
      by_cases h : r < 0.8
      · rw [(deep hp).1 h]
        unfold archetypeRuleCapped
        rw [if_pos ⟨hp, h⟩]
      · have h8 : (0.8 : ℚ) ≤ r := not_lt.mp h
        rw [(deep hp).2 h]
        unfold archetypeRuleCapped
        rw [hmin, if_neg (fun hc => h hc.2), if_neg (fun hc => by linarith [hc.2]),
          if_neg (by linarith), if_neg (by linarith)]
  · by_cases h : r < 0.8
    · rw [(deep hp).1 h]
      decide
    · rw [(deep hp).2 h]
      decide

/-- Evaluation of C27 at percent change -80, where the cap matters, and draw 0.9. -/
theorem determineMissileType_roster_witness :
    determineMissileType (sampleCoin (-80)) 0.9
        = archetypeRuleCapped (sampleCoin (-80)).percentChange24h 0.9 ∧
      determineMissileType (sampleCoin (-80)) 0.9 = MissileType.regular :=
  ⟨(determineMissileType_roster (sampleCoin (-80)) 0.9 (by decide!) (by decide!)
      (by norm_num)).1,
   ((determineMissileType_roster (sampleCoin (-80)) 0.9 (by decide!) (by decide!)
      (by norm_num)).2 (by decide!)).2.1 (by norm_num)⟩

/-! ## Out of bounds -/

/-- C21: a missile that after the position update has height at least 0 and is
beyond a bound (`|x| > 100`, `|z| > 100` or `y > 100`), with the player inside
the play area, is removed and nothing else happens: the pass leaves the state
as it was except for the list, which loses index `i` and gains no fragment, and
the count of draws; so `coinsDodged`, `coinsHit`, `consecutiveAvoids`,
`nearMissCount`, health and score keep their values.  `Math.sqrt` is taken not
to return less than the root. -/
theorem outOfBounds_silent (env : Env) (deltaTime : ℚ) (i : ℕ) (missile : Missile) (s : Game)
    (hSqrt : ∀ x, 0 ≤ x → 0 ≤ env.sqrt x ∧ x ≤ env.sqrt x ^ 2)
    (hy : 0 ≤ missile.mesh.position.y + missile.velocity.y * deltaTime)
    (hOut : missile.mesh.position.x + missile.velocity.x * deltaTime < -100 ∨
      missile.mesh.position.x + missile.velocity.x * deltaTime > 100 ∨
      missile.mesh.position.z + missile.velocity.z * deltaTime < -100 ∨
      missile.mesh.position.z + missile.velocity.z * deltaTime > 100 ∨
      missile.mesh.position.y + missile.velocity.y * deltaTime > 100)
    (hPlayer : |s.playerPosition.x| ≤ 40 ∧ |s.playerPosition.z| ≤ 40 ∧
      0 ≤ s.playerPosition.y ∧ s.playerPosition.y ≤ 3) :
    stepMissile env deltaTime i missile s
        = { s with
            missiles := s.missiles.eraseIdx i
            draws := s.draws + (moveMissile env deltaTime s missile).2.2 } ∧
      (stepMissile env deltaTime i missile s).coinsDodged = s.coinsDodged ∧
      (stepMissile env deltaTime i missile s).coinsHit = s.coinsHit ∧
      (stepMissile env deltaTime i missile s).consecutiveAvoids = s.consecutiveAvoids ∧
      (stepMissile env deltaTime i missile s).nearMissCount = s.nearMissCount ∧
      (stepMissile env deltaTime i missile s).health = s.health ∧
      (stepMissile env deltaTime i missile s).score = s.score ∧
      (stepMissile env deltaTime i missile s).missiles = s.missiles.eraseIdx i := by
  have hpos : ¬ (moveMissile env deltaTime s missile).2.1.mesh.position.y < 0 := by
    rw [moveMissile_position]
    exact not_lt.mpr hy
  -- the missile is at least 3 away from the player
  have hfar : ¬ ((moveMissile env deltaTime s missile).1 < 3 ∧
      (moveMissile env deltaTime s missile).1 > 1) := by
    rintro ⟨h3, _⟩
    have hd : (moveMissile env deltaTime s missile).1
        = env.sqrt (Vec3.lengthSq (Vec3.sub
            ⟨missile.mesh.position.x + missile.velocity.x * deltaTime,
              missile.mesh.position.y + missile.velocity.y * deltaTime,
              missile.mesh.position.z + missile.velocity.z * deltaTime⟩ s.playerPosition)) := rfl
    rw [hd] at h3
    obtain ⟨hpx, hpz, hpy0, hpy3⟩ := hPlayer
    rw [abs_le] at hpx hpz
    have hL : (9 : ℚ) ≤ Vec3.lengthSq (Vec3.sub
        ⟨missile.mesh.position.x + missile.velocity.x * deltaTime,
          missile.mesh.position.y + missile.velocity.y * deltaTime,
          missile.mesh.position.z + missile.velocity.z * deltaTime⟩ s.playerPosition) := by
      unfold Vec3.lengthSq Vec3.sub
      dsimp only
      rcases hOut with h | h | h | h | h <;>
        nlinarith [mul_self_nonneg
            (missile.mesh.position.x + missile.velocity.x * deltaTime - s.playerPosition.x),
          mul_self_nonneg
            (missile.mesh.position.y + missile.velocity.y * deltaTime - s.playerPosition.y),
          mul_self_nonneg
            (missile.mesh.position.z + missile.velocity.z * deltaTime - s.playerPosition.z)]
    obtain ⟨h0, hle⟩ := hSqrt _ (le_trans (by norm_num) hL)
    nlinarith
  have hnear := (nearMissCheck_fires i (moveMissile env deltaTime s missile).1
      (moveMissile env deltaTime s missile).2.1
      { s with
        missiles := s.missiles.set i (moveMissile env deltaTime s missile).2.1
        draws := s.draws + (moveMissile env deltaTime s missile).2.2 }).2
      (fun h => hfar h.1)
  have hbounds : (moveMissile env deltaTime s missile).2.1.mesh.position.x < -100 ∨
      (moveMissile env deltaTime s missile).2.1.mesh.position.x > 100 ∨
      (moveMissile env deltaTime s missile).2.1.mesh.position.z < -100 ∨
      (moveMissile env deltaTime s missile).2.1.mesh.position.z > 100 ∨
      (moveMissile env deltaTime s missile).2.1.mesh.position.y > 100 := by
    rw [moveMissile_position]
    exact hOut
  have key : stepMissile env deltaTime i missile s
      = { s with
          missiles := s.missiles.eraseIdx i
          draws := s.draws + (moveMissile env deltaTime s missile).2.2 } := by
    unfold stepMissile
    dsimp only
    rw [if_neg hpos, hnear, if_pos hbounds]
    dsimp only
    rw [eraseIdx_set_same]
  rw [key]
  exact ⟨rfl, rfl, rfl, rfl, rfl, rfl, rfl, rfl⟩

/-- Evaluation of C21 on `strayMissile`, 150 units out on the x axis: the pass
empties the list and leaves the score and the health. -/
theorem outOfBounds_silent_witness :
    (stepMissile sampleEnv 0.1 0 strayMissile strayState).missiles = [] ∧
      (stepMissile sampleEnv 0.1 0 strayMissile strayState).score = strayState.score ∧
      (stepMissile sampleEnv 0.1 0 strayMissile strayState).health = strayState.health :=
  ⟨(outOfBounds_silent sampleEnv 0.1 0 strayMissile strayState sampleEnv_sqrt_upper
      (by decide!) (by decide!) (by decide!)).2.2.2.2.2.2.2,
   (outOfBounds_silent sampleEnv 0.1 0 strayMissile strayState sampleEnv_sqrt_upper
      (by decide!) (by decide!) (by decide!)).2.2.2.2.2.2.1,
   (outOfBounds_silent sampleEnv 0.1 0 strayMissile strayState sampleEnv_sqrt_upper
      (by decide!) (by decide!) (by decide!)).2.2.2.2.2.1⟩

/-! ## Streak reward, jump, session end -/

/-- C22 on the code: the streak handler changes no field that `handlePlayerHit`
reads, so a hit resolves the same with or without it.  After fifteen dodges in
a row (streak 15, bonus 350 in all, health 100) a hit by a coin at -45 % leaves
health 55, both through `handlePlayerHit` and through the loop body. -/
theorem streak_hit_reduces_health :
    (∀ (env : Env) (s : Game) (missile : Missile),
      (handlePlayerHit (handleDodgeStreak env s) missile).health
        = (handlePlayerHit s missile).health) ∧
    streakState.consecutiveAvoids = 15 ∧
    streakState.score = 350 ∧
    streakState.health = 100 ∧
    (handlePlayerHit streakState hitter).health = 55 ∧
    (stepMissile sampleEnv 0.1 0 hitter streakState).health = 55 := by
  refine ⟨fun env s missile => ?_, by decide!, by decide!, by decide!, by decide!, by decide!⟩
  rw [(handlePlayerHit_health _ _).1, (handlePlayerHit_health _ _).1,
    (handleDodgeStreak_frame env s).2.2.2.1]

/-- C23 on the code: the jump command sets the vertical velocity to 10 and
clears `playerOnGround` when the player is on the ground, and does nothing
otherwise; but from height 0 the next `updatePlayer` finds `position.y <= 0`,
puts the player back on the ground and zeroes the velocity before it moves the
player, so the height after the tick is 0 whatever `dt` is. -/
theorem jump_stays_on_ground :
    (∀ (now : ℚ) (input : Input) (s : Game),
      (handleKeyDown Key.space now input { s with playerOnGround := true }).2
        = { s with
            playerVelocity := { s.playerVelocity with y := 10 }
            playerOnGround := false }) ∧
    (∀ (now : ℚ) (input : Input) (s : Game),
      (handleKeyDown Key.space now input { s with playerOnGround := false }).2
        = { s with playerOnGround := false }) ∧
    (∀ (env : Env) (now deltaTime : ℚ) (input : Input) (s : Game),
      (updatePlayer env input deltaTime
        (handleKeyDown Key.space now input
          { s with
            playerOnGround := true
            playerPosition := { s.playerPosition with y := 0 } }).2).playerPosition.y = 0) ∧
    (handleKeyDown Key.space 0 noInput groundedState).2.playerVelocity.y = 10 ∧
    (updatePlayer sampleEnv noInput 0.1
      (handleKeyDown Key.space 0 noInput groundedState).2).playerPosition.y = 0 ∧
    (updatePlayer sampleEnv noInput 0.1
      (handleKeyDown Key.space 0 noInput groundedState).2).playerVelocity.y = 0 := by
  refine ⟨fun _ _ _ => rfl, fun _ _ _ => rfl, fun env now deltaTime input s => ?_,
    by decide!, by decide!, by decide!⟩
  have hclock : ∀ t : Game, (clockTick deltaTime t).playerPosition = t.playerPosition := by
    intro t
    unfold clockTick updateScore endGame
    dsimp only
    split_ifs <;> rfl
  have hdash : ∀ t : Game, (dashTick env deltaTime t).playerPosition = t.playerPosition ∧
      (dashTick env deltaTime t).playerVelocity = t.playerVelocity := by
    intro t
    unfold dashTick createDashEffect
    dsimp only
    split_ifs <;> exact ⟨rfl, rfl⟩
  unfold updatePlayer
  dsimp only
  rw [hclock]
  unfold movePlayer
  dsimp only
  rw [(hdash _).1, (hdash _).2]
  unfold playerPhysics handleKeyDown jumpHeight
  norm_num

/-- C24 on the code: `endGame` empties the list, but `animate` checks `gameOver`
only on entry and the deferred spawn not at all.  In the frame of `lastSecond`
the timer passes 180 s in `updatePlayer` (game over, list emptied) and
`updateMissiles` of the same frame spawns: the frame ends with `gameOver` and
one missile listed.  In `boredState` the spawn deferred by `adjustDifficulty`
fires after the fatal hit of the tick and lists a missile while `gameOver`. -/
theorem session_end_spawns :
    (∀ s : Game, (endGame s).missiles = [] ∧ (endGame s).gameOver = true) ∧
    (updatePlayer sampleEnv noInput 0.1 lastSecond).gameOver = true ∧
    (updatePlayer sampleEnv noInput 0.1 lastSecond).missiles = [] ∧
    (animateFrame sampleEnv noInput 3000 0.1 lastSecond).map
        (fun t => (t.gameOver, t.missiles.map (fun m => m.type)))
      = some (true, [MissileType.homing]) ∧
    (updateMissiles sampleEnv 3000 0.1 boredState).map
        (fun t => (t.gameOver, t.missiles.length, t.timers))
      = some (true, 0, [⟨500, Deferred.createMissile⟩]) ∧
    ((updateMissiles sampleEnv 3000 0.1 boredState).bind (fireTimer sampleEnv 0)).map
        (fun t => (t.gameOver, t.missiles.length))
      = some (true, 1) := by
  refine ⟨fun s => ⟨rfl, rfl⟩, by decide!, by decide!, by decide!, by decide!, by decide!⟩

/-- The loop ends in an exception exactly when `missileLoopError` names one. -/
theorem missileLoop_none_iff (env : Env) (deltaTime : ℚ) (n : ℕ) (s : Game) :
    missileLoop env deltaTime n s = none ↔ (missileLoopError env deltaTime n s).isSome = true := by
  induction n generalizing s with
  | zero => simp [missileLoop, missileLoopError]
  | succ n ih =>
    rw [missileLoop, missileLoopError]
    cases s.missiles[n]? with
    | none => simp
    | some m =>
      dsimp only
      split_ifs
      · simp
      · exact ih _

/-- C25 on the code: in `twoMissileState` the pass at index 1 is a fatal hit by
a fragment, which has no label, so the pass runs to its end; `endGame` has
replaced the list by an empty array and the loop goes on to index 0, where
nothing is listed: `missile.age` is read from `undefined`, and the loop,
`updateMissiles` and the frame end in that `TypeError`.  When the missile of the
fatal hit has a label (`labelledHitState`), the tick fails one pass earlier, by
the `NotFoundError` of line 981. -/
theorem loop_reads_missing_index :
    twoMissileState.missiles[1]? = some fragmentHitter ∧
    stepThrows sampleEnv 0.1 fragmentHitter twoMissileState = false ∧
    (stepMissile sampleEnv 0.1 1 fragmentHitter twoMissileState).gameOver = true ∧
    (stepMissile sampleEnv 0.1 1 fragmentHitter twoMissileState).missiles = [] ∧
    (stepMissile sampleEnv 0.1 1 fragmentHitter twoMissileState).missiles[0]? = none ∧
    missileLoopError sampleEnv 0.1 2 twoMissileState = some (LoopError.missingIndex, 0) ∧
    missileLoop sampleEnv 0.1 2 twoMissileState = none ∧
    updateMissiles sampleEnv 0 0.1 twoMissileState = none ∧
    animateFrame sampleEnv noInput 0 0.1 twoMissileState = none ∧
    missileLoopError sampleEnv 0.1 2 labelledHitState = some (LoopError.labelNotFound, 1) ∧
    missileLoop sampleEnv 0.1 2 labelledHitState = none := by
  refine ⟨?_, ?_, ?_, ?_, ?_, ?_, ?_, ?_, ?_, ?_, ?_⟩ <;> decide!

/-! ## Slowdown and its undo -/

/-- C26 on the code: the undo divides the velocity of every missile listed when
it runs.  It restores the missiles that were slowed and are still as the
slowdown left them, but after the near miss of `grazing` a missile spawned
before the undo, with velocity `(0.4, -0.2, -0.2)`, has `(4/7, -2/7, -2/7)` after
it. -/
theorem undo_speeds_up_new_missile :
    (∀ s : Game,
      (undoSlowdown s).missiles.map (fun m => m.velocity)
        = s.missiles.map (fun m =>
            (⟨m.velocity.x / 0.7, m.velocity.y / 0.7, m.velocity.z / 0.7⟩ : Vec3))) ∧
    (∀ s : Game,
      (undoSlowdown (handleNearMiss s)).missiles.map (fun m => m.velocity)
        = s.missiles.map (fun m => m.velocity)) ∧
    (stepMissile sampleEnv 0.1 0 grazing grazingState).timers = [⟨500, Deferred.undoSlowdown⟩] ∧
    (createMissile sampleEnv (stepMissile sampleEnv 0.1 0 grazing grazingState)).map
        (fun t => t.missiles.map (fun m => m.velocity))
      = some [⟨-0.035, -6.3, 0.014⟩, ⟨0.4, -0.2, -0.2⟩] ∧
    ((createMissile sampleEnv (stepMissile sampleEnv 0.1 0 grazing grazingState)).bind
        (fireTimer sampleEnv 0)).map (fun t => t.missiles.map (fun m => m.velocity))
      = some [⟨-0.05, -9, 0.02⟩, ⟨4 / 7, -2 / 7, -2 / 7⟩] := by
  refine ⟨fun s => ?_, fun s => ?_, by decide!, by decide!, by decide!⟩
  · unfold undoSlowdown slowdownFactor
    simp [List.map_map, Function.comp]
  · unfold undoSlowdown handleNearMiss Missile.scaleVelocity slowdownFactor
    simp only [List.map_map]
    apply List.map_congr_left
    intro m _
    simp only [Function.comp]
    have h7 : (0.7 : ℚ) ≠ 0 := by norm_num
    rw [mul_div_assoc, mul_div_assoc, mul_div_assoc, div_self h7, mul_one, mul_one, mul_one]

/-! ## Hit count -/

/-- What one hit does to `coinsHit` and `gameOver`, from a game that is not over. -/
theorem handlePlayerHit_coinsHit (s : Game) (missile : Missile) (hOver : s.gameOver = false) :
    (0 < (handlePlayerHit s missile).health →
      (handlePlayerHit s missile).coinsHit = s.coinsHit + 1 ∧
      (handlePlayerHit s missile).gameOver = false) ∧
    (¬ 0 < (handlePlayerHit s missile).health →
      (handlePlayerHit s missile).coinsHit = s.coinsHit ∧
      (handlePlayerHit s missile).gameOver = true) := by
  unfold handlePlayerHit endGame
  dsimp only
  split_ifs with h
  · dsimp only
    exact ⟨fun hpos => absurd hpos (not_lt.mpr h), fun _ => ⟨rfl, rfl⟩⟩
  · dsimp only
    exact ⟨fun _ => ⟨rfl, hOver⟩, fun hn => absurd (lt_of_not_ge h) hn⟩

/-- C29: `handlePlayerHit` adds exactly 1 to `coinsHit` when the resulting health
is positive and leaves `coinsHit` when the hit is fatal (resulting health 0); so
in a session that starts with `coinsHit = 0` and is not over, after `n` hits
`coinsHit` is `n` while the game runs and `n - 1` once a hit has ended it. -/
theorem coinsHit_counts_survived_hits (s t : Game) (n : ℕ) (missile : Missile)
    (hRun : HitRun s n t) (hStart : s.gameOver = false) :
    ((0 < (handlePlayerHit s missile).health →
        (handlePlayerHit s missile).coinsHit = s.coinsHit + 1) ∧
      (¬ 0 < (handlePlayerHit s missile).health →
        (handlePlayerHit s missile).health = 0 ∧
        (handlePlayerHit s missile).coinsHit = s.coinsHit)) ∧
    (t.gameOver = false → t.coinsHit = s.coinsHit + n) ∧
    (t.gameOver = true → t.coinsHit + 1 = s.coinsHit + n) ∧
    (s.coinsHit = 0 → t.gameOver = true → t.coinsHit = n - 1) := by
  have one := handlePlayerHit_coinsHit s missile hStart
  have hnonneg : 0 ≤ (handlePlayerHit s missile).health :=
    (handlePlayerHit_gameOver s missile hStart).1
  have run : (t.gameOver = false → t.coinsHit = s.coinsHit + n) ∧
      (t.gameOver = true → t.coinsHit + 1 = s.coinsHit + n) := by
    induction hRun with
    | start => exact ⟨fun _ => rfl, fun h => by rw [hStart] at h; exact absurd h (by decide)⟩
    | hit t n m _ hOver ih =>
      have hm := handlePlayerHit_coinsHit t m hOver
      have hprev := ih.1 hOver
      by_cases hpos : 0 < (handlePlayerHit t m).health
      · obtain ⟨hc, hg⟩ := hm.1 hpos
        refine ⟨fun _ => by rw [hc, hprev]; ring, fun h => ?_⟩
        rw [hg] at h
        exact absurd h (by decide)
      · obtain ⟨hc, hg⟩ := hm.2 hpos
        refine ⟨fun h => ?_, fun _ => by rw [hc, hprev]; ring⟩
        rw [hg] at h
        exact absurd h (by decide)
    | other t u n _ hc hg ih =>
      rw [hc, hg]
      exact ih
  refine ⟨⟨fun h => (one.1 h).1, fun h => ⟨le_antisymm (not_lt.mp h) hnonneg, (one.2 h).1⟩⟩,
    run.1, run.2, fun h0 hg => ?_⟩
  have := run.2 hg
  omega

/-- Evaluation of C29: three hits by a coin at -45 % from health 100 (55, 10, 0)
end the session with `coinsHit = 2`. -/
theorem coinsHit_counts_survived_hits_witness :
    (handlePlayerHit (handlePlayerHit (handlePlayerHit groundedState hitter) hitter)
        hitter).gameOver = true ∧
      (handlePlayerHit (handlePlayerHit (handlePlayerHit groundedState hitter) hitter)
        hitter).coinsHit = 3 - 1 :=
  ⟨by decide!,
   (coinsHit_counts_survived_hits groundedState
      (handlePlayerHit (handlePlayerHit (handlePlayerHit groundedState hitter) hitter) hitter)
      3 hitter
      (HitRun.hit _ _ _ _
        (HitRun.hit _ _ _ _
          (HitRun.hit _ _ _ _ (HitRun.start groundedState) (by decide!)) (by decide!))
        (by decide!))
      (by decide!)).2.2.2 (by decide!) (by decide!)⟩

/-! ## Flow state phases -/

/-- `updateFlowState` never sets the neutral state. -/
theorem updateFlowState_not_neutral (s : Game) (d : ℚ) :
    (updateFlowState s d).currentFlowState ≠ FlowState.neutral := by
  unfold updateFlowState
  split_ifs <;> simp

/-- Without a due evaluation `adjustDifficulty` keeps the flow state. -/
theorem adjustDifficulty_flowState_idle (env : Env) (now : ℚ) (s : Game)
    (h : ¬ now - s.lastPerformanceUpdate > performanceUpdateInterval) :
    (adjustDifficulty env now s).currentFlowState = s.currentFlowState := by
  unfold adjustDifficulty
  cases hs : s.currentFlowState <;> dsimp only <;> split_ifs <;>
    first
      | rfl
      | exact hs

/-- With a due evaluation `adjustDifficulty` leaves a flow state other than
neutral. -/
theorem adjustDifficulty_flowState_due (env : Env) (now : ℚ) (s : Game)
    (h : now - s.lastPerformanceUpdate > performanceUpdateInterval) :
    (adjustDifficulty env now s).currentFlowState ≠ FlowState.neutral := by
  unfold adjustDifficulty
  cases hs : s.currentFlowState <;> dsimp only <;> split_ifs <;>
    exact updateFlowState_not_neutral _ _

/-- The first evaluation: from the neutral state at an interval of 2000 the
difficulty is 0, below every band minimum, so the result is boredom. -/
theorem adjustDifficulty_first_evaluation (env : Env) (now : ℚ) (s : Game)
    (hState : s.currentFlowState = FlowState.neutral) (hInt : s.missileInterval = 2000)
    (h : now - s.lastPerformanceUpdate > performanceUpdateInterval) :
    (adjustDifficulty env now s).currentFlowState = FlowState.boredom := by
  have hmin : (0 : ℚ) < (updatePlayerSkillRating s).flowZone.min :=
    lt_of_lt_of_le (by norm_num) (le_max_right _ _)
  unfold adjustDifficulty
  rw [hState]
  dsimp only
  rw [if_pos h, hInt]
  dsimp only
  unfold updateFlowState
  rw [if_pos (by norm_num; exact hmin)]

/-- C30: from the constructed state and from every restarted state the flow
state is neutral and the spawn interval 2000 as long as no skill evaluation has
run; the first evaluation sets the flow state to boredom whatever the counters
and the health are; and once an evaluation has run the flow state is not
neutral, until a restart. -/
theorem flow_phase (env : Env) (s : Game) (n : ℕ) (hPhase : Phase env s n) :
    (n = 0 → s.currentFlowState = FlowState.neutral ∧ s.missileInterval = 2000) ∧
    (∀ now : ℚ, n = 0 → now - s.lastPerformanceUpdate > performanceUpdateInterval →
      (adjustDifficulty env now s).currentFlowState = FlowState.boredom) ∧
    (0 < n → s.currentFlowState ≠ FlowState.neutral) := by
  have inv : (n = 0 → s.currentFlowState = FlowState.neutral ∧ s.missileInterval = 2000) ∧
      (0 < n → s.currentFlowState ≠ FlowState.neutral) := by
    induction hPhase with
    | initial memecoins => exact ⟨fun _ => ⟨rfl, rfl⟩, fun h => absurd h (lt_irrefl 0)⟩
    | restart s => exact ⟨fun _ => ⟨rfl, rfl⟩, fun h => absurd h (lt_irrefl 0)⟩
    | adjust s n now _ ih =>
      by_cases hdue : now - s.lastPerformanceUpdate > performanceUpdateInterval
      · rw [if_pos hdue]
        exact ⟨fun h => absurd h (Nat.succ_ne_zero n),
          fun _ => adjustDifficulty_flowState_due env now s hdue⟩
      · rw [if_neg hdue, adjustDifficulty_flowState_idle env now s hdue]
        refine ⟨fun h0 => ⟨(ih.1 h0).1, ?_⟩, ih.2⟩
        rw [adjustDifficulty_missileInterval, (ih.1 h0).1]
        exact (ih.1 h0).2
    | other s t n _ hf hi ih =>
      rw [hf, hi]
      exact ih
  exact ⟨inv.1, fun now h0 hdue =>
    adjustDifficulty_first_evaluation env now s (inv.1 h0).1 (inv.1 h0).2 hdue, inv.2⟩

/-- Evaluation of C30 on the first `adjustDifficulty` call of a session, at
`Date.now()` = 6000: boredom. -/
theorem flow_phase_witness :
    (adjustDifficulty sampleEnv 6000 (initialGame sampleEnv [])).currentFlowState
      = FlowState.boredom :=
  (flow_phase sampleEnv (initialGame sampleEnv []) 0 (Phase.initial [])).2.1 6000 rfl
    (by decide!)

/-! ## The reverse loop as a whole -/

/-- Reading the entry behind a prefix. -/
theorem getElem?_append_cons (A B : List Missile) (m : Missile) :
    (A ++ m :: B)[A.length]? = some m := by
  induction A with
  | nil => simp
  | cons a A ih => simpa using ih

/-- Overwriting the entry behind a prefix. -/
theorem set_append_cons (A B : List Missile) (m m' : Missile) :
    (A ++ m :: B).set A.length m' = A ++ m' :: B := by
  induction A with
  | nil => rfl
  | cons a A ih => simp

/-- Removing the entry behind a prefix. -/
theorem eraseIdx_append_cons (A B : List Missile) (m : Missile) :
    (A ++ m :: B).eraseIdx A.length = A ++ B := by
  induction A with
  | nil => rfl
  | cons a A ih => simpa using ih

/-- Changing the entry behind a prefix. -/
theorem modifyAt_append_cons (A B : List Missile) (m : Missile) (f : Missile → Missile) :
    modifyAt (A ++ m :: B) A.length f = A ++ f m :: B := by
  unfold modifyAt
  rw [getElem?_append_cons]
  exact set_append_cons A B m (f m)

/-- Slowdowns change neither age, coin, type nor mesh. -/
theorem scaleVelocity_iterate (k : ℕ) (m : Missile) :
    ((Missile.scaleVelocity slowdownFactor)^[k] m).age = m.age ∧
      ((Missile.scaleVelocity slowdownFactor)^[k] m).coin = m.coin ∧
      ((Missile.scaleVelocity slowdownFactor)^[k] m).type = m.type ∧
      ((Missile.scaleVelocity slowdownFactor)^[k] m).mesh = m.mesh := by
  induction k with
  | zero => exact ⟨rfl, rfl, rfl, rfl⟩
  | succ k ih =>
    rw [Function.iterate_succ_apply']
    exact ih

/-- The loop body ages the missile it moves by `deltaTime` and keeps its coin. -/
theorem moveMissile_processed (env : Env) (deltaTime : ℚ) (s : Game) (missile : Missile) :
    Processed deltaTime missile (moveMissile env deltaTime s missile).2.1 := by
  unfold Processed moveMissile updateHomingMissile applyWind
  dsimp only
  split_ifs <;> exact ⟨rfl, rfl, rfl⟩

/-- The fragment loop appends fresh fragments. -/
theorem fragmentLoop_fresh (env : Env) (missile : Missile) (n : ℕ) (s : Game) :
    ∃ frags : List Missile,
      (fragmentLoop env missile n s).missiles = s.missiles ++ frags ∧ ∀ f ∈ frags, Fresh f := by
  induction n generalizing s with
  | zero => exact ⟨[], by simp [fragmentLoop], by simp⟩
  | succ n ih =>
    obtain ⟨frags, hm, hall⟩ := ih (pushFragment env missile s)
    refine ⟨(pushFragment env missile s).missiles.drop s.missiles.length ++ frags, ?_, ?_⟩
    · rw [fragmentLoop, hm]
      simp [pushFragment]
    · intro f hf
      rw [List.mem_append] at hf
      rcases hf with hf | hf
      · simp only [pushFragment, List.drop_left, List.mem_singleton] at hf
        subst hf
        exact ⟨rfl, rfl, rfl⟩
      · exact hall f hf

/-- The list after a ground impact: index `i` is gone and fresh fragments are
appended. -/
theorem groundImpact_fresh (env : Env) (missile : Missile) (s : Game) (A B : List Missile)
    (m : Missile) (hList : s.missiles = A ++ m :: B) :
    ∃ frags : List Missile,
      (groundImpact env A.length missile s).missiles = A ++ B ++ frags ∧
      ∀ f ∈ frags, Fresh f := by
  unfold groundImpact
  dsimp only
  rw [(handleDodgeStreak_frame env _).1]
  by_cases hc : missile.type = MissileType.cluster
  · obtain ⟨frags, hm, hall⟩ := fragmentLoop_fresh env missile
      (5 + jsFloor (env.random (createImpactEffect s missile.type).draws * 5)).toNat
      { createImpactEffect s missile.type with
        draws := (createImpactEffect s missile.type).draws + 1 }
    refine ⟨frags, ?_, hall⟩
    show (if missile.type = MissileType.cluster then
        createClusterFragments env missile (createImpactEffect s missile.type)
      else createImpactEffect s missile.type).missiles.eraseIdx A.length = _
    rw [if_pos hc]
    unfold createClusterFragments
    dsimp only
    rw [hm]
    show (s.missiles ++ frags).eraseIdx A.length = _
    rw [hList, List.append_assoc, List.cons_append, eraseIdx_append_cons, List.append_assoc]
  · refine ⟨[], ?_, by simp⟩
    show (if missile.type = MissileType.cluster then
        createClusterFragments env missile (createImpactEffect s missile.type)
      else createImpactEffect s missile.type).missiles.eraseIdx A.length = _
    rw [if_neg hc]
    show s.missiles.eraseIdx A.length = _
    rw [hList, eraseIdx_append_cons, List.append_nil]

/-- A hit that does not end the session leaves the list. -/
theorem handlePlayerHit_missiles (s : Game) (missile : Missile)
    (hRun : (handlePlayerHit s missile).gameOver = false) :
    (handlePlayerHit s missile).missiles = s.missiles := by
  unfold handlePlayerHit endGame at hRun ⊢
  dsimp only at hRun ⊢
  by_cases h : max 0 (s.health - ((jsFloor |missile.coin.percentChange24h| : ℤ) : ℚ)) ≤ 0
  · rw [if_pos h] at hRun
    simp at hRun
  · rw [if_neg h]

/-- The list after the near-miss lines: every entry slowed the same number of
times (0 or 1), the entry at the index of the pass possibly flagged. -/
theorem nearMissCheck_list (d : ℚ) (missile : Missile) (s : Game) (A B : List Missile)
    (hList : s.missiles = A ++ missile :: B) :
    ∃ (k : ℕ) (m' : Missile),
      (nearMissCheck A.length d missile s).missiles
        = A.map (Missile.scaleVelocity slowdownFactor)^[k] ++ m'
            :: B.map (Missile.scaleVelocity slowdownFactor)^[k] ∧
      m'.age = missile.age ∧ m'.coin = missile.coin ∧ m'.type = missile.type := by
  by_cases h : (d < 3 ∧ d > 1) ∧ missile.hasTriggeredNearMiss = false ∧
      missile.mesh.position.y > 0
  · refine ⟨1, { Missile.scaleVelocity slowdownFactor missile with hasTriggeredNearMiss := true },
      ?_, rfl, rfl, rfl⟩
    rw [((nearMissCheck_fires A.length d missile s).1 h).2.2, hList, List.map_append,
      List.map_cons]
    have hlen : A.length = (A.map (Missile.scaleVelocity slowdownFactor)).length := by simp
    rw [hlen, modifyAt_append_cons]
    rfl
  · refine ⟨0, missile, ?_, rfl, rfl, rfl⟩
    rw [(nearMissCheck_fires A.length d missile s).2 h, hList]
    simp

/-- The list after one pass that does not end the session, read behind the
prefix `A`: the entries before and after are slowed the same number of times, the
entry of the pass is gone or processed once, and fresh fragments may follow. -/
theorem stepMissile_list (env : Env) (deltaTime : ℚ) (s : Game) (A B : List Missile)
    (m : Missile) (hList : s.missiles = A ++ m :: B)
    (hRun : (stepMissile env deltaTime A.length m s).gameOver = false) :
    ∃ (k : ℕ) (mid frags : List Missile),
      (stepMissile env deltaTime A.length m s).missiles
        = A.map (Missile.scaleVelocity slowdownFactor)^[k] ++ mid
            ++ B.map (Missile.scaleVelocity slowdownFactor)^[k] ++ frags ∧
      (mid = [] ∨ ∃ m', mid = [m'] ∧ Processed deltaTime m m') ∧
      ∀ f ∈ frags, Fresh f := by
  have hmoved := moveMissile_processed env deltaTime s m
  have hset : (s.missiles.set A.length (moveMissile env deltaTime s m).2.1)
      = A ++ (moveMissile env deltaTime s m).2.1 :: B := by
    rw [hList, set_append_cons]
  by_cases hy : m.mesh.position.y + m.velocity.y * deltaTime < 0
  · rw [stepMissile_ground env deltaTime A.length m s hy]
    obtain ⟨frags, hm, hall⟩ := groundImpact_fresh env (moveMissile env deltaTime s m).2.1
      { s with
        missiles := s.missiles.set A.length (moveMissile env deltaTime s m).2.1
        draws := s.draws + (moveMissile env deltaTime s m).2.2 }
      A B (moveMissile env deltaTime s m).2.1 hset
    refine ⟨0, [], frags, ?_, Or.inl rfl, hall⟩
    rw [hm]
    simp
  · have hpos : ¬ (moveMissile env deltaTime s m).2.1.mesh.position.y < 0 := by
      rw [moveMissile_position]
      exact hy
    obtain ⟨k, m', hnear, hage, hcoin, htype⟩ := nearMissCheck_list
      (moveMissile env deltaTime s m).1 (moveMissile env deltaTime s m).2.1
      { s with
        missiles := s.missiles.set A.length (moveMissile env deltaTime s m).2.1
        draws := s.draws + (moveMissile env deltaTime s m).2.2 }
      A B hset
    have hproc : Processed deltaTime m m' :=
      ⟨by rw [hage]; exact hmoved.1, by rw [hcoin]; exact hmoved.2.1,
        by rw [htype]; exact hmoved.2.2⟩
    have hlen : A.length = (A.map (Missile.scaleVelocity slowdownFactor)^[k]).length := by simp
    have herase : (A.map (Missile.scaleVelocity slowdownFactor)^[k] ++ m'
        :: B.map (Missile.scaleVelocity slowdownFactor)^[k]).eraseIdx A.length
        = A.map (Missile.scaleVelocity slowdownFactor)^[k] ++ []
            ++ B.map (Missile.scaleVelocity slowdownFactor)^[k] ++ [] := by
      rw [hlen, eraseIdx_append_cons]
      simp
    unfold stepMissile at hRun ⊢
    dsimp only at hRun ⊢
    rw [if_neg hpos] at hRun ⊢
    split_ifs at hRun ⊢
    · refine ⟨k, [], [], ?_, Or.inl rfl, by simp⟩
      show (nearMissCheck A.length _ _ _).missiles.eraseIdx A.length = _
      rw [hnear, herase]
    · refine ⟨k, [], [], ?_, Or.inl rfl, by simp⟩
      show (handlePlayerHit (nearMissCheck A.length _ _ _) _).missiles.eraseIdx A.length = _
      rw [handlePlayerHit_missiles _ _ hRun, hnear, herase]
    · refine ⟨k, [m'], [], ?_, Or.inr ⟨m', rfl, hproc⟩, by simp⟩
      rw [hnear]
      simp

/-- Slowdowns keep a processed missile processed. -/
theorem processed_scale (deltaTime : ℚ) (k : ℕ) (a b : Missile)
    (h : Processed deltaTime a b) :
    Processed deltaTime a ((Missile.scaleVelocity slowdownFactor)^[k] b) := by
  obtain ⟨h1, h2, h3, _⟩ := scaleVelocity_iterate k b
  exact ⟨by rw [h1]; exact h.1, by rw [h2]; exact h.2.1, by rw [h3]; exact h.2.2⟩

/-- Slowdowns keep a fresh fragment fresh. -/
theorem fresh_scale (k : ℕ) (f : Missile) (h : Fresh f) :
    Fresh ((Missile.scaleVelocity slowdownFactor)^[k] f) := by
  obtain ⟨h1, _, h3, h4⟩ := scaleVelocity_iterate k f
  exact ⟨by rw [h3]; exact h.1, by rw [h1]; exact h.2.1, by rw [h4]; exact h.2.2⟩

/-- A pass that throws at line 981 has ended the session. -/
theorem stepThrows_gameOver (env : Env) (deltaTime : ℚ) (i : ℕ) (missile : Missile) (s : Game)
    (h : stepThrows env deltaTime missile s = true) :
    (stepMissile env deltaTime i missile s).gameOver = true := by
  simp only [stepThrows, Bool.and_eq_true, Bool.not_eq_true', decide_eq_false_iff_not,
    decide_eq_true_eq] at h
  obtain ⟨⟨⟨⟨hy, hb⟩, hc⟩, hh⟩, _⟩ := h
  have hfatal : ∀ u : Game, u.health = s.health →
      (handlePlayerHit u (moveMissile env deltaTime s missile).2.1).gameOver = true := by
    intro u hu
    simp only [handlePlayerHit, hu] at hh ⊢
    split_ifs at hh ⊢ with h1
    · rfl
    · exact absurd hh h1
  have hnm : ∀ (d : ℚ) (m : Missile) (u : Game),
      (nearMissCheck i d m u).health = u.health ∧
      (nearMissCheck i d m u).playerCollider = u.playerCollider := by
    intro d m u
    unfold nearMissCheck handleNearMiss
    split_ifs <;> exact ⟨rfl, rfl⟩
  unfold stepMissile
  simp only [if_neg hy, if_neg hb, (hnm _ _ _).2, hc, if_true]
  exact hfatal _ (hnm _ _ _).1

/-- The loop invariant: with the entries still to be read a slowed copy of `O`,
followed by processed survivors and fresh fragments, a loop that no pass ends
reads the entries of `O` from the last to the first, each once, and leaves
processed survivors in their order followed by fresh fragments. -/
theorem missileLoop_order (env : Env) (deltaTime : ℚ) (O : List Missile) :
    ∀ (s : Game) (k : ℕ) (P F K : List Missile),
      s.missiles = O.map (Missile.scaleVelocity slowdownFactor)^[k] ++ P ++ F →
      List.Forall₂ (Processed deltaTime) K P →
      (∀ f ∈ F, Fresh f) →
      NoSessionEnd env deltaTime O.length s →
      ∃ (t : Game) (P' F' K₀ : List Missile),
        missileLoop env deltaTime O.length s = some t ∧
        List.Forall₂ Slowed O.reverse (loopReads env deltaTime O.length s) ∧
        t.missiles = P' ++ F' ∧
        K₀.Sublist O ∧
        List.Forall₂ (Processed deltaTime) (K₀ ++ K) P' ∧
        ∀ f ∈ F', Fresh f := by
  induction O using List.reverseRecOn with
  | nil =>
    intro s k P F K hList hP hF _
    refine ⟨s, P, F, [], rfl, List.Forall₂.nil, ?_, List.Sublist.refl _, hP, hF⟩
    rw [hList]
    rfl
  | append_singleton O' o ih =>
    intro s k P F K hList hP hF hNo
    have hlen : (O' ++ [o]).length = O'.length + 1 := by simp
    rw [hlen] at hNo ⊢
    have hList' : s.missiles
        = O'.map (Missile.scaleVelocity slowdownFactor)^[k]
          ++ (Missile.scaleVelocity slowdownFactor)^[k] o :: (P ++ F) := by
      rw [hList]
      simp
    have hidx : (O'.map (Missile.scaleVelocity slowdownFactor)^[k]).length = O'.length :=
      List.length_map _ _
    have hread : s.missiles[O'.length]? = some ((Missile.scaleVelocity slowdownFactor)^[k] o) := by
      rw [hList', ← hidx]
      exact getElem?_append_cons _ _ _
    rw [NoSessionEnd, hread] at hNo
    rw [missileLoop, loopReads, hread]
    dsimp only at hNo ⊢
    have hthrow : stepThrows env deltaTime ((Missile.scaleVelocity slowdownFactor)^[k] o) s
        = false := by
      cases hc : stepThrows env deltaTime ((Missile.scaleVelocity slowdownFactor)^[k] o) s with
      | false => rfl
      | true =>
        have := stepThrows_gameOver env deltaTime O'.length _ s hc
        rw [hNo.1] at this
        exact absurd this (by simp)
    rw [hthrow]
    simp only [Bool.false_eq_true, if_false]
    have hstep := stepMissile_list env deltaTime s
      (O'.map (Missile.scaleVelocity slowdownFactor)^[k]) (P ++ F)
      ((Missile.scaleVelocity slowdownFactor)^[k] o) hList'
    rw [hidx] at hstep
    obtain ⟨k', mid, frags, hm, hmid, hfr⟩ := hstep hNo.1
    have hm' : (stepMissile env deltaTime O'.length
          ((Missile.scaleVelocity slowdownFactor)^[k] o) s).missiles
        = O'.map (Missile.scaleVelocity slowdownFactor)^[k' + k]
          ++ (mid ++ P.map (Missile.scaleVelocity slowdownFactor)^[k'])
          ++ (F.map (Missile.scaleVelocity slowdownFactor)^[k'] ++ frags) := by
      rw [hm, List.map_map, ← Function.iterate_add]
      simp
    have hP' : List.Forall₂ (Processed deltaTime) K
        (P.map (Missile.scaleVelocity slowdownFactor)^[k']) := by
      rw [List.forall₂_map_right_iff]
      exact hP.imp (fun a b hab => processed_scale deltaTime k' a b hab)
    have hF' : ∀ f ∈ F.map (Missile.scaleVelocity slowdownFactor)^[k'] ++ frags, Fresh f := by
      intro f hf
      rw [List.mem_append, List.mem_map] at hf
      rcases hf with ⟨f₀, hf₀, rfl⟩ | hf
      · exact fresh_scale k' f₀ (hF f₀ hf₀)
      · exact hfr f hf
    have hslow : Slowed o ((Missile.scaleVelocity slowdownFactor)^[k] o) := ⟨k, rfl⟩
    rcases hmid with rfl | ⟨m', rfl, hproc⟩
    · obtain ⟨t, P₁, F₁, K₀, hloop, hreads, ht, hsub, hK, hfresh⟩ :=
        ih _ (k' + k) _ _ K hm' (by simpa using hP') hF' hNo.2
      refine ⟨t, P₁, F₁, K₀, hloop, ?_, ht,
        hsub.trans (List.sublist_append_left O' [o]), hK, hfresh⟩
      rw [List.reverse_append]
      exact List.Forall₂.cons hslow hreads
    · have hproc' : Processed deltaTime o m' := by
        obtain ⟨h1, h2, h3, _⟩ := scaleVelocity_iterate k o
        exact ⟨by rw [hproc.1, h1], by rw [hproc.2.1, h2], by rw [hproc.2.2, h3]⟩
      obtain ⟨t, P₁, F₁, K₀, hloop, hreads, ht, hsub, hK, hfresh⟩ :=
        ih _ (k' + k) _ _ (o :: K) hm' (List.Forall₂.cons hproc' hP') hF' hNo.2
      refine ⟨t, P₁, F₁, K₀ ++ [o], hloop, ?_, ht,
        List.Sublist.append hsub (List.Sublist.refl _), ?_, hfresh⟩
      · rw [List.reverse_append]
        exact List.Forall₂.cons hslow hreads
      · rw [List.append_assoc]
        exact hK

/-- C28: when no pass of the loop ends the session, the loop of `updateMissiles`
completes; it reads the missiles that were listed at its start from the last to
the first, each exactly once and no other (what it reads is the listed missile,
up to near-miss slowdowns of its velocity), so never a fragment pushed during
the tick; and the list it leaves is the survivors, each aged by `dt` once and in
their original order, followed by the pushed fragments, still of age 0 and at
their spawn height 0.2. -/
theorem reverse_loop_order (env : Env) (deltaTime : ℚ) (s : Game)
    (hNoEnd : NoSessionEnd env deltaTime s.missiles.length s) :
    ∃ (t : Game) (kept survivors frags : List Missile),
      missileLoop env deltaTime s.missiles.length s = some t ∧
      List.Forall₂ (fun m r => ∃ k : ℕ, r = (Missile.scaleVelocity slowdownFactor)^[k] m)
        s.missiles.reverse (loopReads env deltaTime s.missiles.length s) ∧
      t.missiles = survivors ++ frags ∧
      kept.Sublist s.missiles ∧
      List.Forall₂
        (fun m m' => m'.age = m.age + deltaTime ∧ m'.coin = m.coin ∧ m'.type = m.type)
        kept survivors ∧
      ∀ f ∈ frags, f.type = MissileType.fragment ∧ f.age = 0 ∧ f.mesh.position.y = 0.2 := by
  obtain ⟨t, P, F, K₀, hloop, hreads, ht, hsub, hK, hfresh⟩ :=
    missileLoop_order env deltaTime s.missiles s 0 [] [] [] (by simp) List.Forall₂.nil
      (by simp) hNoEnd
  rw [List.append_nil] at hK
  exact ⟨t, K₀, P, F, hloop, hreads, ht, hsub, hK, hfresh⟩

/-- The computed check decides `NoSessionEnd`. -/
theorem noSessionEndCheck_iff (env : Env) (deltaTime : ℚ) (n : ℕ) (s : Game) :
    noSessionEndCheck env deltaTime n s = true ↔ NoSessionEnd env deltaTime n s := by
  induction n generalizing s with
  | zero => simp [noSessionEndCheck, NoSessionEnd]
  | succ n ih =>
    rw [noSessionEndCheck, NoSessionEnd]
    cases s.missiles[n]? with
    | none => simp
    | some m => simp [ih]

/-- Evaluation of C28 on `mixedState`, where the pass at index 1 is a cluster
impact that pushes fragments: the loop completes and reads two missiles. -/
theorem reverse_loop_order_witness :
    ∃ t : Game, missileLoop sampleEnv 0.1 2 mixedState = some t ∧
      (loopReads sampleEnv 0.1 2 mixedState).length = 2 ∧ 2 < t.missiles.length := by
  obtain ⟨t, kept, survivors, frags, hloop, hreads, _, _, _, _⟩ :=
    reverse_loop_order sampleEnv 0.1 mixedState
      ((noSessionEndCheck_iff sampleEnv 0.1 2 mixedState).mp (by decide!))
  refine ⟨t, hloop, hreads.length_eq.symm, ?_⟩
  have hlen : (missileLoop sampleEnv 0.1 2 mixedState).map (fun u => decide (2 < u.missiles.length))
      = some true := by decide!
  rw [show missileLoop sampleEnv 0.1 2 mixedState = some t from hloop] at hlen
  simpa using hlen

/-! ## Near-miss events per missile -/

/-- Splitting a record along the list. -/
theorem forall₂_append_cons {R : Missile → ℕ → Prop} (A B : List Missile) (m : Missile)
    (g : List ℕ) (h : List.Forall₂ R (A ++ m :: B) g) :
    ∃ (gA gB : List ℕ) (n : ℕ), g = gA ++ n :: gB ∧ gA.length = A.length ∧
      List.Forall₂ R A gA ∧ R m n ∧ List.Forall₂ R B gB := by
  induction A generalizing g with
  | nil =>
    cases h with
    | cons hmn hB => exact ⟨[], _, _, rfl, rfl, List.Forall₂.nil, hmn, hB⟩
  | cons a A ih =>
    cases h with
    | cons han hrest =>
      obtain ⟨gA, gB, n, rfl, hlen, hA, hm, hB⟩ := ih _ hrest
      exact ⟨_ :: gA, gB, n, rfl, by simp [hlen], List.Forall₂.cons han hA, hm, hB⟩

/-- Removing the record entry behind a prefix. -/
theorem counts_eraseIdx (gA gB : List ℕ) (n i : ℕ) (h : gA.length = i) :
    (gA ++ n :: gB).eraseIdx i = gA ++ gB := by
  subst h
  induction gA with
  | nil => rfl
  | cons a gA ih => simpa using ih

/-- Counting one more event behind a prefix. -/
theorem bump_append_cons (gA gB : List ℕ) (n i : ℕ) (h : gA.length = i) :
    bump i (gA ++ n :: gB) = gA ++ (n + 1) :: gB := by
  subst h
  unfold bump
  have : (gA ++ n :: gB)[gA.length]? = some n := by
    induction gA with
    | nil => simp
    | cons a gA ih => simpa using ih
  rw [this]
  dsimp only
  induction gA with
  | nil => rfl
  | cons a gA ih => simp

/-- A listed missile splits the list at its index. -/
theorem split_at_index (l : List Missile) (i : ℕ) (m : Missile) (h : l[i]? = some m) :
    ∃ A B : List Missile, l = A ++ m :: B ∧ A.length = i := by
  induction l generalizing i with
  | nil => simp at h
  | cons a l ih =>
    cases i with
    | zero =>
      simp at h
      subst h
      exact ⟨[], l, rfl, rfl⟩
    | succ i =>
      simp at h
      obtain ⟨A, B, rfl, hlen⟩ := ih i h
      exact ⟨a :: A, B, rfl, by simp [hlen]⟩

/-- Slowdowns keep the flag. -/
theorem scaleVelocity_flag (k : ℕ) (m : Missile) :
    ((Missile.scaleVelocity slowdownFactor)^[k] m).hasTriggeredNearMiss
      = m.hasTriggeredNearMiss := by
  induction k with
  | zero => rfl
  | succ k ih =>
    rw [Function.iterate_succ_apply']
    exact ih

/-- The record of a missile depends on its flag only. -/
theorem recorded_of_flag (m m' : Missile) (n : ℕ)
    (hflag : m'.hasTriggeredNearMiss = m.hasTriggeredNearMiss) (h : Recorded m n) :
    Recorded m' n :=
  ⟨h.1, fun hn => by rw [hflag]; exact h.2 hn⟩

/-- Zero events fit every missile. -/
theorem recorded_zero (l : List Missile) : List.Forall₂ Recorded l (List.replicate l.length 0) := by
  induction l with
  | nil => exact List.Forall₂.nil
  | cons a l ih => exact List.Forall₂.cons ⟨by norm_num, by norm_num⟩ ih

/-- The record of a list of which every missile keeps its flag. -/
theorem recorded_map (f : Missile → Missile)
    (hf : ∀ m, (f m).hasTriggeredNearMiss = m.hasTriggeredNearMiss)
    (l : List Missile) (g : List ℕ) (h : List.Forall₂ Recorded l g) :
    List.Forall₂ Recorded (l.map f) g := by
  rw [List.forall₂_map_left_iff]
  exact h.imp (fun a b hab => recorded_of_flag a (f a) b (hf a) hab)

/-- The bookkeeping does not change the game. -/
theorem stepMissileCounted_game (env : Env) (deltaTime : ℚ) (i : ℕ) (missile : Missile)
    (c : Counted) :
    (stepMissileCounted env deltaTime i missile c).game
      = stepMissile env deltaTime i missile c.game := by
  unfold stepMissileCounted
  dsimp only
  split_ifs <;> rfl

/-- The pass calls `handleNearMiss` exactly under the conditions of lines 945-946. -/
theorem passFires_iff (env : Env) (deltaTime : ℚ) (missile : Missile) (s : Game) :
    passFires env deltaTime missile s = true ↔
      (1 < (moveMissile env deltaTime s missile).1 ∧
        (moveMissile env deltaTime s missile).1 < 3 ∧
        0 < missile.mesh.position.y + missile.velocity.y * deltaTime ∧
        missile.hasTriggeredNearMiss = false) := by
  unfold passFires
  simp only [Bool.and_eq_true, Bool.not_eq_true', decide_eq_false_iff_not, decide_eq_true_eq,
    moveMissile_flag, moveMissile_position]
  constructor
  · rintro ⟨⟨_, h3, h1⟩, hf, hy⟩
    exact ⟨h1, h3, hy, hf⟩
  · rintro ⟨h1, h3, hy, hf⟩
    exact ⟨⟨not_lt.mpr (le_of_lt hy), h3, h1⟩, hf, hy⟩

/-- The near-miss lines change neither health nor the player's box. -/
theorem nearMissCheck_frame (i : ℕ) (d : ℚ) (m : Missile) (u : Game) :
    (nearMissCheck i d m u).health = u.health ∧
      (nearMissCheck i d m u).playerCollider = u.playerCollider := by
  unfold nearMissCheck handleNearMiss
  split_ifs <;> exact ⟨rfl, rfl⟩

/-- The list after a player hit: emptied by `endGame` when the hit is fatal,
else untouched. -/
theorem handlePlayerHit_list (s u : Game) (missile : Missile) (hh : u.health = s.health) :
    (handlePlayerHit u missile).missiles
      = if (handlePlayerHit s missile).health ≤ 0 then [] else u.missiles := by
  unfold handlePlayerHit endGame
  dsimp only
  rw [hh]
  by_cases h : max 0 (s.health - ((jsFloor |missile.coin.percentChange24h| : ℤ) : ℚ)) ≤ 0
  · simp only [if_pos h]
  · simp only [if_neg h]

/-- The list that a pass above the ground leaves. -/
theorem stepMissile_air_list (env : Env) (deltaTime : ℚ) (i : ℕ) (missile : Missile) (s : Game)
    (hy : ¬ (moveMissile env deltaTime s missile).2.1.mesh.position.y < 0) :
    (stepMissile env deltaTime i missile s).missiles
      = (if (moveMissile env deltaTime s missile).2.1.mesh.position.x < -100 ∨
            (moveMissile env deltaTime s missile).2.1.mesh.position.x > 100 ∨
            (moveMissile env deltaTime s missile).2.1.mesh.position.z < -100 ∨
            (moveMissile env deltaTime s missile).2.1.mesh.position.z > 100 ∨
            (moveMissile env deltaTime s missile).2.1.mesh.position.y > 100 then
          (nearMissCheck i (moveMissile env deltaTime s missile).1
            (moveMissile env deltaTime s missile).2.1
            { s with
              missiles := s.missiles.set i (moveMissile env deltaTime s missile).2.1
              draws := s.draws + (moveMissile env deltaTime s missile).2.2 }).missiles.eraseIdx i
        else if (moveMissile env deltaTime s missile).2.1.collider.intersectsBox s.playerCollider
            = true then
          (if (handlePlayerHit s (moveMissile env deltaTime s missile).2.1).health ≤ 0 then []
          else
            (nearMissCheck i (moveMissile env deltaTime s missile).1
              (moveMissile env deltaTime s missile).2.1
              { s with
                missiles := s.missiles.set i (moveMissile env deltaTime s missile).2.1
                draws := s.draws + (moveMissile env deltaTime s missile).2.2 }).missiles.eraseIdx i)
        else
          (nearMissCheck i (moveMissile env deltaTime s missile).1
            (moveMissile env deltaTime s missile).2.1
            { s with
              missiles := s.missiles.set i (moveMissile env deltaTime s missile).2.1
              draws := s.draws + (moveMissile env deltaTime s missile).2.2 }).missiles) := by
  unfold stepMissile
  dsimp only
  rw [if_neg hy, (nearMissCheck_frame _ _ _ _).2]
  split_ifs with h1 h2 h3
  · rfl
  · show ((handlePlayerHit _ _).missiles).eraseIdx i = _
    rw [handlePlayerHit_list s, if_pos h3]
    · rfl
    · exact (nearMissCheck_frame _ _ _ _).1
  · show ((handlePlayerHit _ _).missiles).eraseIdx i = _
    rw [handlePlayerHit_list s, if_neg h3]
    exact (nearMissCheck_frame _ _ _ _).1
  · rfl

/-- The list after the near-miss lines, read behind the prefix `A`, when the
event fires: every entry slowed once, the entry of the pass flagged. -/
theorem nearMissCheck_fired (d : ℚ) (missile : Missile) (s : Game) (A B : List Missile)
    (hList : s.missiles = A ++ missile :: B)
    (h : (d < 3 ∧ d > 1) ∧ missile.hasTriggeredNearMiss = false ∧ missile.mesh.position.y > 0) :
    (nearMissCheck A.length d missile s).missiles
      = A.map (Missile.scaleVelocity slowdownFactor)
        ++ { Missile.scaleVelocity slowdownFactor missile with hasTriggeredNearMiss := true }
          :: B.map (Missile.scaleVelocity slowdownFactor) := by
  rw [((nearMissCheck_fires A.length d missile s).1 h).2.2, hList, List.map_append,
    List.map_cons]
  have hlen : A.length = (A.map (Missile.scaleVelocity slowdownFactor)).length := by simp
  rw [hlen, modifyAt_append_cons]

/-- The record after one pass of the loop body for a listed missile: still at
most one event for every listed missile, with the flag set where there is one.
A pass that fires is for a missile without an earlier event; a missile that
stays listed keeps its index, with its flag set and one event on record if the
pass has fired, and with flag and record as before if not. -/
theorem stepMissileCounted_recorded (env : Env) (deltaTime : ℚ) (c : Counted)
    (A B : List Missile) (m : Missile) (hList : c.game.missiles = A ++ m :: B)
    (hInv : List.Forall₂ Recorded c.game.missiles c.counts) :
    List.Forall₂ Recorded (stepMissile env deltaTime A.length m c.game).missiles
        (stepMissileCounted env deltaTime A.length m c).counts ∧
      (passFires env deltaTime m c.game = true → c.counts[A.length]? = some 0) ∧
      (passRemoves env deltaTime m c.game = false →
        ∃ m' : Missile,
          (stepMissile env deltaTime A.length m c.game).missiles[A.length]? = some m' ∧
          (passFires env deltaTime m c.game = true →
            m'.hasTriggeredNearMiss = true ∧
            (stepMissileCounted env deltaTime A.length m c).counts[A.length]? = some 1) ∧
          (passFires env deltaTime m c.game = false →
            m'.hasTriggeredNearMiss = m.hasTriggeredNearMiss ∧
            (stepMissileCounted env deltaTime A.length m c).counts[A.length]?
              = c.counts[A.length]?)) := by
  rw [hList] at hInv
  obtain ⟨gA, gB, n, hg, hlen, hA, hm, hB⟩ := forall₂_append_cons A B m c.counts hInv
  have hread : ∀ (x : ℕ), (gA ++ x :: gB)[A.length]? = some x := by
    intro x
    rw [← hlen]
    clear hg hA hlen
    induction gA with
    | nil => simp
    | cons a gA ih => simpa using ih
  have hMflag := moveMissile_flag env deltaTime c.game m
  have hset : (c.game.missiles.set A.length (moveMissile env deltaTime c.game m).2.1)
      = A ++ (moveMissile env deltaTime c.game m).2.1 :: B := by
    rw [hList, set_append_cons]
  by_cases hy : (moveMissile env deltaTime c.game m).2.1.mesh.position.y < 0
  · -- ground impact
    have hnofire : passFires env deltaTime m c.game = false := by
      unfold passFires
      simp [hy]
    have hrem : passRemoves env deltaTime m c.game = true := by
      unfold passRemoves
      simp [hy]
    refine ⟨?_, fun h => by rw [hnofire] at h; exact absurd h (by simp),
      fun h => by rw [hrem] at h; exact absurd h (by simp)⟩
    obtain ⟨frags, hm', _⟩ := groundImpact_fresh env (moveMissile env deltaTime c.game m).2.1
      { c.game with
        missiles := c.game.missiles.set A.length (moveMissile env deltaTime c.game m).2.1
        draws := c.game.draws + (moveMissile env deltaTime c.game m).2.2 }
      A B (moveMissile env deltaTime c.game m).2.1 hset
    have hgame : (stepMissile env deltaTime A.length m c.game).missiles = A ++ B ++ frags := by
      rw [← hm']
      unfold stepMissile
      dsimp only
      rw [if_pos hy]
    unfold stepMissileCounted
    dsimp only
    rw [if_pos hy, hgame, hg, counts_eraseIdx gA gB n A.length hlen]
    have hl : (A ++ B ++ frags).length - (gA ++ gB).length = frags.length := by
      simp only [List.length_append, hlen, hB.length_eq]
      omega
    rw [hl]
    exact List.rel_append (List.rel_append hA hB) (recorded_zero frags)
  · -- above the ground
    have hrem : passRemoves env deltaTime m c.game
        = (decide ((moveMissile env deltaTime c.game m).2.1.mesh.position.x < -100 ∨
            (moveMissile env deltaTime c.game m).2.1.mesh.position.x > 100 ∨
            (moveMissile env deltaTime c.game m).2.1.mesh.position.z < -100 ∨
            (moveMissile env deltaTime c.game m).2.1.mesh.position.z > 100 ∨
            (moveMissile env deltaTime c.game m).2.1.mesh.position.y > 100) ||
          (moveMissile env deltaTime c.game m).2.1.collider.intersectsBox
            c.game.playerCollider) := by
      unfold passRemoves
      simp [hy]
    -- the list and the record after the near-miss lines
    have hnear : ∃ (k : ℕ) (m' : Missile) (n' : ℕ),
        (nearMissCheck A.length (moveMissile env deltaTime c.game m).1
          (moveMissile env deltaTime c.game m).2.1
          { c.game with
            missiles := c.game.missiles.set A.length (moveMissile env deltaTime c.game m).2.1
            draws := c.game.draws + (moveMissile env deltaTime c.game m).2.2 }).missiles
          = A.map (Missile.scaleVelocity slowdownFactor)^[k] ++ m'
              :: B.map (Missile.scaleVelocity slowdownFactor)^[k] ∧
        (if passFires env deltaTime m c.game = true then bump A.length c.counts else c.counts)
          = gA ++ n' :: gB ∧
        Recorded m' n' ∧
        (passFires env deltaTime m c.game = true →
          n = 0 ∧ n' = 1 ∧ m'.hasTriggeredNearMiss = true) ∧
        (passFires env deltaTime m c.game = false →
          n' = n ∧ m'.hasTriggeredNearMiss = m.hasTriggeredNearMiss) := by
      by_cases hF : passFires env deltaTime m c.game = true
      · have hcond : ((moveMissile env deltaTime c.game m).1 < 3 ∧
            (moveMissile env deltaTime c.game m).1 > 1) ∧
            (moveMissile env deltaTime c.game m).2.1.hasTriggeredNearMiss = false ∧
            (moveMissile env deltaTime c.game m).2.1.mesh.position.y > 0 := by
          have := (passFires_iff env deltaTime m c.game).mp hF
          refine ⟨⟨this.2.1, this.1⟩, ?_, ?_⟩
          · rw [hMflag]; exact this.2.2.2
          · rw [moveMissile_position]; exact this.2.2.1
        have hflag : m.hasTriggeredNearMiss = false := by
          rw [← hMflag]; exact hcond.2.1
        have hn : n = 0 := by
          have h1 := hm.1
          have h2 := hm.2
          rcases Nat.le_one_iff_eq_zero_or_eq_one.mp h1 with h | h
          · exact h
          · have := h2 h
            rw [hflag] at this
            exact absurd this (by simp)
        refine ⟨1, { Missile.scaleVelocity slowdownFactor (moveMissile env deltaTime c.game m).2.1
            with hasTriggeredNearMiss := true }, n + 1, ?_, ?_, ?_, fun _ => ⟨hn, by rw [hn], rfl⟩,
          fun h => by rw [hF] at h; exact absurd h (by simp)⟩
        · rw [nearMissCheck_fired _ _ _ A B hset hcond]
          rfl
        · rw [if_pos hF, hg, bump_append_cons gA gB n A.length hlen]
        · exact ⟨by rw [hn], fun _ => rfl⟩
      · have hF' : passFires env deltaTime m c.game = false := by
          cases h : passFires env deltaTime m c.game with
          | true => exact absurd h hF
          | false => rfl
        have hcond : ¬ (((moveMissile env deltaTime c.game m).1 < 3 ∧
            (moveMissile env deltaTime c.game m).1 > 1) ∧
            (moveMissile env deltaTime c.game m).2.1.hasTriggeredNearMiss = false ∧
            (moveMissile env deltaTime c.game m).2.1.mesh.position.y > 0) := by
          rintro ⟨⟨h3, h1⟩, hf, hpos⟩
          apply hF
          rw [passFires_iff]
          rw [hMflag] at hf
          rw [moveMissile_position] at hpos
          exact ⟨h1, h3, hpos, hf⟩
        refine ⟨0, (moveMissile env deltaTime c.game m).2.1, n, ?_, ?_,
          recorded_of_flag m _ n hMflag hm,
          fun h => by rw [hF'] at h; exact absurd h (by simp), fun _ => ⟨rfl, hMflag⟩⟩
        · rw [(nearMissCheck_fires A.length _ _ _).2 hcond]
          show c.game.missiles.set A.length _ = _
          rw [hset]
          simp
        · rw [if_neg hF, hg]
    obtain ⟨k, m', n', hlist, hcounts, hrec, hfire, hnofire⟩ := hnear
    have hA' : List.Forall₂ Recorded (A.map (Missile.scaleVelocity slowdownFactor)^[k]) gA :=
      recorded_map _ (scaleVelocity_flag k) A gA hA
    have hB' : List.Forall₂ Recorded (B.map (Missile.scaleVelocity slowdownFactor)^[k]) gB :=
      recorded_map _ (scaleVelocity_flag k) B gB hB
    have hlenA : (A.map (Missile.scaleVelocity slowdownFactor)^[k]).length = A.length := by simp
    have herase : (A.map (Missile.scaleVelocity slowdownFactor)^[k] ++ m'
        :: B.map (Missile.scaleVelocity slowdownFactor)^[k]).eraseIdx A.length
        = A.map (Missile.scaleVelocity slowdownFactor)^[k]
          ++ B.map (Missile.scaleVelocity slowdownFactor)^[k] := by
      rw [← hlenA, eraseIdx_append_cons]
    have hgame := stepMissile_air_list env deltaTime A.length m c.game hy
    rw [hlist, herase] at hgame
    refine ⟨?_, fun h => by rw [hg, hread]; rw [(hfire h).1], ?_⟩
    · unfold stepMissileCounted
      dsimp only
      rw [if_neg hy, hgame]
      simp only [Bool.decide_eq_true] at hcounts
      split_ifs at hcounts ⊢ <;>
        first
        | exact List.Forall₂.nil
        | (rw [hcounts, counts_eraseIdx gA gB n' A.length hlen]; exact List.rel_append hA' hB')
        | (rw [hcounts]; exact List.rel_append hA' (List.Forall₂.cons hrec hB'))
    · intro hkeep
      rw [hrem] at hkeep
      simp only [Bool.or_eq_false_iff, decide_eq_false_iff_not] at hkeep
      obtain ⟨hb, hc⟩ := hkeep
      rw [if_neg hb, hc] at hgame
      simp only [Bool.false_eq_true, if_false] at hgame
      have hcnt : (stepMissileCounted env deltaTime A.length m c).counts = gA ++ n' :: gB := by
        unfold stepMissileCounted
        dsimp only
        rw [if_neg hy, if_neg hb, hc]
        simp only [Bool.false_eq_true, if_false]
        simp only [Bool.decide_eq_true] at hcounts
        exact hcounts
      refine ⟨m', ?_, fun h => ⟨(hfire h).2.2, ?_⟩, fun h => ⟨(hnofire h).2, ?_⟩⟩
      · rw [hgame, ← hlenA]
        exact getElem?_append_cons _ _ _
      · rw [hcnt, hread, (hfire h).2.1]
      · rw [hcnt, hread, hg, hread, (hnofire h).1]

/-- The method `createMissile` pushes one missile. -/
theorem createMissile_push (env : Env) (s t : Game) (h : createMissile env s = some t) :
    ∃ m : Missile, t.missiles = s.missiles ++ [m] := by
  unfold createMissile at h
  dsimp only at h
  split at h
  · simp at h
  · simp only [Option.some.injEq] at h
    subst h
    exact ⟨_, rfl⟩

/-- An evaluation leaves the list as it is. -/
theorem skillEvaluation_missiles (s : Game) (d : ℚ) :
    (updateFlowState (updatePlayerSkillRating s) d).missiles = s.missiles := by
  unfold updateFlowState updatePlayerSkillRating
  dsimp only
  split_ifs <;> rfl

/-- The method `adjustDifficulty` leaves the list as it is. -/
theorem adjustDifficulty_missiles (env : Env) (now : ℚ) (s : Game) :
    (adjustDifficulty env now s).missiles = s.missiles := by
  unfold adjustDifficulty
  cases hs : s.currentFlowState <;> dsimp only <;> split_ifs <;>
    first
      | rfl
      | (rw [skillEvaluation_missiles])

/-- The method `updatePlayer` leaves the list as it is or, when the session
ends on timeout, empty. -/
theorem updatePlayer_missiles (env : Env) (input : Input) (deltaTime : ℚ) (s : Game) :
    (updatePlayer env input deltaTime s).missiles = s.missiles ∨
      (updatePlayer env input deltaTime s).missiles = [] := by
  have h1 : (playerPhysics deltaTime s).missiles = s.missiles := by
    unfold playerPhysics
    dsimp only
    split_ifs <;> rfl
  have h2 : ∀ u : Game, (dashTick env deltaTime u).missiles = u.missiles := by
    intro u
    unfold dashTick createDashEffect
    dsimp only
    split_ifs <;> rfl
  have h3 : ∀ (f : ℚ) (u : Game), (movePlayer env input f deltaTime u).missiles = u.missiles := by
    intro f u
    rfl
  have h4 : ∀ u : Game, (clockTick deltaTime u).missiles = u.missiles ∨
      (clockTick deltaTime u).missiles = [] := by
    intro u
    unfold clockTick updateScore endGame
    dsimp only
    split_ifs <;>
      first
        | exact Or.inl rfl
        | exact Or.inr rfl
  unfold updatePlayer
  dsimp only
  rcases h4 (movePlayer env input (dashFactor (playerPhysics deltaTime s)) deltaTime
    (dashTick env deltaTime (playerPhysics deltaTime s))) with h | h
  · left
    rw [h, h3, h2, h1]
  · exact Or.inr h

/-- Every history keeps the record true: each listed missile has made at most
one event, and one that has made an event is flagged. -/
theorem countedRun_recorded (env : Env) (c : Counted) (hRun : CountedRun env c) :
    List.Forall₂ Recorded c.game.missiles c.counts := by
  induction hRun with
  | start s => exact recorded_zero s.missiles
  | pass c deltaTime i missile _ hi ih =>
    obtain ⟨A, B, hList, hlen⟩ := split_at_index c.game.missiles i missile hi
    subst hlen
    rw [stepMissileCounted_game]
    exact (stepMissileCounted_recorded env deltaTime c A B missile hList ih).1
  | spawn c t _ hspawn ih =>
    obtain ⟨m, hm⟩ := createMissile_push env c.game t hspawn
    show List.Forall₂ Recorded t.missiles (c.counts ++ [0])
    rw [hm]
    exact List.rel_append ih (List.Forall₂.cons ⟨by norm_num, by norm_num⟩ List.Forall₂.nil)
  | undo c _ ih =>
    show List.Forall₂ Recorded (undoSlowdown c.game).missiles c.counts
    unfold undoSlowdown
    exact recorded_map
      (fun missile =>
        { missile with
          velocity := ⟨missile.velocity.x / slowdownFactor, missile.velocity.y / slowdownFactor,
            missile.velocity.z / slowdownFactor⟩ })
      (fun _ => rfl) _ _ ih
  | cleared c t _ ht =>
    show List.Forall₂ Recorded t.missiles []
    rw [ht]
    exact List.Forall₂.nil
  | other c t _ ht ih =>
    show List.Forall₂ Recorded t.missiles c.counts
    rw [ht]
    exact ih

/-- The loop with the record runs the loop. -/
theorem missileLoopCounted_game (env : Env) (deltaTime : ℚ) (n : ℕ) (c : Counted) :
    (missileLoopCounted env deltaTime n c).map Counted.game
      = missileLoop env deltaTime n c.game := by
  induction n generalizing c with
  | zero => rfl
  | succ n ih =>
    rw [missileLoopCounted, missileLoop]
    cases c.game.missiles[n]? with
    | none => rfl
    | some m =>
      dsimp only
      split_ifs
      · rfl
      · rw [ih, stepMissileCounted_game]

/-- The loop is a sequence of passes for listed missiles. -/
theorem missileLoopCounted_run (env : Env) (deltaTime : ℚ) (n : ℕ) (c c' : Counted)
    (hRun : CountedRun env c) (h : missileLoopCounted env deltaTime n c = some c') :
    CountedRun env c' := by
  induction n generalizing c with
  | zero =>
    simp only [missileLoopCounted, Option.some.injEq] at h
    subst h
    exact hRun
  | succ n ih =>
    rw [missileLoopCounted] at h
    cases hi : c.game.missiles[n]? with
    | none => rw [hi] at h; exact absurd h (by simp)
    | some m =>
      rw [hi] at h
      dsimp only at h
      split_ifs at h
      exact ih _ (CountedRun.pass c deltaTime n m hRun hi) h

/-- The method `updateMissiles` with the record runs `updateMissiles`. -/
theorem updateMissilesCounted_game (env : Env) (now deltaTime : ℚ) (c : Counted) :
    (updateMissilesCounted env now deltaTime c).map Counted.game
      = updateMissiles env now deltaTime c.game := by
  unfold updateMissilesCounted updateMissiles
  dsimp only
  split_ifs
  · cases createMissile env c.game with
    | none => rfl
    | some s => exact missileLoopCounted_game env deltaTime _ _
  · exact missileLoopCounted_game env deltaTime _ _

/-- A tick is a history: a spawn, the difficulty controller, then passes. -/
theorem updateMissilesCounted_run (env : Env) (now deltaTime : ℚ) (c c' : Counted)
    (hRun : CountedRun env c) (h : updateMissilesCounted env now deltaTime c = some c') :
    CountedRun env c' := by
  unfold updateMissilesCounted at h
  dsimp only at h
  split_ifs at h
  · cases hs : createMissile env c.game with
    | none => rw [hs] at h; exact absurd h (by simp)
    | some s =>
      rw [hs] at h
      refine missileLoopCounted_run env deltaTime _ _ c' ?_ h
      exact CountedRun.other ⟨s, c.counts ++ [0]⟩ _ (CountedRun.spawn c s hRun hs)
        (adjustDifficulty_missiles env now _)
  · exact missileLoopCounted_run env deltaTime _ c c' hRun h

/-- The count and the score after a pass: one more event and 5 points exactly
when the pass calls `handleNearMiss`. -/
theorem stepMissile_nearMissCount (env : Env) (deltaTime : ℚ) (i : ℕ) (missile : Missile)
    (s : Game) :
    (stepMissile env deltaTime i missile s).nearMissCount
        = s.nearMissCount + (if passFires env deltaTime missile s = true then 1 else 0) ∧
      (passFires env deltaTime missile s = true →
        (stepMissile env deltaTime i missile s).score = s.score + 5) := by
  by_cases hF : passFires env deltaTime missile s = true
  · have hc := (passFires_iff env deltaTime missile s).mp hF
    have hy : ¬ missile.mesh.position.y + missile.velocity.y * deltaTime < 0 :=
      not_lt.mpr (le_of_lt hc.2.2.1)
    have hfire := (nearMissCheck_fires i (moveMissile env deltaTime s missile).1
      (moveMissile env deltaTime s missile).2.1
      { s with
        missiles := s.missiles.set i (moveMissile env deltaTime s missile).2.1
        draws := s.draws + (moveMissile env deltaTime s missile).2.2 }).1
      ⟨⟨hc.2.1, hc.1⟩, by rw [moveMissile_flag]; exact hc.2.2.2,
        by rw [moveMissile_position]; exact hc.2.2.1⟩
    rw [if_pos hF, (stepMissile_air env deltaTime i missile s hy).1,
      (stepMissile_air env deltaTime i missile s hy).2]
    exact ⟨hfire.1, fun _ => hfire.2.1⟩
  · rw [if_neg hF]
    refine ⟨?_, fun h => absurd h hF⟩
    by_cases hy : missile.mesh.position.y + missile.velocity.y * deltaTime < 0
    · rw [stepMissile_ground env deltaTime i missile s hy, groundImpact_nearMissCount]
      rfl
    · rw [(stepMissile_air env deltaTime i missile s hy).1, (nearMissCheck_fires i _ _ _).2 ?_]
      · rfl
      · rintro ⟨⟨h3, h1⟩, hflag, hpos⟩
        rw [moveMissile_flag] at hflag
        rw [moveMissile_position] at hpos
        exact hF ((passFires_iff env deltaTime missile s).mpr ⟨h1, h3, hpos, hflag⟩)

/-- The other steps of the program are steps of a history: `restartGame` and
`handleKeyDown` leave the list as it is, `updatePlayer` leaves it or empties it
(timeout), and an expiring timer pushes one missile or undoes a slowdown. -/
theorem countedRun_steps (env : Env) (c : Counted) (hRun : CountedRun env c) :
    CountedRun env ⟨restartGame env c.game, c.counts⟩ ∧
    (∀ (input : Input) (deltaTime : ℚ),
      CountedRun env ⟨updatePlayer env input deltaTime c.game,
        if (updatePlayer env input deltaTime c.game).missiles = [] then [] else c.counts⟩) ∧
    (∀ (key : Key) (now : ℚ) (input : Input),
      CountedRun env ⟨(handleKeyDown key now input c.game).2, c.counts⟩) ∧
    (∀ (k : ℕ) (t : Game), fireTimer env k c.game = some t →
      CountedRun env ⟨t,
        if t.missiles.length = c.game.missiles.length then c.counts else c.counts ++ [0]⟩) := by
  refine ⟨CountedRun.other c _ hRun rfl, fun input deltaTime => ?_, fun key now input => ?_,
    fun k t h => ?_⟩
  · by_cases he : (updatePlayer env input deltaTime c.game).missiles = []
    · rw [if_pos he]
      exact CountedRun.cleared c _ hRun he
    · rw [if_neg he]
      rcases updatePlayer_missiles env input deltaTime c.game with h | h
      · exact CountedRun.other c _ hRun h
      · exact absurd h he
  · refine CountedRun.other c _ hRun ?_
    cases key <;> simp only [handleKeyDown, tryDash, createDashEffect] <;> split_ifs <;> rfl
  · unfold fireTimer at h
    cases ht : c.game.timers[k]? with
    | none =>
      rw [ht] at h
      simp only [Option.some.injEq] at h
      subst h
      rw [if_pos rfl]
      exact hRun
    | some timer =>
      rw [ht] at h
      dsimp only at h
      have hbase : CountedRun env
          ⟨{ c.game with timers := c.game.timers.eraseIdx k }, c.counts⟩ :=
        CountedRun.other c _ hRun rfl
      cases ha : timer.action with
      | createMissile =>
        simp only [fire, ha] at h
        obtain ⟨m, hm⟩ := createMissile_push env _ t h
        have hlen : ¬ t.missiles.length = c.game.missiles.length := by
          rw [hm]
          simp
        rw [if_neg hlen]
        exact CountedRun.spawn ⟨{ c.game with timers := c.game.timers.eraseIdx k }, c.counts⟩ t
          hbase h
      | undoSlowdown =>
        simp only [fire, ha, Option.some.injEq] at h
        subst h
        have hlen : (undoSlowdown { c.game with timers := c.game.timers.eraseIdx k }).missiles.length
            = c.game.missiles.length := by
          simp [undoSlowdown]
        rw [if_pos hlen]
        exact CountedRun.undo ⟨{ c.game with timers := c.game.timers.eraseIdx k }, c.counts⟩ hbase

/-- C20: in every history of the missile list, with the record `counts` of the
calls of `handleNearMiss` made for each listed missile, every listed missile
has made at most one near-miss event, and one that has made an event has its
flag set.  For every pass of the loop body for a listed missile: the pass fires
exactly when the distance to the player after the position update is strictly
between 1 and 3, the height is above 0 and the flag is not set; a firing adds 1
to `nearMissCount` and 5 to the score, and the missile has no earlier event on
record; a missile that stays listed keeps its index, flagged and with one event
on record after a firing, with flag and record unchanged otherwise.  Every tick
of `updateMissiles` continues the history, and so do `restartGame`,
`updatePlayer`, `handleKeyDown` and an expiring timer. -/
theorem nearMiss_at_most_once (env : Env) (c : Counted) (hRun : CountedRun env c) :
    List.Forall₂ (fun missile n => n ≤ 1 ∧ (n = 1 → missile.hasTriggeredNearMiss = true))
        c.game.missiles c.counts ∧
    (∀ (deltaTime : ℚ) (i : ℕ) (missile : Missile), c.game.missiles[i]? = some missile →
      let distance := env.sqrt (Vec3.lengthSq (Vec3.sub
        ⟨missile.mesh.position.x + missile.velocity.x * deltaTime,
          missile.mesh.position.y + missile.velocity.y * deltaTime,
          missile.mesh.position.z + missile.velocity.z * deltaTime⟩ c.game.playerPosition))
      let height := missile.mesh.position.y + missile.velocity.y * deltaTime
      let after := stepMissile env deltaTime i missile c.game
      let counted := stepMissileCounted env deltaTime i missile c
      counted.game = after ∧
      (passFires env deltaTime missile c.game = true ↔
        1 < distance ∧ distance < 3 ∧ 0 < height ∧ missile.hasTriggeredNearMiss = false) ∧
      after.nearMissCount
        = c.game.nearMissCount + (if passFires env deltaTime missile c.game = true then 1 else 0) ∧
      (passFires env deltaTime missile c.game = true →
        after.score = c.game.score + 5 ∧ c.counts[i]? = some 0) ∧
      (passRemoves env deltaTime missile c.game = false →
        ∃ m' : Missile, after.missiles[i]? = some m' ∧
          (passFires env deltaTime missile c.game = true →
            m'.hasTriggeredNearMiss = true ∧ counted.counts[i]? = some 1) ∧
          (passFires env deltaTime missile c.game = false →
            m'.hasTriggeredNearMiss = missile.hasTriggeredNearMiss ∧
            counted.counts[i]? = c.counts[i]?))) ∧
    (∀ (now deltaTime : ℚ),
      (updateMissilesCounted env now deltaTime c).map Counted.game
        = updateMissiles env now deltaTime c.game ∧
      ∀ c' : Counted, updateMissilesCounted env now deltaTime c = some c' →
        CountedRun env c') ∧
    CountedRun env ⟨restartGame env c.game, c.counts⟩ ∧
    (∀ (input : Input) (deltaTime : ℚ),
      CountedRun env ⟨updatePlayer env input deltaTime c.game,
        if (updatePlayer env input deltaTime c.game).missiles = [] then [] else c.counts⟩) ∧
    (∀ (key : Key) (now : ℚ) (input : Input),
      CountedRun env ⟨(handleKeyDown key now input c.game).2, c.counts⟩) ∧
    (∀ (k : ℕ) (t : Game), fireTimer env k c.game = some t →
      CountedRun env ⟨t,
        if t.missiles.length = c.game.missiles.length then c.counts else c.counts ++ [0]⟩) := by
  have hInv := countedRun_recorded env c hRun
  refine ⟨hInv, ?_, fun now deltaTime =>
    ⟨updateMissilesCounted_game env now deltaTime c,
      fun c' h => updateMissilesCounted_run env now deltaTime c c' hRun h⟩,
    countedRun_steps env c hRun⟩
  intro deltaTime i missile hi distance height after counted
  obtain ⟨A, B, hList, hlen⟩ := split_at_index c.game.missiles i missile hi
  subst hlen
  have hpass := stepMissileCounted_recorded env deltaTime c A B missile hList hInv
  have hcount := stepMissile_nearMissCount env deltaTime A.length missile c.game
  exact ⟨stepMissileCounted_game env deltaTime A.length missile c,
    passFires_iff env deltaTime missile c.game, hcount.1,
    fun h => ⟨hcount.2 h, hpass.2.1 h⟩, hpass.2.2⟩

/-- Evaluation of C20 on `grazing`: the first pass fires and leaves one event on
record; in the second tick the missile is still between 1 and 3 away and above
the ground, and nothing is added: one event, count 1, score 5. -/
theorem nearMiss_at_most_once_witness :
    (stepMissileCounted sampleEnv 0.1 0 grazing ⟨grazingState, [0]⟩).counts = [1] ∧
    List.Forall₂ (fun missile n => n ≤ 1 ∧ (n = 1 → missile.hasTriggeredNearMiss = true))
      (stepMissileCounted sampleEnv 0.1 0 grazing ⟨grazingState, [0]⟩).game.missiles
      (stepMissileCounted sampleEnv 0.1 0 grazing ⟨grazingState, [0]⟩).counts ∧
    (missileLoopCounted sampleEnv 0.1 1 ⟨grazingState, [0]⟩).map
        (fun c => (c.counts, c.game.nearMissCount, c.game.score)) = some ([1], 1, 5) ∧
    ((missileLoopCounted sampleEnv 0.1 1 ⟨grazingState, [0]⟩).bind
        (missileLoopCounted sampleEnv 0.1 1)).map
        (fun c => (c.counts, c.game.nearMissCount, c.game.score,
          c.game.missiles.map (fun m => decide (0 < m.mesh.position.y ∧
            1 < Vec3.lengthSq (Vec3.sub m.mesh.position c.game.playerPosition) ∧
            Vec3.lengthSq (Vec3.sub m.mesh.position c.game.playerPosition) < 9))))
      = some ([1], 1, 5, [true]) :=
  ⟨by decide!,
    (nearMiss_at_most_once sampleEnv
      (stepMissileCounted sampleEnv 0.1 0 grazing ⟨grazingState, [0]⟩)
      (CountedRun.pass ⟨grazingState, [0]⟩ 0.1 0 grazing (CountedRun.start grazingState) rfl)).1,
    by decide!, by decide!⟩

end MemecoinDodge
